import Mathlib

/-!
Verification development for the conversational insurance agent repository.

The definitions below are a shallow embedding of the Python modules
`src/state/client_context.py`, `src/state/session_store.py`,
`src/core/orchestrator.py` and `src/agents/policy_researcher.py`.
Pure Python functions become Lean functions; methods that mutate session
state become explicit state-passing functions over a `Session` value; the
LLM, the tool handlers, the uuid generator and the wall clock are external
collaborators and are passed in as parameters.  Machine floats appear only
as parsed currency amounts and are modelled as exact rationals; JSON values
are modelled by the inductive `JsonVal`.  The Redis-backed persistence layer
(JSON (de)serialisation of rosters) is treated as the identity on
well-formed rosters, per the round-trip property of the store format.
-/

namespace InsuranceAgent

/-- Python `str.strip()`: drop leading and trailing whitespace. -/
def pyStrip (s : String) : String :=
  String.mk (((s.data.dropWhile Char.isWhitespace).reverse.dropWhile
    Char.isWhitespace).reverse)

/-- Python `sep.join(parts)`. -/
def joinWith (sep : String) : List String → String
  | [] => ""
  | [x] => x
  | x :: y :: rest => x ++ sep ++ joinWith sep (y :: rest)

/-- Python `str.lower()` (ASCII case folding, which covers all values used by the repository). -/
def pyLower (s : String) : String := String.mk (s.data.map Char.toLower)

/-- Python `str.upper()` (ASCII case folding). -/
def pyUpper (s : String) : String := String.mk (s.data.map Char.toUpper)

/-- Helper for substring search: does the first list begin the second? -/
def charsLead : List Char → List Char → Bool
  | [], _ => true
  | _ :: _, [] => false
  | a :: as, b :: bs => a == b && charsLead as bs

/-- Helper for Python `needle in haystack` on strings: substring containment. -/
def charsContain (needle : List Char) : List Char → Bool
  | [] => needle.isEmpty
  | c :: rest => charsLead needle (c :: rest) || charsContain needle rest

/-- Python `needle in haystack` for strings. -/
def pyContains (haystack needle : String) : Bool :=
  charsContain needle.data haystack.data

/-- Worker for `pySplit`: accumulate the current word (reversed). -/
def pySplitGo : List Char → List Char → List String
  | [], acc => if acc.isEmpty then [] else [String.mk acc.reverse]
  | c :: rest, acc =>
      if c.isWhitespace then
        if acc.isEmpty then pySplitGo rest []
        else String.mk acc.reverse :: pySplitGo rest []
      else pySplitGo rest (c :: acc)

/-- Python `str.split()` with no separator: split on runs of whitespace, dropping empties. -/
def pySplit (s : String) : List String :=
  pySplitGo s.data []

/-- Python truthiness of an optional string (`None` and `""` are falsy). -/
def truthyOptStr : Option String → Bool
  | none => false
  | some s => s ≠ ""

/-- Python `x or y` on optional strings. -/
def pyOrOptStr (x y : Option String) : Option String :=
  if truthyOptStr x then x else y

/-- Python string comparison `a > b` (lexicographic on code points). -/
def pyStrGt (a b : String) : Bool := decide (b < a)

/-- Blank test of `client_context._is_blank` on an optional string:
`None`, and strings that are empty after stripping, are blank. -/
def is_blank_str : Option String → Bool
  | none => true
  | some s => pyStrip s == ""

/-- Calendar date, standing in for Python `datetime.date`. -/
structure PDate where
  year : Nat
  month : Nat
  day : Nat
deriving DecidableEq

/-- Left-pad a numeral string with zeros to the given width. -/
def padNum (width n : Nat) : String :=
  let s := toString n
  String.mk (List.replicate (width - s.length) '0') ++ s

/-- Python `str(date)`: ISO `YYYY-MM-DD` rendering. -/
def dateStr (d : PDate) : String :=
  padNum 4 d.year ++ "-" ++ padNum 2 d.month ++ "-" ++ padNum 2 d.day

/-- JSON value, as produced by `json.loads` on tool payloads and LLM replies.
Numbers are modelled as exact rationals. -/
inductive JsonVal where
  | jnull : JsonVal
  | jbool : Bool → JsonVal
  | jnum : Rat → JsonVal
  | jstr : String → JsonVal
  | jarr : List JsonVal → JsonVal
  | jobj : List (String × JsonVal) → JsonVal

open JsonVal

/-- First-match lookup in an association list (Python `dict.get` on well-formed dicts). -/
def alistGet (kvs : List (String × JsonVal)) (k : String) : Option JsonVal :=
  (kvs.find? (fun p => p.1 == k)).map (·.2)

/-- Key-membership in an association list (Python `k in d`). -/
def alistHas (kvs : List (String × JsonVal)) (k : String) : Bool :=
  kvs.any (fun p => p.1 == k)

/-- Python dict assignment `d[k] = v`: replace in place if the key exists, else append. -/
def alistSet (kvs : List (String × JsonVal)) (k : String) (v : JsonVal) :
    List (String × JsonVal) :=
  if alistHas kvs k then
    kvs.map (fun p => if p.1 == k then (p.1, v) else p)
  else kvs ++ [(k, v)]

/-- Python dict merge `{**a, **b}`: keys of `a` in order with values overridden
by `b`, followed by the keys of `b` not present in `a`, in order. -/
def dictUnion (a b : List (String × JsonVal)) : List (String × JsonVal) :=
  a.map (fun p => (p.1, (alistGet b p.1).getD p.2)) ++
    b.filter (fun p => !(alistHas a p.1))

/-- Keys of an association list are pairwise distinct (well-formed Python dict). -/
@[reducible] def dictWF (kvs : List (String × JsonVal)) : Prop :=
  (kvs.map Prod.fst).Nodup

/-- Python truthiness of a JSON value. -/
def jsonTruthy : JsonVal → Bool
  | jnull => false
  | jbool b => b
  | jnum q => q ≠ 0
  | jstr s => s ≠ ""
  | jarr xs => !xs.isEmpty
  | jobj kvs => !kvs.isEmpty

/-- Blank test of `session_store._is_blank_value` on a JSON payload value:
`None`, whitespace-only strings, and empty collections are blank. -/
def is_blank_value : JsonVal → Bool
  | jnull => true
  | jstr s => pyStrip s == ""
  | jarr xs => xs.isEmpty
  | jobj kvs => kvs.isEmpty
  | jbool _ => false
  | jnum _ => false

/-- Trip type literal (`"single"` or `"round"`). -/
inductive TripType where
  | single
  | round
deriving DecidableEq

/-- Python string rendering of a trip type. -/
def tripTypeStr : TripType → String
  | .single => "single"
  | .round => "round"

/-- PersonalInfo model from `client_context.py`: six optional scalar fields. -/
structure PersonalInfo where
  name : Option String := none
  email_address : Option String := none
  phone_number : Option String := none
  date_of_birth : Option PDate := none
  place_of_residence : Option String := none
  passport_number : Option String := none
deriving DecidableEq

/-- TripDetails model from `client_context.py`. -/
structure TripDetails where
  trip_id : Option String := none
  destination : Option String := none
  start_date : Option PDate := none
  end_date : Option PDate := none
  trip_type : Option TripType := none
  trip_cost : Option Rat := none
  notes : Option String := none
  metadata : List (String × JsonVal) := []

/-- Verification status literal (`unknown`, `pending`, `confirmed`). -/
inductive VStatus where
  | unknown
  | pending
  | confirmed
deriving DecidableEq

/-- VerificationRecord model from `client_context.py`. -/
structure VerificationRecord where
  status : VStatus := .unknown
  requested_at : Option String := none
  confirmed_at : Option String := none
  fields : List (String × JsonVal) := []

/-- ClientDatum model from `client_context.py`: the aggregate traveller record. -/
structure ClientDatum where
  client_id : Option String := none
  source : Option String := none
  personal_info : PersonalInfo := {}
  trips : List TripDetails := []
  interests : List String := []
  extra : List (String × JsonVal) := []
  verification : VerificationRecord := {}

/-- `TripDetails.missing_fields`: labels of the blank required trip fields, in order. -/
def TripDetails.missing_fields (t : TripDetails) : List String :=
  (if is_blank_str t.destination then ["Trip destination"] else []) ++
  (if t.start_date.isNone then ["Trip start date"] else []) ++
  (if t.end_date.isNone then ["Trip end date"] else []) ++
  (if t.trip_type.isNone then ["Trip type"] else []) ++
  (if t.trip_cost.isNone then ["Trip cost"] else [])

/-- `select_preferred_trip`: first trip with no missing fields, else the first trip. -/
def select_preferred_trip (c : ClientDatum) : Option TripDetails :=
  match c.trips with
  | [] => none
  | t :: _ => some ((c.trips.find? (fun tr => tr.missing_fields.isEmpty)).getD t)

/-- `ClientDatum.required_missing_fields`: labels of the blank mandatory fields -
the six personal fields, then the preferred trip's gaps (or `"Trip details"`). -/
def ClientDatum.required_missing_fields (c : ClientDatum) : List String :=
  let personal :=
    (if is_blank_str c.personal_info.name then ["Name"] else []) ++
    (if is_blank_str c.personal_info.email_address then ["Email address"] else []) ++
    (if is_blank_str c.personal_info.phone_number then ["Phone number"] else []) ++
    (if c.personal_info.date_of_birth.isNone then ["Date of birth"] else []) ++
    (if is_blank_str c.personal_info.place_of_residence then ["Place of residence"] else []) ++
    (if is_blank_str c.personal_info.passport_number then ["Passport number"] else [])
  if c.trips.isEmpty then personal ++ ["Trip details"]
  else
    match select_preferred_trip c with
    | none => personal ++ ["Trip details"]
    | some t => personal ++ t.missing_fields

/-- `_format_trip_dates`: render the travel dates of a trip, if any. -/
def format_trip_dates (t : TripDetails) : Option String :=
  match t.start_date, t.end_date with
  | some s, some e => some (dateStr s ++ " -> " ++ dateStr e)
  | some s, none => some (dateStr s)
  | none, some e => some (dateStr e)
  | none, none => none

/-- Lift an optional string into the JSON value stored in a verification `fields` dict. -/
def optStrJson : Option String → JsonVal
  | none => JsonVal.jnull
  | some s => JsonVal.jstr s

/-- `build_verification_fields`: snapshot of personal and preferred-trip values,
with blank entries filtered out. -/
def build_verification_fields (c : ClientDatum) : List (String × JsonVal) :=
  let base : List (String × JsonVal) :=
    [("name", optStrJson c.personal_info.name),
     ("email_address", optStrJson c.personal_info.email_address),
     ("passport_number", optStrJson c.personal_info.passport_number),
     ("phone_number", optStrJson c.personal_info.phone_number)]
  let withTrip :=
    match select_preferred_trip c with
    | none => base
    | some t =>
        base ++
          [("destination", optStrJson t.destination),
           ("trip_type", match t.trip_type with
                         | none => JsonVal.jnull
                         | some tt => JsonVal.jstr (tripTypeStr tt)),
           ("trip_cost", match t.trip_cost with
                         | none => JsonVal.jnull
                         | some q => JsonVal.jnum q),
           ("travel_dates", optStrJson (format_trip_dates t))]
  withTrip.filter (fun p => !is_blank_value p.2)

/-- `_client_identity_keys`: normalised identity keys of a client, as tagged pairs. -/
def client_identity_keys (c : ClientDatum) : List (String × String) :=
  (if !is_blank_str c.client_id then
      [("client_id", pyLower ((c.client_id).getD ""))] else []) ++
  (if !is_blank_str c.personal_info.passport_number then
      [("passport_number", pyUpper (pyStrip ((c.personal_info.passport_number).getD "")))]
   else []) ++
  (if !is_blank_str c.personal_info.email_address then
      [("email_address", pyLower (pyStrip ((c.personal_info.email_address).getD "")))]
   else []) ++
  (if !is_blank_str c.personal_info.phone_number then
      [("phone_number",
        String.mk ((((c.personal_info.phone_number).getD "").data).filter Char.isDigit))]
   else [])

/-- Set intersection test on identity-key lists. -/
def keysIntersect (a b : List (String × String)) : Bool :=
  a.any (fun k => b.contains k)

/-- Normalised (stripped, lowercased) client name used by relaxed matching. -/
def normName (c : ClientDatum) : String :=
  pyLower (pyStrip ((c.personal_info.name).getD ""))

/-- `_find_matching_client`, returning the index of the matched roster entry.
With no identity keys it falls back to relaxed matching (unique roster entry,
unique source, unique case-insensitive name); otherwise it returns the first
entry whose identity keys intersect the candidate's. -/
def find_matching_client (existing : List ClientDatum) (cand : ClientDatum) :
    Option Nat :=
  let candKeys := client_identity_keys cand
  if candKeys.isEmpty then
    if existing.length == 1 then some 0
    else
      let bySource :=
        if truthyOptStr cand.source then
          let hits := (existing.enum).filter (fun p => p.2.source == cand.source)
          match hits with
          | [(i, _)] => some i
          | _ => none
        else none
      match bySource with
      | some i => some i
      | none =>
          let cname := normName cand
          if cname ≠ "" then
            let hits := (existing.enum).filter (fun p => normName p.2 == cname)
            match hits with
            | [(i, _)] => some i
            | _ => none
          else none
  else
    existing.findIdx? (fun e => keysIntersect (client_identity_keys e) candKeys)

/-- Generic field rule of `_merge_personal_info` / `_merge_trip`: the incoming
value overwrites the current one only when it is non-blank and the current
value is blank or `prefer_source` holds. -/
def mergeVal {α : Type} (isB : α → Bool) (cur new : α) (p : Bool) : α :=
  if !isB new && (isB cur || p) then new else cur

/-- Blank-fill rule of `_merge_client` for `client_id` and `source`: copy the
incoming value only into a blank target. -/
def fillBlank (cur new : Option String) : Option String :=
  if is_blank_str cur && !is_blank_str new then new else cur

/-- Blankness of an optional value that is never a string or a collection
(dates, trip types, costs): only `None` is blank. -/
def is_blank_opt {α : Type} : Option α → Bool
  | none => true
  | some _ => false

/-- `_merge_personal_info`: field-by-field merge of the six personal fields. -/
def merge_personal_info (t s : PersonalInfo) (p : Bool) : PersonalInfo :=
  { name := mergeVal is_blank_str t.name s.name p
    email_address := mergeVal is_blank_str t.email_address s.email_address p
    phone_number := mergeVal is_blank_str t.phone_number s.phone_number p
    date_of_birth := mergeVal is_blank_opt t.date_of_birth s.date_of_birth p
    place_of_residence := mergeVal is_blank_str t.place_of_residence s.place_of_residence p
    passport_number := mergeVal is_blank_str t.passport_number s.passport_number p }

/-- One step of `_merge_interests`: skip blanks, strip, dedup case-insensitively. -/
def mergeInterestsGo : List String → List String → List String → List String
  | [], _, acc => acc.reverse
  | v :: rest, seen, acc =>
      if is_blank_str (some v) then mergeInterestsGo rest seen acc
      else
        let n := pyStrip v
        let key := pyLower n
        if seen.contains key then mergeInterestsGo rest seen acc
        else mergeInterestsGo rest (key :: seen) (n :: acc)

/-- `_merge_interests`: union with case-insensitive dedup, first-seen casing kept. -/
def merge_interests (existing incoming : List String) : List String :=
  mergeInterestsGo (existing ++ incoming) [] []

/-- `_trip_identity_key`: `trip_id` when present, else the normalised tuple
(destination lowercased, start date, end date, trip type); `none` when neither
a trip id nor both destination and start date are available. -/
def trip_identity_key (t : TripDetails) : Option (String × String × String × String) :=
  if !is_blank_str t.trip_id then
    some ("trip_id", (t.trip_id).getD "", "", "")
  else if !is_blank_str t.destination && t.start_date.isSome then
    some (pyLower (pyStrip ((t.destination).getD "")),
          (t.start_date.map dateStr).getD "",
          (t.end_date.map dateStr).getD "",
          (t.trip_type.map tripTypeStr).getD "")
  else none

/-- `_merge_trip`: field-by-field merge of a matched trip; `metadata` always
shallow-merges with incoming keys winning. -/
def merge_trip (base new : TripDetails) (p : Bool) : TripDetails :=
  { trip_id := mergeVal is_blank_str base.trip_id new.trip_id p
    destination := mergeVal is_blank_str base.destination new.destination p
    start_date := mergeVal is_blank_opt base.start_date new.start_date p
    end_date := mergeVal is_blank_opt base.end_date new.end_date p
    trip_type := mergeVal is_blank_opt base.trip_type new.trip_type p
    trip_cost := mergeVal is_blank_opt base.trip_cost new.trip_cost p
    notes := mergeVal is_blank_str base.notes new.notes p
    metadata := if new.metadata.isEmpty then base.metadata
                else dictUnion base.metadata new.metadata }

/-- `_locate_trip_index`: index of the first trip sharing the candidate's
identity key, when the candidate has one. -/
def locate_trip_index (trips : List TripDetails) (cand : TripDetails) : Option Nat :=
  match trip_identity_key cand with
  | none => none
  | some k => trips.findIdx? (fun tr => trip_identity_key tr == some k)

/-- Merge or append a single incoming trip (loop body of `_merge_trips`). -/
def mergeTripStep (p : Bool) (merged : List TripDetails) (trip : TripDetails) :
    List TripDetails :=
  match locate_trip_index merged trip with
  | none => merged ++ [trip]
  | some i =>
      match merged.get? i with
      | none => merged
      | some base => merged.set i (merge_trip base trip p)

/-- `_merge_trips`: merge incoming trips by identity key, appending unmatched ones. -/
def merge_trips (existing incoming : List TripDetails) (p : Bool) : List TripDetails :=
  incoming.foldl (mergeTripStep p) existing

/-- Priority of a verification status (`unknown` 0, `pending` 1, `confirmed` 2). -/
def statusPriority : VStatus → Nat
  | .unknown => 0
  | .pending => 1
  | .confirmed => 2

/-- `_merge_verification`: keep the higher-priority status (stamping timestamps
on upward transitions), merge `fields` and keep the later timestamps on equal
priority, and never regress. The wall clock `_iso_now()` is the `now` argument. -/
def merge_verification (cur inc : VerificationRecord) (now : String) :
    VerificationRecord :=
  let curP := statusPriority cur.status
  let incP := statusPriority inc.status
  if curP < incP then
    { cur with
      status := inc.status
      fields := if inc.fields.isEmpty then cur.fields else inc.fields
      requested_at :=
        if inc.status == .pending && is_blank_str inc.requested_at then some now
        else pyOrOptStr inc.requested_at cur.requested_at
      confirmed_at :=
        pyOrOptStr inc.confirmed_at
          (if inc.status == .confirmed then some now else cur.confirmed_at) }
  else if curP == incP then
    { cur with
      fields := dictUnion cur.fields inc.fields
      requested_at :=
        if truthyOptStr inc.requested_at &&
            (!truthyOptStr cur.requested_at ||
              pyStrGt ((inc.requested_at).getD "") ((cur.requested_at).getD "")) then
          inc.requested_at
        else cur.requested_at
      confirmed_at :=
        if truthyOptStr inc.confirmed_at &&
            (!truthyOptStr cur.confirmed_at ||
              pyStrGt ((inc.confirmed_at).getD "") ((cur.confirmed_at).getD "")) then
          inc.confirmed_at
        else cur.confirmed_at }
  else if curP == 0 && incP == 0 && !inc.fields.isEmpty then
    { cur with fields := inc.fields }
  else cur

/-- `_merge_client`: merge a matched incoming candidate into an existing record;
`prefer_source` holds exactly when the candidate's verification is confirmed. -/
def merge_client (t s : ClientDatum) (now : String) : ClientDatum :=
  let p := s.verification.status == .confirmed
  { client_id := fillBlank t.client_id s.client_id
    source := fillBlank t.source s.source
    personal_info := merge_personal_info t.personal_info s.personal_info p
    interests := merge_interests t.interests s.interests
    trips := merge_trips t.trips s.trips p
    extra := if s.extra.isEmpty then t.extra else dictUnion t.extra s.extra
    verification := merge_verification t.verification s.verification now }

/-- Merge or append a single incoming client (loop body of `merge_client_records`). -/
def mergeClientStep (now : String) (merged : List ClientDatum) (cand : ClientDatum) :
    List ClientDatum :=
  match find_matching_client merged cand with
  | none => merged ++ [cand]
  | some i =>
      match merged.get? i with
      | none => merged
      | some m => merged.set i (merge_client m cand now)

/-- `merge_client_records`: reconcile a batch of incoming records against the roster. -/
def merge_client_records (existing incoming : List ClientDatum) (now : String) :
    List ClientDatum :=
  incoming.foldl (mergeClientStep now) existing

/-- Conversation session snapshot held by the store: transcript, roster, tool cache.
The Redis JSON round-trip of the roster is modelled as the identity. -/
structure Session where
  messages : List (String × String) := []
  clients : List ClientDatum := []
  tool_results : List (String × JsonVal) := []

/-- `append_message`: append a `{role, content}` entry to the transcript. -/
def appendMessage (s : Session) (role content : String) : Session :=
  { s with messages := s.messages ++ [(role, content)] }

/-- `set_tool_result`: cache the last result of a tool under its name. -/
def setToolResult (s : Session) (tool : String) (result : JsonVal) : Session :=
  { s with tool_results := alistSet s.tool_results tool result }

/-- Result shape of `evaluate_payment_readiness`. -/
inductive ReadinessResult where
  | missing_clients (message : String)
  | missing_fields (client_id : Option String) (missing : List String)
  | unverified (client_id : Option String) (fields : List (String × JsonVal))
  | ready (client_id : Option String)

/-- Loop body of `evaluate_payment_readiness`: the first blocking client, if any. -/
def findBlockingClient : List ClientDatum → Option ReadinessResult
  | [] => none
  | c :: rest =>
      let missing := c.required_missing_fields
      if !missing.isEmpty then some (.missing_fields c.client_id missing)
      else if c.verification.status ≠ .confirmed then
        some (.unverified c.client_id
          (if c.verification.fields.isEmpty then build_verification_fields c
           else c.verification.fields))
      else findBlockingClient rest

/-- `evaluate_payment_readiness`: `missing_clients` on an empty roster, else the
first blocking client in roster order, else `ready` with the head client's id. -/
def evaluate_payment_readiness (s : Session) : ReadinessResult :=
  match s.clients with
  | [] => .missing_clients "I don\x27t have any traveller profile yet."
  | c0 :: _ => (findBlockingClient s.clients).getD (.ready c0.client_id)

/-- `_matches_client` of the store: id match, wildcard on falsy id, or passport match. -/
def matches_client (c : ClientDatum) (cid : Option String) : Bool :=
  if truthyOptStr cid && c.client_id == cid then true
  else if !truthyOptStr cid then true
  else
    match c.personal_info.passport_number with
    | some p => p ≠ "" && some p == cid
    | none => false

/-- `request_verification`: move every matching client to `pending` with the
supplied fields snapshot, stamping `requested_at` and clearing `confirmed_at`. -/
def request_verification (now : String) (cid : Option String)
    (flds : List (String × JsonVal)) (s : Session) : Session :=
  let upd := s.clients.map (fun c =>
    if matches_client c cid then
      { c with verification :=
          { status := .pending, fields := flds, requested_at := some now,
            confirmed_at := none } }
    else c)
  if s.clients.any (fun c => matches_client c cid) then { s with clients := upd } else s

/-- Confirmation test of `try_mark_verification`: the trimmed lowercased
message is non-empty, has no question mark, and contains a confirmation
phrase or starts with an acceptance token. -/
def confirmationMessage (userMessage : String) : Bool :=
  if pyLower (pyStrip userMessage) == "" then false
  else if pyContains (pyLower (pyStrip userMessage)) "?" then false
  else
    (["confirm", "confirmed", "looks good", "correct", "go ahead",
      "approve", "proceed", "verified"].any
        (fun p => pyContains (pyLower (pyStrip userMessage)) p)) ||
    (["yes", "yup", "yeah", "sure", "ok", "okay"].contains
      ((pySplit (pyLower (pyStrip userMessage))).headD ""))

/-- The per-client transition of `try_mark_verification`: pending clients
become confirmed with `confirmed_at` stamped. -/
def confirmPendingClient (now : String) (c : ClientDatum) : ClientDatum :=
  if c.verification.status == .pending then
    { c with verification :=
        { c.verification with status := .confirmed, confirmed_at := some now } }
  else c

/-- `try_mark_verification`: on a confirmation message (non-empty, no question
mark, containing a confirmation phrase or starting with an acceptance token),
every pending client becomes confirmed with `confirmed_at` stamped. -/
def try_mark_verification (now userMessage : String) (s : Session) :
    Session × Bool :=
  if confirmationMessage userMessage then
    let updated := s.clients.any (fun c => c.verification.status == .pending)
    if updated then
      ({ s with clients := s.clients.map (confirmPendingClient now) }, true)
    else (s, false)
  else (s, false)

/-- Insert a single `_` between a lowercase/digit character and a following
uppercase character (the camel-case regex of `_normalize_key`). -/
def camelSplit : List Char → List Char
  | a :: b :: rest =>
      if (a.isLower || a.isDigit) && b.isUpper then a :: '_' :: camelSplit (b :: rest)
      else a :: camelSplit (b :: rest)
  | l => l

/-- Worker for `collapseSep`; the flag records whether the previous character
belonged to a separator run. -/
def collapseGo : Bool → List Char → List Char
  | _, [] => []
  | inSep, c :: rest =>
      if c.isAlphanum then c :: collapseGo false rest
      else if inSep then collapseGo true rest
      else '_' :: collapseGo true rest
/-- Collapse every run of non-alphanumeric characters into a single `_`
(the second regex of `_normalize_key`). -/
def collapseSep (l : List Char) : List Char :=
  collapseGo false l

/-- Python `str.strip("_")`. -/
def stripUnderscores (l : List Char) : List Char :=
  ((l.dropWhile (· == '_')).reverse.dropWhile (· == '_')).reverse

/-- `_normalize_key`: case/punctuation-fold a payload key to snake_case. -/
def normalize_key (k : String) : String :=
  let trimmed := pyStrip k
  if trimmed == "" then ""
  else
    String.mk (stripUnderscores
      ((collapseSep (camelSplit trimmed.data)).map Char.toLower))

/-- Is the year a Gregorian leap year? -/
def isLeapYear (y : Nat) : Bool :=
  (y % 4 == 0 && y % 100 ≠ 0) || y % 400 == 0

/-- Number of days in a month (Python `datetime` calendar). -/
def daysInMonth (y m : Nat) : Nat :=
  if m == 2 then (if isLeapYear y then 29 else 28)
  else if m == 4 || m == 6 || m == 9 || m == 11 then 30
  else 31

/-- Validity of a calendar date as enforced by `datetime` construction. -/
def validDate (y m d : Nat) : Bool :=
  1 ≤ y && y ≤ 9999 && 1 ≤ m && m ≤ 12 && 1 ≤ d && d ≤ daysInMonth y m

/-- Directive tokens of the `strptime` format strings used by `_DATE_FORMATS`. -/
inductive FTok where
  | y4
  | m2
  | d2
  | bFull
  | bAbbr
  | lit (c : Char)

/-- Numeric value of a digit list. -/
def digitsToNat (l : List Char) : Nat :=
  l.foldl (fun acc c => acc * 10 + (c.toNat - '0'.toNat)) 0

/-- Full month names with their numbers (the `%B` alternatives). -/
def monthFull : List (String × Nat) :=
  [("january", 1), ("february", 2), ("march", 3), ("april", 4), ("may", 5),
   ("june", 6), ("july", 7), ("august", 8), ("september", 9), ("october", 10),
   ("november", 11), ("december", 12)]

/-- Abbreviated month names with their numbers (the `%b` alternatives). -/
def monthAbbr : List (String × Nat) :=
  [("jan", 1), ("feb", 2), ("mar", 3), ("apr", 4), ("may", 5), ("jun", 6),
   ("jul", 7), ("aug", 8), ("sep", 9), ("oct", 10), ("nov", 11), ("dec", 12)]

/-- Case-insensitive prefix match of a month name against the input. -/
def monthNameMatches : List (String × Nat) → List Char → List (Nat × List Char)
  | [], _ => []
  | (nm, v) :: rest, cs =>
      let n := nm.data.length
      let (pre, post) := (cs.take n, cs.drop n)
      if (pre.map Char.toLower) == nm.data then
        (v, post) :: monthNameMatches rest cs
      else monthNameMatches rest cs

/-- Candidate matches of a single directive at the front of the input, in the
order the `strptime` regular expression tries its alternatives. -/
def tokMatches : FTok → List Char → List (Nat × List Char)
  | .y4, a :: b :: c :: d :: rest =>
      if a.isDigit && b.isDigit && c.isDigit && d.isDigit then
        [(digitsToNat [a, b, c, d], rest)]
      else []
  | .y4, _ => []
  | .m2, a :: b :: rest =>
      -- regex 1[0-2] | 0[1-9] | [1-9]
      (if a == '1' && '0' ≤ b && b ≤ '2' then [(digitsToNat [a, b], rest)] else []) ++
      (if a == '0' && '1' ≤ b && b ≤ '9' then [(digitsToNat [a, b], rest)] else []) ++
      (if '1' ≤ a && a ≤ '9' then [(digitsToNat [a], b :: rest)] else [])
  | .m2, [a] => if '1' ≤ a && a ≤ '9' then [(digitsToNat [a], [])] else []
  | .m2, [] => []
  | .d2, a :: b :: rest =>
      -- regex 3[01] | [12]\d | 0[1-9] | [1-9]
      (if a == '3' && (b == '0' || b == '1') then [(digitsToNat [a, b], rest)] else []) ++
      (if (a == '1' || a == '2') && b.isDigit then [(digitsToNat [a, b], rest)] else []) ++
      (if a == '0' && '1' ≤ b && b ≤ '9' then [(digitsToNat [a, b], rest)] else []) ++
      (if '1' ≤ a && a ≤ '9' then [(digitsToNat [a], b :: rest)] else [])
  | .d2, [a] => if '1' ≤ a && a ≤ '9' then [(digitsToNat [a], [])] else []
  | .d2, [] => []
  | .bFull, cs => monthNameMatches monthFull (cs.map Char.toLower)
  | .bAbbr, cs => monthNameMatches monthAbbr (cs.map Char.toLower)
  | .lit c, a :: rest => if a == c then [(0, rest)] else []
  | .lit _, [] => []

mutual
/-- Backtracking matcher for a `strptime` format over the whole input. -/
def matchToks : List FTok → List Char → Nat → Nat → Nat → Option (Nat × Nat × Nat)
  | [], cs, y, m, d => if cs.isEmpty then some (y, m, d) else none
  | tok :: rest, cs, y, m, d => tryCands tok rest (tokMatches tok cs) y m d
termination_by toks _ _ _ _ => (toks.length, 0)
/-- Try the candidate matches of one directive in order, backtracking on failure. -/
def tryCands : FTok → List FTok → List (Nat × List Char) → Nat → Nat → Nat →
    Option (Nat × Nat × Nat)
  | _, _, [], _, _, _ => none
  | tok, rest, (v, cs) :: more, y, m, d =>
      let attempt :=
        match tok with
        | .y4 => matchToks rest cs v m d
        | .m2 => matchToks rest cs y v d
        | .bFull => matchToks rest cs y v d
        | .bAbbr => matchToks rest cs y v d
        | .d2 => matchToks rest cs y m v
        | .lit _ => matchToks rest cs y m d
      match attempt with
      | some r => some r
      | none => tryCands tok rest more y m d
termination_by _ rest cands _ _ _ => (rest.length, cands.length + 1)
end

/-- One `strptime` attempt: match the format and validate the calendar date. -/
def strptimeDate (fmt : List FTok) (cs : List Char) : Option PDate :=
  match matchToks fmt cs 0 0 0 with
  | none => none
  | some (y, m, d) => if validDate y m d then some ⟨y, m, d⟩ else none

/-- The `_DATE_FORMATS` list, in source order. -/
def dateFormats : List (List FTok) :=
  [[.y4, .lit '-', .m2, .lit '-', .d2],
   [.y4, .lit '/', .m2, .lit '/', .d2],
   [.d2, .lit '-', .m2, .lit '-', .y4],
   [.d2, .lit '/', .m2, .lit '/', .y4],
   [.m2, .lit '/', .d2, .lit '/', .y4],
   [.m2, .lit '-', .d2, .lit '-', .y4],
   [.d2, .lit ' ', .bFull, .lit ' ', .y4],
   [.d2, .lit ' ', .bAbbr, .lit ' ', .y4],
   [.bFull, .lit ' ', .d2, .lit ' ', .y4],
   [.bAbbr, .lit ' ', .d2, .lit ' ', .y4],
   [.d2, .lit ' ', .bFull, .lit ',', .lit ' ', .y4],
   [.d2, .lit ' ', .bAbbr, .lit ',', .lit ' ', .y4],
   [.bFull, .lit ' ', .d2, .lit ',', .lit ' ', .y4],
   [.bAbbr, .lit ' ', .d2, .lit ',', .lit ' ', .y4],
   [.y4, .lit '.', .m2, .lit '.', .d2],
   [.d2, .lit '.', .m2, .lit '.', .y4]]

/-- Modelled `datetime.fromisoformat(...).date()`: the `YYYY-MM-DD` calendar
form (date-only; datetime strings fall through to the explicit format list). -/
def fromIsoDate (cs : List Char) : Option PDate :=
  match cs with
  | [y1, y2, y3, y4c, '-', m1, m2c, '-', d1, d2c] =>
      if y1.isDigit && y2.isDigit && y3.isDigit && y4c.isDigit &&
          m1.isDigit && m2c.isDigit && d1.isDigit && d2c.isDigit then
        let y := digitsToNat [y1, y2, y3, y4c]
        let m := digitsToNat [m1, m2c]
        let d := digitsToNat [d1, d2c]
        if validDate y m d then some ⟨y, m, d⟩ else none
      else none
  | _ => none

/-- First successful parse over the format list. -/
def firstFormatParse : List (List FTok) → List Char → Option PDate
  | [], _ => none
  | fmt :: rest, cs =>
      match strptimeDate fmt cs with
      | some d => some d
      | none => firstFormatParse rest cs

/-- `_parse_date` on a string value: `fromisoformat` first, then the fixed list
of `strptime` formats. -/
def parse_date_str (text : String) : Option PDate :=
  let t := pyStrip text
  if t == "" then none
  else
    match fromIsoDate t.data with
    | some d => some d
    | none => firstFormatParse dateFormats t.data

/-- `_parse_date` on a JSON payload value: only strings can parse (JSON
payloads carry no `date` objects). -/
def parse_date (v : JsonVal) : Option PDate :=
  match v with
  | JsonVal.jstr s => parse_date_str s
  | _ => none

/-- Leftmost match of `-?\d+(\.\d+)?` starting exactly at the head of the input. -/
def matchNumberAt (cs : List Char) : Option Rat :=
  let parseUnsigned : List Char → Option Rat := fun l =>
    let intDigits := l.takeWhile Char.isDigit
    if intDigits.isEmpty then none
    else
      let rest := l.drop intDigits.length
      match rest with
      | '.' :: tail =>
          let fracDigits := tail.takeWhile Char.isDigit
          if fracDigits.isEmpty then some (digitsToNat intDigits : Rat)
          else
            some ((digitsToNat intDigits : Rat) +
              (digitsToNat fracDigits : Rat) / ((10 : Rat) ^ fracDigits.length))
      | _ => some (digitsToNat intDigits : Rat)
  match cs with
  | '-' :: rest => (parseUnsigned rest).map (fun q => -q)
  | _ => parseUnsigned cs

/-- Leftmost match of `-?\d+(\.\d+)?` anywhere in the input (regex search). -/
def findNumber : List Char → Option Rat
  | [] => none
  | c :: rest =>
      match matchNumberAt (c :: rest) with
      | some q => some q
      | none => findNumber rest

/-- `_parse_float`: numbers (and booleans, which Python treats as ints) convert
directly; strings are stripped, commas removed, and searched for the first
decimal literal. -/
def parse_float (v : JsonVal) : Option Rat :=
  match v with
  | JsonVal.jnum q => some q
  | JsonVal.jbool b => some (if b then 1 else 0)
  | JsonVal.jstr s =>
      let t := pyStrip s
      if t == "" then none
      else findNumber (t.data.filter (fun c => c ≠ ','))
  | _ => none

/-- Modelled Python `str(value)` on JSON values.  Strings, booleans, `None`
and integral numbers follow Python exactly; non-integral numbers and
containers get a deterministic stand-in rendering (no theorem depends on
those cases). -/
def pyStr : JsonVal → String
  | JsonVal.jnull => "None"
  | JsonVal.jbool true => "True"
  | JsonVal.jbool false => "False"
  | JsonVal.jnum q => if q.den == 1 then toString q.num else toString q
  | JsonVal.jstr s => s
  | JsonVal.jarr _ => "[...]"
  | JsonVal.jobj _ => "\x7b...\x7d"

/-- `_normalize_trip_type`: map the recognised aliases onto `single`/`round`. -/
def normalize_trip_type (v : JsonVal) : Option TripType :=
  match v with
  | JsonVal.jnull => none
  | _ =>
      let text := pyLower (pyStrip (pyStr v))
      if text == "" then none
      else if ["single", "single_trip", "single-trip", "one_way", "one-way"].contains text
        then some .single
      else if ["round", "round_trip", "round-trip", "return", "return_trip",
               "roundtrip"].contains text then some .round
      else none

/-- String-field branch of `_normalize_personal_info_value`: `str(value).strip()`,
lowercased for email addresses. -/
def normalize_personal_str (lower : Bool) (v : JsonVal) : Option String :=
  if is_blank_value v then none
  else
    let text := pyStrip (pyStr v)
    if text == "" then none
    else some (if lower then pyLower text else text)

/-- Destination branch of `_normalize_trip_value`: `str(value).strip()`. -/
def normalize_destination (v : JsonVal) : Option String :=
  if is_blank_value v then none
  else
    let text := pyStrip (pyStr v)
    if text == "" then none else some text

/-- `_values_equal` on optional strings: both strings compare stripped;
`None` never equals a string. -/
def valuesEqualStr (cur : Option String) (new : String) : Bool :=
  match cur with
  | some c => pyStrip c == pyStrip new
  | none => false

/-- `_PERSONAL_INFO_FIELD_MAP`: recognised snake_case keys to personal fields. -/
def personalInfoFieldMap : List (String × String) :=
  [("customer_email", "email_address"), ("email", "email_address"),
   ("email_address", "email_address"), ("contact_email", "email_address"),
   ("name", "name"), ("full_name", "name"), ("customer_name", "name"),
   ("traveller_name", "name"), ("traveler_name", "name"),
   ("phone", "phone_number"), ("phone_number", "phone_number"),
   ("contact_number", "phone_number"), ("mobile", "phone_number"),
   ("customer_phone", "phone_number"), ("customer_phone_number", "phone_number"),
   ("date_of_birth", "date_of_birth"), ("dob", "date_of_birth"),
   ("birth_date", "date_of_birth"),
   ("passport", "passport_number"), ("passport_number", "passport_number"),
   ("place_of_residence", "place_of_residence"), ("residence", "place_of_residence"),
   ("home_city", "place_of_residence"), ("city", "place_of_residence"),
   ("address", "place_of_residence")]

/-- `_TRIP_FIELD_MAP`: recognised snake_case keys to trip fields. -/
def tripFieldMap : List (String × String) :=
  [("destination", "destination"), ("trip_destination", "destination"),
   ("travel_destination", "destination"), ("destination_city", "destination"),
   ("start_date", "start_date"), ("trip_start_date", "start_date"),
   ("departure_date", "start_date"), ("travel_start", "start_date"),
   ("end_date", "end_date"), ("trip_end_date", "end_date"),
   ("return_date", "end_date"), ("travel_end", "end_date"),
   ("trip_type", "trip_type"), ("trip_category", "trip_type"),
   ("trip_cost", "trip_cost"), ("total_cost", "trip_cost"),
   ("coverage_amount", "trip_cost"), ("premium_amount", "trip_cost")]

/-- Plain lookup in a string-to-string association list. -/
def strMapGet (kvs : List (String × String)) (k : String) : Option String :=
  (kvs.find? (fun p => p.1 == k)).map (·.2)

/-- Apply one normalised update to the personal-info record: skip when the
normalisation failed or `_values_equal` holds, else set the field. -/
def updOpt {β : Type} (pi : PersonalInfo) (upd : Option β)
    (curEq : β → Bool) (mk : β → PersonalInfo) : PersonalInfo × Bool :=
  match upd with
  | none => (pi, false)
  | some x => if curEq x then (pi, false) else (mk x, true)

/-- Apply one aggregated payload entry to the personal-info record (the
personal-field loop body of `_enrich_client_from_payment_payload`): normalise
the value and overwrite the field whenever the result differs. -/
def applyPersonalEntry (pi : PersonalInfo) (key : String) (v : JsonVal) :
    PersonalInfo × Bool :=
  match strMapGet personalInfoFieldMap key with
  | none => (pi, false)
  | some field =>
      if field == "date_of_birth" then
        updOpt pi (if is_blank_value v then none else parse_date v)
          (fun d => pi.date_of_birth == some d)
          (fun d => { pi with date_of_birth := some d })
      else if field == "email_address" then
        updOpt pi (normalize_personal_str true v)
          (fun nv => valuesEqualStr pi.email_address nv)
          (fun nv => { pi with email_address := some nv })
      else if field == "name" then
        updOpt pi (normalize_personal_str false v)
          (fun nv => valuesEqualStr pi.name nv)
          (fun nv => { pi with name := some nv })
      else if field == "place_of_residence" then
        updOpt pi (normalize_personal_str false v)
          (fun nv => valuesEqualStr pi.place_of_residence nv)
          (fun nv => { pi with place_of_residence := some nv })
      else if field == "passport_number" then
        updOpt pi (normalize_personal_str false v)
          (fun nv => valuesEqualStr pi.passport_number nv)
          (fun nv => { pi with passport_number := some nv })
      else if field == "phone_number" then
        updOpt pi (normalize_personal_str false v)
          (fun nv => valuesEqualStr pi.phone_number nv)
          (fun nv => { pi with phone_number := some nv })
      else (pi, false)

/-- Pending trip-field updates gathered from the aggregated payload
(`trip_updates` dict; each field keeps the last successfully normalised value). -/
structure TripUpdates where
  destination : Option String := none
  start_date : Option PDate := none
  end_date : Option PDate := none
  trip_type : Option TripType := none
  trip_cost : Option Rat := none

/-- Does any trip update remain to be applied? -/
def TripUpdates.nonempty (u : TripUpdates) : Bool :=
  u.destination.isSome || u.start_date.isSome || u.end_date.isSome ||
    u.trip_type.isSome || u.trip_cost.isSome

/-- Gather one aggregated entry into the pending trip updates
(the trip loop of `_enrich_client_from_payment_payload`). -/
def gatherTripEntry (u : TripUpdates) (key : String) (v : JsonVal) : TripUpdates :=
  match strMapGet tripFieldMap key with
  | none => u
  | some field =>
      if is_blank_value v then u
      else if field == "start_date" then
        match parse_date v with
        | none => u
        | some d => { u with start_date := some d }
      else if field == "end_date" then
        match parse_date v with
        | none => u
        | some d => { u with end_date := some d }
      else if field == "trip_cost" then
        match parse_float v with
        | none => u
        | some q => { u with trip_cost := some q }
      else if field == "trip_type" then
        match normalize_trip_type v with
        | none => u
        | some tt => { u with trip_type := some tt }
      else if field == "destination" then
        match normalize_destination v with
        | none => u
        | some dst => { u with destination := some dst }
      else u

/-- Apply one gathered field update: keep the trip when the normalised value
equals the current one (`_values_equal`), else set the field. -/
def applyOneUpdate {β : Type} (t : TripDetails) (upd : Option β)
    (curEq : β → Bool) (setF : β → TripDetails) : TripDetails × Bool :=
  match upd with
  | none => (t, false)
  | some v => if curEq v then (t, false) else (setF v, true)

/-- Apply the gathered trip updates to one trip, setting each field whose
normalised value differs from the current one. -/
def applyTripUpdates (t : TripDetails) (u : TripUpdates) : TripDetails × Bool :=
  let r1 := applyOneUpdate t u.destination
    (fun dst => valuesEqualStr t.destination dst)
    (fun dst => { t with destination := some dst })
  let t1 := r1.1
  let r2 := applyOneUpdate t1 u.start_date
    (fun d => t1.start_date == some d)
    (fun d => { t1 with start_date := some d })
  let t2 := r2.1
  let r3 := applyOneUpdate t2 u.end_date
    (fun d => t2.end_date == some d)
    (fun d => { t2 with end_date := some d })
  let t3 := r3.1
  let r4 := applyOneUpdate t3 u.trip_type
    (fun tt => t3.trip_type == some tt)
    (fun tt => { t3 with trip_type := some tt })
  let t4 := r4.1
  let r5 := applyOneUpdate t4 u.trip_cost
    (fun q => t4.trip_cost == some q)
    (fun q => { t4 with trip_cost := some q })
  (r5.1, r1.2 || r2.2 || r3.2 || r4.2 || r5.2)

/-- Index of the preferred trip (`select_preferred_trip`), as a position. -/
def preferred_trip_index (c : ClientDatum) : Option Nat :=
  if c.trips.isEmpty then none
  else some ((c.trips.findIdx? (fun tr => tr.missing_fields.isEmpty)).getD 0)

/-- Collect one payload entry into the aggregated dict (`_collect`):
normalise the key, skip blanks, first occurrence wins. -/
def collectEntry (agg : List (String × JsonVal)) (k : String) (v : JsonVal) :
    List (String × JsonVal) :=
  let nk := normalize_key k
  if nk == "" then agg
  else if is_blank_value v then agg
  else if alistHas agg nk then agg
  else agg ++ [(nk, v)]

/-- The fixed top-level payload keys scanned by `_enrich_client_from_payment_payload`. -/
def enrichSourceKeys : List String :=
  ["customer_email", "customer_name", "customer_phone", "customer_phone_number",
   "traveller_name", "traveler_name", "phone_number", "passport_number",
   "date_of_birth", "place_of_residence", "destination", "trip_destination",
   "trip_start_date", "trip_end_date", "trip_type", "trip_cost"]

/-- The aggregated dict built by `_collect` inside
`_enrich_client_from_payment_payload`: recognised top-level keys first, then
metadata entries, normalised keys, blanks skipped, first occurrence winning. -/
def enrichAggregate (payload : List (String × JsonVal)) :
    List (String × JsonVal) :=
  let metadata :=
    match alistGet payload "metadata" with
    | some (JsonVal.jobj kvs) => kvs
    | _ => []
  let agg1 := enrichSourceKeys.foldl
    (fun agg k =>
      match alistGet payload k with
      | some v => collectEntry agg k v
      | none => agg) []
  metadata.foldl (fun a kv => collectEntry a kv.1 kv.2) agg1

/-- The personal-info loop of `_enrich_client_from_payment_payload`. -/
def enrichPersonalFold (pi : PersonalInfo) (agg : List (String × JsonVal)) :
    PersonalInfo × Bool :=
  agg.foldl
    (fun (st : PersonalInfo × Bool) kv =>
      let r := applyPersonalEntry st.1 kv.1 kv.2
      (r.1, st.2 || r.2)) (pi, false)

/-- The pending updates gathered from the aggregated payload. -/
def enrichTripUpdates (agg : List (String × JsonVal)) : TripUpdates :=
  agg.foldl (fun u kv => gatherTripEntry u kv.1 kv.2) {}

/-- The trip loop of `_enrich_client_from_payment_payload`: gather the pending
updates, then apply them to the preferred trip (appending a fresh trip when
the client has none). -/
def enrichTrips (c : ClientDatum) (agg : List (String × JsonVal)) :
    List TripDetails × Bool :=
  if (enrichTripUpdates agg).nonempty then
    match preferred_trip_index c with
    | none =>
        ([(applyTripUpdates {} (enrichTripUpdates agg)).1],
         (applyTripUpdates {} (enrichTripUpdates agg)).2)
    | some i =>
        match c.trips.get? i with
        | none => (c.trips, false)
        | some t =>
            (c.trips.set i (applyTripUpdates t (enrichTripUpdates agg)).1,
             (applyTripUpdates t (enrichTripUpdates agg)).2)
  else (c.trips, false)

/-- `_enrich_client_from_payment_payload`: fold the recognised (normalised)
payload and metadata entries into the client's personal info and preferred
trip, refreshing the verification snapshot when anything changed. -/
def enrich_client_from_payment_payload (c : ClientDatum)
    (payload : List (String × JsonVal)) : ClientDatum × Bool :=
  let agg := enrichAggregate payload
  if agg.isEmpty then (c, false)
  else
    let pr := enrichPersonalFold c.personal_info agg
    let tr := enrichTrips c agg
    let updated := pr.2 || tr.2
    let c2 := { c with personal_info := pr.1, trips := tr.1 }
    let c3 :=
      if updated && c2.verification.status ≠ .confirmed then
        { c2 with verification :=
            { c2.verification with fields := build_verification_fields c2 } }
      else c2
    (c3, updated)

/-- `apply_payment_context`: enrich every incomplete roster profile from the
checkout payload; complete profiles are skipped, and the session is rewritten
only when something changed. -/
def apply_payment_context (payload : JsonVal) (s : Session) : Session :=
  match payload with
  | JsonVal.jobj kvs =>
      if kvs.isEmpty then s
      else if s.clients.isEmpty then s
      else
        let results := s.clients.map (fun c =>
          if c.required_missing_fields.isEmpty then (c, false)
          else enrich_client_from_payment_payload c kvs)
        if results.any (·.2) then { s with clients := results.map (·.1) } else s
  | _ => s

/-- Minimal JSON string escaping used by the modelled `json.dumps`. -/
def jsonEscapeChar (c : Char) : String :=
  if c == '"' then "\\\"" else if c == '\\' then "\\\\"
  else if c == '\n' then "\\n" else String.singleton c

/-- Escape a string for the modelled `json.dumps`. -/
def jsonEscape (s : String) : String :=
  String.join (s.data.map jsonEscapeChar)

mutual
/-- Modelled `json.dumps(..., ensure_ascii=False)` with the default separators. -/
def dumpJson : JsonVal → String
  | JsonVal.jnull => "null"
  | JsonVal.jbool true => "true"
  | JsonVal.jbool false => "false"
  | JsonVal.jnum q => if q.den == 1 then toString q.num else toString q
  | JsonVal.jstr s => "\"" ++ jsonEscape s ++ "\""
  | JsonVal.jarr xs => "[" ++ dumpJsonArr xs ++ "]"
  | JsonVal.jobj kvs => "\x7b" ++ dumpJsonObj kvs ++ "\x7d"
/-- Comma-joined array elements of the modelled `json.dumps`. -/
def dumpJsonArr : List JsonVal → String
  | [] => ""
  | [x] => dumpJson x
  | x :: y :: rest => dumpJson x ++ ", " ++ dumpJsonArr (y :: rest)
/-- Comma-joined object entries of the modelled `json.dumps`. -/
def dumpJsonObj : List (String × JsonVal) → String
  | [] => ""
  | [(k, v)] => "\"" ++ jsonEscape k ++ "\": " ++ dumpJson v
  | (k, v) :: p :: rest =>
      "\"" ++ jsonEscape k ++ "\": " ++ dumpJson v ++ ", " ++ dumpJsonObj (p :: rest)
end

/-- Python `x or default` on an optional JSON value. -/
def pyOrJson (x : Option JsonVal) (dflt : JsonVal) : JsonVal :=
  match x with
  | some v => if jsonTruthy v then v else dflt
  | none => dflt

/-- `_normalize_output`: coerce the LLM's `output` field to a string
(`None` becomes empty, containers are JSON-serialised, scalars stringified). -/
def normalize_output (v : Option JsonVal) : String :=
  match v with
  | none => ""
  | some JsonVal.jnull => ""
  | some (JsonVal.jstr s) => s
  | some (JsonVal.jarr xs) => dumpJson (JsonVal.jarr xs)
  | some (JsonVal.jobj kvs) => dumpJson (JsonVal.jobj kvs)
  | some v => pyStr v

/-- `_extract_actions`: the `actions` list filtered to dict entries, else a
truthy singular `action` lifted into a one-element list, else nothing. -/
def extract_actions (payload : List (String × JsonVal)) :
    List (List (String × JsonVal)) :=
  match alistGet payload "actions" with
  | some (JsonVal.jarr xs) =>
      xs.filterMap (fun v =>
        match v with
        | JsonVal.jobj kvs => some kvs
        | _ => none)
  | _ =>
      if jsonTruthy ((alistGet payload "action").getD JsonVal.jnull) then
        [[("tool", (alistGet payload "action").getD JsonVal.jnull),
          ("input", (alistGet payload "input").getD (JsonVal.jobj [])),
          ("tool_call_id", (alistGet payload "tool_call_id").getD JsonVal.jnull)]]
      else []

/-- `_coerce_json_payload`: empty replies and non-JSON replies degrade to a
plain `output`; non-dict JSON is stringified; dicts pass through.  The pair
`(reply, parsed)` stands for the raw LLM text and its `json.loads` result. -/
def coerce_json_payload (reply : String) (parsed : Option JsonVal) :
    List (String × JsonVal) :=
  if reply == "" then [("output", JsonVal.jstr ""), ("actions", JsonVal.jarr [])]
  else
    match parsed with
    | none => [("output", JsonVal.jstr reply), ("actions", JsonVal.jarr [])]
    | some (JsonVal.jobj kvs) => kvs
    | some (JsonVal.jstr s) => [("output", JsonVal.jstr s), ("actions", JsonVal.jarr [])]
    | some v => [("output", JsonVal.jstr (dumpJson v)), ("actions", JsonVal.jarr [])]

/-- `_compose_payment_guard_reply`: the status-specific guard message. -/
def compose_payment_guard_reply (r : ReadinessResult) : String :=
  match r with
  | .missing_clients _ =>
      "Before we can secure a policy, I need the traveller\x27s profile - " ++
      "name, contacts, passport and trip itinerary. " ++
      "Please share those details, or pass them through the integration payload."
  | .missing_fields _ missing =>
      match missing with
      | [] =>
          "I still need a required detail before the payment step. " ++
          "Let me know once it\x27s available so I can prepare checkout."
      | [label] =>
          "I\x27m almost ready to set up payment?could you share " ++
          "the " ++ pyLower label ++ " so I can proceed?"
      | _ =>
          let fieldsText :=
            joinWith ", " missing.dropLast ++
              " and " ++ (missing.getLast?).getD ""
          "I still need a few details before the payment step: " ++
          fieldsText ++ ". Once you share them, I can prepare checkout."
  | .unverified _ flds =>
      let labelMap : List (String × String) :=
        [("name", "Name"), ("destination", "Destination"),
         ("trip_type", "Trip type"), ("trip_cost", "Trip cost"),
         ("travel_dates", "Travel dates"), ("email_address", "Email"),
         ("phone_number", "Phone"), ("passport_number", "Passport number")]
      let lines := labelMap.filterMap (fun p =>
        match alistGet flds p.1 with
        | some v => if jsonTruthy v then some ("- " ++ p.2 ++ ": " ++ pyStr v) else none
        | none => none)
      let summary :=
        if lines.isEmpty then "- Traveller details on file"
        else joinWith "\n" lines
      "Let\x27s double-check the traveller info before payment:\n" ++ summary ++
        "\nPlease confirm everything is correct (a simple \x27Confirmed\x27 works) " ++
        "so I can continue."
  | .ready _ =>
      "I need a complete and confirmed traveller profile before creating the " ++
      "checkout link. Could you review the details and update anything " ++
      "that\x27s missing?"

/-- Render the detail fragments of one benefit entry of the policy summary. -/
def benefitLine (benefit : List (String × JsonVal)) : String :=
  let benefitName := pyStrip (pyStr (pyOrJson (alistGet benefit "name") (JsonVal.jstr "Benefit")))
  let why := pyStrip (pyStr (pyOrJson (alistGet benefit "why_eligible") (JsonVal.jstr "")))
  let limitFragments :=
    match alistGet benefit "parameters" with
    | some (JsonVal.jobj params) =>
        let coverageLimit :=
          pyOrJson (some (pyOrJson (alistGet params "coverage_limit") JsonVal.jnull))
            ((alistGet params "limit").getD JsonVal.jnull)
        if jsonTruthy coverageLimit then ["limit " ++ pyStr coverageLimit] else []
    | _ => []
  let conditionFragments :=
    match alistGet benefit "conditions" with
    | some (JsonVal.jarr items) =>
        let rendered := (items.map (fun it => pyStrip (pyStr it))).filter (fun t => t ≠ "")
        if rendered.isEmpty then [] else ["conditions: " ++ joinWith "; " rendered]
    | _ => []
  let fragments := limitFragments ++ conditionFragments
  let detailSuffix :=
    if fragments.isEmpty then "" else " (" ++ joinWith "; " fragments ++ ")"
  if why ≠ "" then "  - " ++ benefitName ++ ": " ++ why ++ detailSuffix
  else "  - " ++ benefitName ++ detailSuffix

/-- Render the lines contributed by one product entry of the policy summary. -/
def productLines (entry : JsonVal) : List String :=
  match entry with
  | JsonVal.jobj kvs =>
      let productName := pyStrip (pyStr (pyOrJson (alistGet kvs "product") (JsonVal.jstr "Unnamed product")))
      let tier := pyStrip (pyStr (pyOrJson (alistGet kvs "tier") (JsonVal.jstr "")))
      let header := if tier ≠ "" then productName ++ " (" ++ tier ++ ")" else productName
      let benefitEntries :=
        match alistGet kvs "benefits" with
        | some (JsonVal.jarr items) =>
            items.filterMap (fun v =>
              match v with
              | JsonVal.jobj b => some (benefitLine b)
              | _ => none)
        | _ => []
      ("- " ++ header) :: benefitEntries
  | _ => []

/-- The product block of the policy summary (header plus per-product lines). -/
def policyProductLines (productsVal : Option JsonVal) : List String :=
  match productsVal with
  | some (JsonVal.jarr items) =>
      if items.isEmpty then []
      else "Here is what I can confirm from the policy taxonomy:" ::
        (items.map productLines).flatten
  | _ => []

/-- All body lines of the policy summary (products then reasoning). -/
def policySummaryLines (kvs : List (String × JsonVal)) : List String :=
  let productPart := policyProductLines (alistGet kvs "products")
  match alistGet kvs "reasoning" with
  | some (JsonVal.jstr rs) =>
      if pyStrip rs ≠ "" then
        (if productPart.isEmpty then [] else productPart ++ [""]) ++ [pyStrip rs]
      else productPart
  | _ => productPart

/-- `_compose_policy_research_summary`: deterministic rendering of a policy
research result (eligible products, benefits, reasoning, attribution line). -/
def compose_policy_research_summary (result : JsonVal) : String :=
  match result with
  | JsonVal.jobj kvs =>
      if (policySummaryLines kvs).isEmpty then ""
      else pyStrip (joinWith "\n"
        (policySummaryLines kvs ++ ["", "Source: policy taxonomy dataset."]))
  | _ => ""

/-- One executed tool invocation, as recorded in `tool_runs`. -/
structure ToolRun where
  name : JsonVal
  input : JsonVal
  result : JsonVal
  tool_call_id : JsonVal

/-- `_compose_tool_fallback_reply`: a fallback summary exists only when the
last executed tool was `policy_research`. -/
def compose_tool_fallback_reply (runs : List ToolRun) : String :=
  match runs.getLast? with
  | none => ""
  | some lastRun =>
      match lastRun.name with
      | JsonVal.jstr nm =>
          if nm == "policy_research" then compose_policy_research_summary lastRun.result
          else ""
      | _ => ""

/-- Structured result of one `handle_message` turn.  `llm_calls` counts the
invocations of the external LLM oracle (an observable side effect). -/
structure OrchestratorResult where
  output : String
  actions : List (List (String × JsonVal))
  tool_used : Option JsonVal
  tool_result : Option JsonVal
  tool_runs : List ToolRun
  llm_calls : Nat
  session : Session

/-- `_finalize_response`: substitute the tool fallback for a blank output,
persist the assistant turn, and assemble the structured result. -/
def finalize_response (s : Session) (output : String)
    (actions : List (List (String × JsonVal))) (runs : List ToolRun)
    (llmCalls : Nat) : OrchestratorResult :=
  let outputText :=
    if pyStrip output == "" then
      let fallback := compose_tool_fallback_reply runs
      if fallback ≠ "" then fallback else output
    else output
  let payload := JsonVal.jobj
    [("output", JsonVal.jstr outputText),
     ("actions", JsonVal.jarr (actions.map JsonVal.jobj))]
  { output := outputText
    actions := actions
    tool_used := (runs.getLast?).map (·.name)
    tool_result := (runs.getLast?).map (·.result)
    tool_runs := runs
    llm_calls := llmCalls
    session := appendMessage s "assistant" (dumpJson payload) }

/-- External collaborators of the orchestrator: the registered tool names, the
tool handlers, the LLM oracle (raw reply text with its `json.loads` result,
indexed by LLM-call number), the uuid generator and the wall clock. -/
structure OrchestratorEnv where
  tools : List String
  arun : String → JsonVal → JsonVal
  oracle : Nat → String × Option JsonVal
  uuidHex : Nat → String
  now : String

/-- Fixed apology returned when the LLM requests an unknown capability. -/
def unknownToolReply : String :=
  "I\x27m sorry, I can\x27t access the requested capability right now. " ++
  "Could you try rephrasing your question?"

/-- Fixed apology returned when the round limit is exhausted. -/
def maxRoundsReply : String :=
  "I\x27m sorry, I\x27m having trouble completing that request right now. " ++
  "Let\x27s try again in a moment."

/-- Is the readiness result `ready`? -/
def ReadinessResult.isReady : ReadinessResult → Bool
  | .ready _ => true
  | _ => false

/-- Client id carried by a readiness result, if any. -/
def ReadinessResult.clientId : ReadinessResult → Option String
  | .missing_clients _ => none
  | .missing_fields cid _ => cid
  | .unverified cid _ => cid
  | .ready cid => cid

/-- Fields snapshot carried by a readiness result (`readiness.get("fields", {})`). -/
def ReadinessResult.fieldsOf : ReadinessResult → List (String × JsonVal)
  | .unverified _ flds => flds
  | _ => []

/-- Execute one round's action list in order (the inner loop of
`handle_message`): skip unnamed actions, abort on unknown tools, guard
`payment_checkout` behind the readiness gate, and invoke the rest. -/
def processActions (env : OrchestratorEnv) (llmCalls : Nat) :
    List (List (String × JsonVal)) → Session → List ToolRun → Nat →
    Except OrchestratorResult (Session × List ToolRun × Nat)
  | [], s, runs, cnt => .ok (s, runs, cnt)
  | action :: rest, s, runs, cnt =>
      let toolNameVal := (alistGet action "tool").getD JsonVal.jnull
      if !jsonTruthy toolNameVal then
        processActions env llmCalls rest s runs cnt
      else
        let known :=
          match toolNameVal with
          | JsonVal.jstr nm => env.tools.contains nm
          | _ => false
        if !known then
          .error (finalize_response s unknownToolReply [] runs llmCalls)
        else
          let nm :=
            match toolNameVal with
            | JsonVal.jstr nm => nm
            | _ => ""
          let toolInput := (alistGet action "input").getD (JsonVal.jobj [])
          let afterGuard : Except OrchestratorResult Session :=
            if nm == "payment_checkout" then
              let s1 := apply_payment_context toolInput s
              let readiness := evaluate_payment_readiness s1
              if readiness.isReady then .ok s1
              else
                let guardReply := compose_payment_guard_reply readiness
                let s2 :=
                  match readiness with
                  | .unverified cid flds => request_verification env.now cid flds s1
                  | _ => s1
                let s3 := appendMessage s2 "assistant" guardReply
                .error (finalize_response s3 guardReply [] runs llmCalls)
            else .ok s
          match afterGuard with
          | .error r => .error r
          | .ok sOk =>
              let result := env.arun nm toolInput
              let (callId, cnt2) :=
                match alistGet action "tool_call_id" with
                | some v =>
                    if jsonTruthy v then (v, cnt)
                    else (JsonVal.jstr ("toolcall-" ++ env.uuidHex cnt), cnt + 1)
                | none => (JsonVal.jstr ("toolcall-" ++ env.uuidHex cnt), cnt + 1)
              let s2 := setToolResult sOk nm result
              let runs2 := runs ++ [⟨toolNameVal, toolInput, result, callId⟩]
              processActions env llmCalls rest s2 runs2 cnt2

/-- The bounded LLM/tool round loop of `handle_message` (lines 92-217 of
`orchestrator.py`).  The in-memory message list that feeds the LLM is
abstracted by indexing the oracle with the LLM-call number. -/
def runRounds (env : OrchestratorEnv) :
    Nat → Nat → Nat → Session → List ToolRun → OrchestratorResult
  | 0, llmCalls, _, s, runs => finalize_response s maxRoundsReply [] runs llmCalls
  | fuel + 1, llmCalls, cnt, s, runs =>
      let (reply, parsed) := env.oracle llmCalls
      let payload0 := coerce_json_payload reply parsed
      let actions := extract_actions payload0
      let payload1 := alistSet payload0 "actions" (JsonVal.jarr (actions.map JsonVal.jobj))
      let outputStr := normalize_output (alistGet payload1 "output")
      if actions.isEmpty then finalize_response s outputStr actions runs (llmCalls + 1)
      else
        match processActions env (llmCalls + 1) actions s runs cnt with
        | .error r => r
        | .ok (s2, runs2, cnt2) => runRounds env fuel (llmCalls + 1) cnt2 s2 runs2

/-- `handle_message` (transcript append, verification auto-confirm, then the
round loop with `max_rounds = 6`).  The pre-loop risk priming and system-prompt
assembly only feed the abstracted LLM context and perform no LLM call. -/
def handle_message (env : OrchestratorEnv) (userMessage : String) (s : Session) :
    OrchestratorResult :=
  let s1 := appendMessage s "user" userMessage
  let s2 := (try_mark_verification env.now userMessage s1).1
  runRounds env 6 0 0 s2 []

/-- `_filter_product_entries`: taxonomy entries whose `products` map carries a
truthy payload for the product, reshaped to the agent's per-entry document. -/
def filter_product_entries (entries : JsonVal) (product : String) (key : String) :
    List JsonVal :=
  match entries with
  | JsonVal.jarr items =>
      items.filterMap (fun entry =>
        match entry with
        | JsonVal.jobj kvs =>
            match alistGet kvs "products" with
            | some (JsonVal.jobj productsData) =>
                match alistGet productsData product with
                | some payload =>
                    if jsonTruthy payload then
                      some (JsonVal.jobj
                        [(key, (alistGet kvs key).getD JsonVal.jnull),
                         ("details", payload),
                         ("parameters", (alistGet kvs "parameters").getD JsonVal.jnull),
                         ("condition_type", (alistGet kvs "condition_type").getD JsonVal.jnull)])
                    else none
                | none => none
            | _ => none
        | _ => none)
  | _ => []

/-- Modelled `yaml.dump` of one per-product section mapping: a deterministic
serialiser that is non-blank exactly on the non-empty mappings the agent
builds (the agent only inspects the rendered text for blankness). -/
def yamlDumpSection (sec : JsonVal) : String :=
  dumpJson sec

/-- `_render_taxonomy_context`: one serialised section per product, filtered to
the entries naming that product, joined with `---` separators. -/
def render_taxonomy_context (taxonomy : JsonVal) (products tiers : List String) :
    String :=
  let layers :=
    match taxonomy with
    | JsonVal.jobj kvs => (alistGet kvs "layers").getD (JsonVal.jobj [])
    | _ => JsonVal.jobj []
  let generalConditions :=
    match layers with
    | JsonVal.jobj l => (alistGet l "layer_1_general_conditions").getD (JsonVal.jarr [])
    | _ => JsonVal.jarr []
  let benefits :=
    match layers with
    | JsonVal.jobj l => (alistGet l "layer_2_benefits").getD (JsonVal.jarr [])
    | _ => JsonVal.jarr []
  let benefitConditions :=
    match layers with
    | JsonVal.jobj l =>
        let primary := (alistGet l "layer_3_benefit_specific_conditions").getD JsonVal.jnull
        if jsonTruthy primary then primary
        else (alistGet l "layer_3_benefit_conditions").getD (JsonVal.jarr [])
    | _ => JsonVal.jarr []
  let sections := (products.enum).map (fun p =>
    let tier := (tiers.get? p.1).getD ""
    yamlDumpSection (JsonVal.jobj
      [("product", JsonVal.jstr p.2),
       ("tier", JsonVal.jstr tier),
       ("general_conditions",
        JsonVal.jarr (filter_product_entries generalConditions p.2 "condition")),
       ("benefits",
        JsonVal.jarr (filter_product_entries benefits p.2 "benefit_name")),
       ("benefit_conditions",
        JsonVal.jarr (filter_product_entries benefitConditions p.2 "condition"))]))
  joinWith "\n---\n" sections

/-- `_normalize_product_list`: keep the trimmed non-empty string entries. -/
def normalize_product_list (raw : List JsonVal) : List String :=
  raw.filterMap (fun v =>
    match v with
    | JsonVal.jstr s => if pyStrip s == "" then none else some (pyStrip s)
    | _ => none)

/-- `_normalize_tiers`: trim string entries, truncate and right-pad with `""`. -/
def normalize_tiers (raw : List JsonVal) (target : Nat) : List String :=
  let tiers := (raw.take target).map (fun v =>
    match v with
    | JsonVal.jstr s => pyStrip s
    | _ => "")
  tiers ++ List.replicate (target - tiers.length) ""

/-- `_extract_all_taxonomy_products`: the declared `products` list when it
normalises non-empty, else the sorted set of product names found in the layers. -/
def extract_all_taxonomy_products (taxonomy : JsonVal) : List String :=
  match taxonomy with
  | JsonVal.jobj kvs =>
      let declared :=
        match alistGet kvs "products" with
        | some (JsonVal.jarr items) =>
            items.filterMap (fun v =>
              match v with
              | JsonVal.jstr s => if pyStrip s == "" then none else some (pyStrip s)
              | _ => none)
        | _ => []
      if !declared.isEmpty then declared
      else
        match alistGet kvs "layers" with
        | some (JsonVal.jobj layers) =>
            let names := (layers.map (fun layer =>
              match layer.2 with
              | JsonVal.jarr entries =>
                  entries.map (fun entry =>
                    match entry with
                    | JsonVal.jobj ekvs =>
                        match alistGet ekvs "products" with
                        | some (JsonVal.jobj pf) =>
                            (pf.map Prod.fst).filterMap (fun nm =>
                              if pyStrip nm == "" then none else some (pyStrip nm))
                        | _ => []
                    | _ => [])
              | _ => [])).flatten.flatten
            (names.eraseDups).mergeSort (fun a b => decide (a ≤ b))
        | _ => []
  | _ => []

/-- `_resolve_products_and_tiers`: requested products when any normalise, else
the taxonomy-wide fallback; tiers aligned to the product count. -/
def resolve_products_and_tiers (taxonomy : JsonVal)
    (rawProducts rawTiers : List JsonVal) : List String × List String × Bool :=
  let products := normalize_product_list rawProducts
  if !products.isEmpty then
    (products, normalize_tiers rawTiers products.length, false)
  else
    let fallback := extract_all_taxonomy_products taxonomy
    if fallback.isEmpty then ([], [], false)
    else (fallback, normalize_tiers rawTiers fallback.length, true)

/-- Outcome of one policy-research run; `llm_invoked` records whether the
external LLM was called (an observable side effect). -/
structure PolicyRunResult where
  products : List JsonVal
  reasoning : Option JsonVal
  raw : Option String
  context : String
  llm_invoked : Bool

/-- The `prepare_context -> llm_reasoning` pipeline of `PolicyResearchAgent.run`.
The oracle pair `(text, parsed)` stands for the LLM's reply and its
`json.loads` result; the user query and chat history only feed the prompt
inside the abstracted oracle. -/
def policy_agent_run (taxonomy : JsonVal) (oracle : String × Option JsonVal)
    (rawProducts rawTiers : List JsonVal) : PolicyRunResult :=
  let resolved := resolve_products_and_tiers taxonomy rawProducts rawTiers
  let products := resolved.1
  let tiers := resolved.2.1
  let context :=
    if products.isEmpty then ""
    else render_taxonomy_context taxonomy products tiers
  if products.isEmpty || pyStrip context == "" then
    { products := [], reasoning := none, raw := none, context := context,
      llm_invoked := false }
  else
    let (outputText, parsed) := oracle
    let productsPayload :=
      match parsed with
      | some (JsonVal.jobj kvs) =>
          match alistGet kvs "products" with
          | some (JsonVal.jarr items) =>
              items.filter (fun v =>
                match v with
                | JsonVal.jobj _ => true
                | _ => false)
          | _ => []
      | _ => []
    let reasoning :=
      match parsed with
      | some (JsonVal.jobj kvs) => alistGet kvs "reasoning"
      | _ => none
    { products := productsPayload, reasoning := reasoning,
      raw := some outputText, context := context, llm_invoked := true }

/-! General lemmas about the merge primitives. -/

theorem mergeVal_self {α : Type} (isB : α → Bool) (v : α) (p : Bool) :
    mergeVal isB v v p = v := by
  unfold mergeVal
  split <;> rfl

theorem mergeVal_result {α : Type} (isB : α → Bool) (cur new : α) (p : Bool) :
    mergeVal isB cur new p = cur ∨
      (mergeVal isB cur new p = new ∧ isB new = false) := by
  by_cases h : (!isB new && (isB cur || p)) = true
  · right
    refine ⟨by simp [mergeVal, h], ?_⟩
    have h' := h
    simp only [Bool.and_eq_true, Bool.not_eq_true'] at h'
    exact h'.1
  · left
    simp [mergeVal, h]

theorem mergeVal_prefer {α : Type} (isB : α → Bool) (cur new : α)
    (h : isB new = false) : mergeVal isB cur new true = new := by
  simp [mergeVal, h]

theorem mergeVal_keep {α : Type} (isB : α → Bool) (cur new : α)
    (h : isB cur = false) : mergeVal isB cur new false = cur := by
  simp [mergeVal, h]

theorem mergeVal_fill {α : Type} (isB : α → Bool) (cur new : α) (p : Bool)
    (hc : isB cur = true) (hn : isB new = false) :
    mergeVal isB cur new p = new := by
  simp [mergeVal, hc, hn]

theorem mergeVal_idem {α : Type} (isB : α → Bool) (cur new : α) (p : Bool) :
    mergeVal isB (mergeVal isB cur new p) new p = mergeVal isB cur new p := by
  by_cases h : (!isB new && (isB cur || p)) = true
  · have hres : mergeVal isB cur new p = new := by simp [mergeVal, h]
    rw [hres]
    exact mergeVal_self isB new p
  · have hres : mergeVal isB cur new p = cur := by simp [mergeVal, h]
    rw [hres, mergeVal, if_neg]
    exact fun hc => h hc

theorem fillBlank_idem (cur new : Option String) :
    fillBlank (fillBlank cur new) new = fillBlank cur new := by
  by_cases h : (is_blank_str cur && !is_blank_str new) = true
  · have : fillBlank cur new = new := by simp [fillBlank, h]
    rw [this]
    have h' := h
    simp only [Bool.and_eq_true, Bool.not_eq_true'] at h'
    simp [fillBlank, h'.2]
  · have : fillBlank cur new = cur := by simp [fillBlank, h]
    rw [this, fillBlank, if_neg]
    exact fun hc => h hc

theorem fillBlank_self (v : Option String) : fillBlank v v = v := by
  by_cases h : is_blank_str v = true <;> simp [fillBlank, h]

/-- CLAIM C6: during merge a client's verification status never regresses -
the merged status has priority at least the existing one's, and the status
changes exactly when the incoming status has strictly higher priority. -/
theorem C6_verification_status_monotone :
    ∀ (cur inc : VerificationRecord) (now : String),
      statusPriority cur.status ≤
        statusPriority (merge_verification cur inc now).status ∧
      ((merge_verification cur inc now).status ≠ cur.status ↔
        statusPriority cur.status < statusPriority inc.status) := by
  intro cur inc now
  cases hc : cur.status <;> cases hi : inc.status <;>
    simp [merge_verification, statusPriority, hc, hi]

/-- CLAIM C4: merging a matched candidate obeys the prefer-source rule - a
confirmed candidate's non-blank scalar personal fields overwrite even
non-blank existing values, an unconfirmed candidate never overwrites a
non-blank existing field (it only fills blanks), and matched trips follow the
same rule on every field other than `metadata`. -/
theorem C4_merge_prefer_source_rules :
    (∀ (t s : ClientDatum) (now : String), s.verification.status = .confirmed →
      (is_blank_str s.personal_info.name = false →
        (merge_client t s now).personal_info.name = s.personal_info.name) ∧
      (is_blank_str s.personal_info.email_address = false →
        (merge_client t s now).personal_info.email_address = s.personal_info.email_address) ∧
      (is_blank_str s.personal_info.phone_number = false →
        (merge_client t s now).personal_info.phone_number = s.personal_info.phone_number) ∧
      (is_blank_opt s.personal_info.date_of_birth = false →
        (merge_client t s now).personal_info.date_of_birth = s.personal_info.date_of_birth) ∧
      (is_blank_str s.personal_info.place_of_residence = false →
        (merge_client t s now).personal_info.place_of_residence = s.personal_info.place_of_residence) ∧
      (is_blank_str s.personal_info.passport_number = false →
        (merge_client t s now).personal_info.passport_number = s.personal_info.passport_number)) ∧
    (∀ (t s : ClientDatum) (now : String), s.verification.status ≠ .confirmed →
      ((is_blank_str t.personal_info.name = false →
          (merge_client t s now).personal_info.name = t.personal_info.name) ∧
       (is_blank_str t.personal_info.email_address = false →
          (merge_client t s now).personal_info.email_address = t.personal_info.email_address) ∧
       (is_blank_str t.personal_info.phone_number = false →
          (merge_client t s now).personal_info.phone_number = t.personal_info.phone_number) ∧
       (is_blank_opt t.personal_info.date_of_birth = false →
          (merge_client t s now).personal_info.date_of_birth = t.personal_info.date_of_birth) ∧
       (is_blank_str t.personal_info.place_of_residence = false →
          (merge_client t s now).personal_info.place_of_residence = t.personal_info.place_of_residence) ∧
       (is_blank_str t.personal_info.passport_number = false →
          (merge_client t s now).personal_info.passport_number = t.personal_info.passport_number)) ∧
      ((is_blank_str t.personal_info.name = true →
          is_blank_str s.personal_info.name = false →
          (merge_client t s now).personal_info.name = s.personal_info.name) ∧
       (is_blank_str t.personal_info.email_address = true →
          is_blank_str s.personal_info.email_address = false →
          (merge_client t s now).personal_info.email_address = s.personal_info.email_address))) ∧
    (∀ (bt nt : TripDetails),
      ((is_blank_str nt.destination = false →
          (merge_trip bt nt true).destination = nt.destination) ∧
       (is_blank_opt nt.start_date = false →
          (merge_trip bt nt true).start_date = nt.start_date) ∧
       (is_blank_opt nt.end_date = false →
          (merge_trip bt nt true).end_date = nt.end_date) ∧
       (is_blank_opt nt.trip_type = false →
          (merge_trip bt nt true).trip_type = nt.trip_type) ∧
       (is_blank_opt nt.trip_cost = false →
          (merge_trip bt nt true).trip_cost = nt.trip_cost) ∧
       (is_blank_str nt.notes = false →
          (merge_trip bt nt true).notes = nt.notes) ∧
       (is_blank_str nt.trip_id = false →
          (merge_trip bt nt true).trip_id = nt.trip_id)) ∧
      ((is_blank_str bt.destination = false →
          (merge_trip bt nt false).destination = bt.destination) ∧
       (is_blank_opt bt.start_date = false →
          (merge_trip bt nt false).start_date = bt.start_date) ∧
       (is_blank_opt bt.end_date = false →
          (merge_trip bt nt false).end_date = bt.end_date) ∧
       (is_blank_opt bt.trip_type = false →
          (merge_trip bt nt false).trip_type = bt.trip_type) ∧
       (is_blank_opt bt.trip_cost = false →
          (merge_trip bt nt false).trip_cost = bt.trip_cost) ∧
       (is_blank_str bt.notes = false →
          (merge_trip bt nt false).notes = bt.notes) ∧
       (is_blank_str bt.trip_id = false →
          (merge_trip bt nt false).trip_id = bt.trip_id))) := by
  refine ⟨?_, ?_, ?_⟩
  · intro t s now h
    have hp : (s.verification.status == VStatus.confirmed) = true := by
      simp [h]
    refine ⟨?_, ?_, ?_, ?_, ?_, ?_⟩ <;>
      (intro hb
       simp only [merge_client, merge_personal_info, hp]
       exact mergeVal_prefer _ _ _ hb)
  · intro t s now h
    have hp : (s.verification.status == VStatus.confirmed) = false := by
      simpa using h
    refine ⟨⟨?_, ?_, ?_, ?_, ?_, ?_⟩, ⟨?_, ?_⟩⟩
    all_goals
      simp only [merge_client, merge_personal_info, hp]
    · exact fun hb => mergeVal_keep _ _ _ hb
    · exact fun hb => mergeVal_keep _ _ _ hb
    · exact fun hb => mergeVal_keep _ _ _ hb
    · exact fun hb => mergeVal_keep _ _ _ hb
    · exact fun hb => mergeVal_keep _ _ _ hb
    · exact fun hb => mergeVal_keep _ _ _ hb
    · exact fun hc hn => mergeVal_fill _ _ _ _ hc hn
    · exact fun hc hn => mergeVal_fill _ _ _ _ hc hn
  · intro bt nt
    constructor
    · refine ⟨?_, ?_, ?_, ?_, ?_, ?_, ?_⟩ <;>
        (intro hb
         simp only [merge_trip]
         exact mergeVal_prefer _ _ _ hb)
    · refine ⟨?_, ?_, ?_, ?_, ?_, ?_, ?_⟩ <;>
        (intro hb
         simp only [merge_trip]
         exact mergeVal_keep _ _ _ hb)

/-- Witness for C4 at a concrete pair of clients and trips. -/
theorem C4_merge_prefer_source_rules_witness :
    (merge_client
        { personal_info := { name := some "Old Name" } }
        { personal_info := { name := some "New Name" },
          verification := { status := .confirmed } }
        "2025-01-01T00:00:00+00:00").personal_info.name = some "New Name" ∧
    (merge_trip { destination := some "Paris" } { destination := some "Rome" }
        false).destination = some "Paris" := by
  constructor
  · exact ((C4_merge_prefer_source_rules.1
      { personal_info := { name := some "Old Name" } }
      { personal_info := { name := some "New Name" },
        verification := { status := .confirmed } }
      "2025-01-01T00:00:00+00:00" rfl).1 (by decide))
  · exact ((C4_merge_prefer_source_rules.2.2
      { destination := some "Paris" } { destination := some "Rome" }).2.1
      (by decide))

/-! Lemmas about the payment-readiness gate. -/

theorem findBlockingClient_append (front l : List ClientDatum)
    (h : ∀ x ∈ front, x.required_missing_fields = [] ∧
      x.verification.status = .confirmed) :
    findBlockingClient (front ++ l) = findBlockingClient l := by
  induction front with
  | nil => rfl
  | cons x fr ih =>
      have hx := h x (by simp)
      have hrest : ∀ y ∈ fr, y.required_missing_fields = [] ∧
          y.verification.status = .confirmed :=
        fun y hy => h y (by simp [hy])
      simp [findBlockingClient, hx.1, hx.2, ih hrest]

theorem findBlockingClient_ne_missing_clients (l : List ClientDatum) (m : String) :
    findBlockingClient l ≠ some (.missing_clients m) := by
  induction l with
  | nil => simp [findBlockingClient]
  | cons c rest ih =>
      simp only [findBlockingClient]
      split
      · simp
      · split
        · simp
        · exact ih

theorem evaluate_of_blocking (s : Session) (r : ReadinessResult)
    (h : findBlockingClient s.clients = some r) :
    evaluate_payment_readiness s = r := by
  rcases hc : s.clients with - | ⟨c0, tl⟩
  · rw [hc] at h
    simp [findBlockingClient] at h
  · rw [hc] at h
    simp [evaluate_payment_readiness, hc, h]

theorem required_missing_nil_name (c : ClientDatum)
    (h : c.required_missing_fields = []) :
    is_blank_str c.personal_info.name = false := by
  by_contra hb
  have hb' : is_blank_str c.personal_info.name = true := by
    cases hx : is_blank_str c.personal_info.name
    · exact absurd hx hb
    · rfl
  unfold ClientDatum.required_missing_fields at h
  simp only [hb'] at h
  split at h
  · simp_all
  · rcases hsel : select_preferred_trip c with - | t <;> rw [hsel] at h <;> simp at h

theorem build_verification_fields_ne_nil (c : ClientDatum)
    (h : is_blank_str c.personal_info.name = false) :
    build_verification_fields c ≠ [] := by
  rcases hn : c.personal_info.name with - | s
  · rw [hn] at h
    simp [is_blank_str] at h
  · rw [hn] at h
    have hval : is_blank_value (JsonVal.jstr s) = false := by
      simpa [is_blank_str, is_blank_value] using h
    cases ht : select_preferred_trip c <;>
      simp [build_verification_fields, ht, hn, optStrJson, hval]

/-- CLAIM C1: the payment readiness gate returns `missing_clients` exactly on
an empty roster, otherwise short-circuits at the first blocking client in
roster order - `missing_fields` with exactly that client's
`required_missing_fields()` list, or `unverified` with a non-empty fields
snapshot for the first complete-but-unconfirmed client - and returns `ready`
with the head client's id when no client blocks.  The gate is a pure function
of the session, so repeated calls on the same state agree by construction. -/
theorem C1_payment_readiness_gate :
    ∀ (s : Session),
      (s.clients = [] ↔ evaluate_payment_readiness s =
        .missing_clients "I don\x27t have any traveller profile yet.") ∧
      (∀ front c rest, s.clients = front ++ c :: rest →
        (∀ x ∈ front, x.required_missing_fields = [] ∧
          x.verification.status = .confirmed) →
        (c.required_missing_fields ≠ [] →
          evaluate_payment_readiness s =
            .missing_fields c.client_id c.required_missing_fields) ∧
        (c.required_missing_fields = [] → c.verification.status ≠ .confirmed →
          evaluate_payment_readiness s =
            .unverified c.client_id
              (if c.verification.fields.isEmpty then build_verification_fields c
               else c.verification.fields) ∧
          (if c.verification.fields.isEmpty then build_verification_fields c
           else c.verification.fields) ≠ [])) ∧
      ((∀ x ∈ s.clients, x.required_missing_fields = [] ∧
          x.verification.status = .confirmed) →
        ∀ c0 rest, s.clients = c0 :: rest →
          evaluate_payment_readiness s = .ready c0.client_id) := by
  intro s
  refine ⟨?_, ?_, ?_⟩
  · constructor
    · intro h
      simp [evaluate_payment_readiness, h]
    · intro h
      rcases hc : s.clients with - | ⟨c0, tl⟩
      · rfl
      · exfalso
        rw [evaluate_payment_readiness, hc] at h
        simp only at h
        rcases hfb : findBlockingClient (c0 :: tl) with - | r
        · rw [hfb] at h
          simp at h
        · rw [hfb] at h
          simp only [Option.getD_some] at h
          rw [← hc] at hfb
          rw [h] at hfb
          rw [hc] at hfb
          exact findBlockingClient_ne_missing_clients (c0 :: tl) _ hfb
  · intro front c rest hsplit hfront
    have hfb : findBlockingClient s.clients = findBlockingClient (c :: rest) := by
      rw [hsplit]
      exact findBlockingClient_append front (c :: rest) hfront
    constructor
    · intro hmiss
      have hne : c.required_missing_fields.isEmpty = false := by
        cases hx : c.required_missing_fields with
        | nil => exact absurd hx hmiss
        | cons a l => simp [hx]
      apply evaluate_of_blocking
      rw [hfb]
      simp [findBlockingClient, hne]
    · intro hmiss hstat
      have hem : c.required_missing_fields.isEmpty = true := by simp [hmiss]
      refine ⟨?_, ?_⟩
      · apply evaluate_of_blocking
        rw [hfb]
        simp [findBlockingClient, hem, hstat]
      · rcases hfe : c.verification.fields with - | ⟨p, ps⟩
        · simp only [hfe, List.isEmpty_nil, if_true]
          exact build_verification_fields_ne_nil c (required_missing_nil_name c hmiss)
        · simp [hfe]
  · intro hall c0 rest hc
    have hnone : findBlockingClient s.clients = none := by
      have := findBlockingClient_append s.clients [] hall
      simpa using this
    rw [evaluate_payment_readiness, hc]
    simp only
    rw [hc] at hnone
    simp [hnone]

/-- Complete traveller profile with a pending verification, used as the C1
witness input. -/
def pendingCompleteClient : ClientDatum :=
  { client_id := some "C9w"
    personal_info :=
      { name := some "Aisha Tan"
        email_address := some "aisha@example.com"
        phone_number := some "+6598765432"
        date_of_birth := some ⟨1991, 6, 15⟩
        place_of_residence := some "Singapore"
        passport_number := some "E1234567" }
    trips := [{ destination := some "Bali"
                start_date := some ⟨2025, 12, 1⟩
                end_date := some ⟨2025, 12, 10⟩
                trip_type := some .single
                trip_cost := some 1800 }]
    verification := { status := .pending } }

/-- Witness for C1: a complete but pending client yields `unverified` with a
non-empty fields snapshot. -/
theorem C1_payment_readiness_gate_witness :
    evaluate_payment_readiness { clients := [pendingCompleteClient] } =
      .unverified (some "C9w") (build_verification_fields pendingCompleteClient) ∧
    build_verification_fields pendingCompleteClient ≠ [] := by
  have h := ((C1_payment_readiness_gate { clients := [pendingCompleteClient] }).2.1
    [] pendingCompleteClient [] rfl (by simp)).2 (by decide) (by decide)
  constructor
  · have h1 := h.1
    simpa using h1
  · have h2 := h.2
    simpa using h2

/-- Characterisation of the confirmation test. -/
theorem confirmationMessage_iff (msg : String) :
    confirmationMessage msg = true ↔
      (pyLower (pyStrip msg) ≠ "" ∧
       pyContains (pyLower (pyStrip msg)) "?" = false ∧
       ((["confirm", "confirmed", "looks good", "correct", "go ahead",
          "approve", "proceed", "verified"].any
            (fun p => pyContains (pyLower (pyStrip msg)) p)) = true ∨
        (["yes", "yup", "yeah", "sure", "ok", "okay"].contains
            ((pySplit (pyLower (pyStrip msg))).headD "")) = true)) := by
  unfold confirmationMessage
  split
  case isTrue h1 =>
    constructor
    · intro h
      exact absurd h (by simp)
    · intro hcon
      exact absurd (by simpa using h1) hcon.1
  case isFalse h1 =>
    split
    case isTrue h2 =>
      constructor
      · intro h
        exact absurd h (by simp)
      · intro hcon
        rw [hcon.2.1] at h2
        exact absurd h2 (by simp)
    case isFalse h2 =>
      rw [Bool.or_eq_true]
      constructor
      · intro h
        refine ⟨?_, ?_, h⟩
        · intro he
          exact h1 (by simpa using he)
        · cases hx : pyContains (pyLower (pyStrip msg)) "?"
          · rfl
          · exact absurd hx h2
      · exact fun hc => hc.2.2

/-- CLAIM C10: before any LLM round, `handle_message` applies
`try_mark_verification` to the raw user message; when the trimmed lowercased
message is non-empty, contains no question mark, and either contains one of
the fixed confirmation phrases or starts with an acceptance token, every
pending client becomes confirmed with `confirmed_at` stamped; any other
message leaves every verification status unchanged. -/
theorem C10_confirmation_marks_pending :
    ∀ (now msg : String) (s : Session),
      ((pyLower (pyStrip msg) ≠ "" ∧
        pyContains (pyLower (pyStrip msg)) "?" = false ∧
        ((["confirm", "confirmed", "looks good", "correct", "go ahead",
           "approve", "proceed", "verified"].any
             (fun p => pyContains (pyLower (pyStrip msg)) p)) = true ∨
         (["yes", "yup", "yeah", "sure", "ok", "okay"].contains
             ((pySplit (pyLower (pyStrip msg))).headD "")) = true)) →
        (try_mark_verification now msg s).1.clients =
          s.clients.map (confirmPendingClient now) ∧
        (try_mark_verification now msg s).2 =
          s.clients.any (fun c => c.verification.status == .pending)) ∧
      (¬ (pyLower (pyStrip msg) ≠ "" ∧
          pyContains (pyLower (pyStrip msg)) "?" = false ∧
          ((["confirm", "confirmed", "looks good", "correct", "go ahead",
             "approve", "proceed", "verified"].any
               (fun p => pyContains (pyLower (pyStrip msg)) p)) = true ∨
           (["yes", "yup", "yeah", "sure", "ok", "okay"].contains
               ((pySplit (pyLower (pyStrip msg))).headD "")) = true)) →
        try_mark_verification now msg s = (s, false)) ∧
      (∀ (env : OrchestratorEnv),
        handle_message env msg s =
          runRounds env 6 0 0
            ((try_mark_verification env.now msg (appendMessage s "user" msg)).1)
            []) := by
  intro now msg s
  refine ⟨?_, ?_, fun env => rfl⟩
  · intro hc
    have hcm : confirmationMessage msg = true := (confirmationMessage_iff msg).mpr hc
    rcases hupd : s.clients.any (fun c => c.verification.status == .pending) with - | -
    · have hall := List.any_eq_false.mp hupd
      have hmap : s.clients.map (confirmPendingClient now) = s.clients := by
        have heach : s.clients.map (confirmPendingClient now) = s.clients.map id := by
          apply List.map_congr_left
          intro a ha
          have hapend := hall a ha
          simp only [confirmPendingClient]
          rw [if_neg]
          · rfl
          · simpa using hapend
        simpa using heach
      rw [try_mark_verification, if_pos hcm]
      simp only [hupd, Bool.false_eq_true, if_false]
      refine ⟨hmap.symm, ?_⟩
      trivial
    · rw [try_mark_verification, if_pos hcm]
      simp only [hupd, if_true]
      constructor <;> trivial
  · intro hnc
    have hcm : confirmationMessage msg = false := by
      cases hx : confirmationMessage msg
      · rfl
      · exact absurd ((confirmationMessage_iff msg).mp hx) hnc
    rw [try_mark_verification, if_neg]
    simp [hcm]

/-- Witness for C10: the message "Yes, looks good" confirms the pending
client, and the message "tell me more" changes nothing. -/
theorem C10_confirmation_marks_pending_witness :
    (try_mark_verification "NOW" "Yes, looks good"
        { clients := [pendingCompleteClient] }).1.clients =
      [confirmPendingClient "NOW" pendingCompleteClient] ∧
    (try_mark_verification "NOW" "tell me more"
        { clients := [pendingCompleteClient] }) =
      ({ clients := [pendingCompleteClient] }, false) := by
  constructor
  · have h := ((C10_confirmation_marks_pending "NOW" "Yes, looks good"
      { clients := [pendingCompleteClient] }).1 (by decide)).1
    simpa using h
  · exact (C10_confirmation_marks_pending "NOW" "tell me more"
      { clients := [pendingCompleteClient] }).2.1 (by decide)

/-! Lemmas about payment-context enrichment. -/

theorem applyOneUpdate_false {β : Type} (t : TripDetails) (upd : Option β)
    (curEq : β → Bool) (setF : β → TripDetails)
    (h : (applyOneUpdate t upd curEq setF).2 = false) :
    (applyOneUpdate t upd curEq setF).1 = t := by
  rcases upd with - | v
  · rfl
  · by_cases he : curEq v = true
    · simp [applyOneUpdate, he]
    · simp [applyOneUpdate, he] at h

theorem applyTripUpdates_false (t : TripDetails) (u : TripUpdates)
    (h : (applyTripUpdates t u).2 = false) :
    (applyTripUpdates t u).1 = t := by
  unfold applyTripUpdates at h ⊢
  simp only [Bool.or_eq_false_iff] at h
  obtain ⟨⟨⟨⟨h1, h2⟩, h3⟩, h4⟩, h5⟩ := h
  rw [applyOneUpdate_false _ _ _ _ h5, applyOneUpdate_false _ _ _ _ h4,
    applyOneUpdate_false _ _ _ _ h3, applyOneUpdate_false _ _ _ _ h2,
    applyOneUpdate_false _ _ _ _ h1]

theorem applyTripUpdates_fresh_nonempty (u : TripUpdates)
    (h : u.nonempty = true) :
    (applyTripUpdates {} u).2 = true := by
  unfold TripUpdates.nonempty at h
  unfold applyTripUpdates
  rcases hd : u.destination with - | dst
  · rcases hs : u.start_date with - | d
    · rcases he : u.end_date with - | d
      · rcases ht : u.trip_type with - | tt
        · rcases hc : u.trip_cost with - | q
          · rw [hd, hs, he, ht, hc] at h
            simp at h
          · simp [hd, hs, he, ht, hc, applyOneUpdate]
        · simp [hd, hs, he, ht, applyOneUpdate]
      · simp [hd, hs, he, applyOneUpdate]
    · simp [hd, hs, applyOneUpdate]
  · simp [hd, applyOneUpdate, valuesEqualStr]

theorem updOpt_false {β : Type} (pi : PersonalInfo) (upd : Option β)
    (curEq : β → Bool) (mk : β → PersonalInfo)
    (h : (updOpt pi upd curEq mk).2 = false) :
    (updOpt pi upd curEq mk).1 = pi := by
  rcases upd with - | x
  · rfl
  · by_cases he : curEq x = true
    · simp [updOpt, he]
    · simp [updOpt, he] at h

theorem applyPersonalEntry_false (pi : PersonalInfo) (k : String) (v : JsonVal)
    (h : (applyPersonalEntry pi k v).2 = false) :
    (applyPersonalEntry pi k v).1 = pi := by
  unfold applyPersonalEntry at h ⊢
  rcases hsm : strMapGet personalInfoFieldMap k with - | field
  · rfl
  · rw [hsm] at h
    dsimp only at h ⊢
    by_cases h1 : (field == "date_of_birth") = true
    · rw [if_pos h1] at h ⊢
      exact updOpt_false _ _ _ _ h
    · rw [if_neg h1] at h ⊢
      by_cases h2 : (field == "email_address") = true
      · rw [if_pos h2] at h ⊢
        exact updOpt_false _ _ _ _ h
      · rw [if_neg h2] at h ⊢
        by_cases h3 : (field == "name") = true
        · rw [if_pos h3] at h ⊢
          exact updOpt_false _ _ _ _ h
        · rw [if_neg h3] at h ⊢
          by_cases h4 : (field == "place_of_residence") = true
          · rw [if_pos h4] at h ⊢
            exact updOpt_false _ _ _ _ h
          · rw [if_neg h4] at h ⊢
            by_cases h5 : (field == "passport_number") = true
            · rw [if_pos h5] at h ⊢
              exact updOpt_false _ _ _ _ h
            · rw [if_neg h5] at h ⊢
              by_cases h6 : (field == "phone_number") = true
              · rw [if_pos h6] at h ⊢
                exact updOpt_false _ _ _ _ h
              · rw [if_neg h6] at h ⊢

theorem personalFold_false (agg : List (String × JsonVal))
    (st : PersonalInfo × Bool)
    (h : (agg.foldl
      (fun (st : PersonalInfo × Bool) kv =>
        let r := applyPersonalEntry st.1 kv.1 kv.2
        (r.1, st.2 || r.2)) st).2 = false) :
    (agg.foldl
      (fun (st : PersonalInfo × Bool) kv =>
        let r := applyPersonalEntry st.1 kv.1 kv.2
        (r.1, st.2 || r.2)) st).1 = st.1 ∧ st.2 = false := by
  induction agg generalizing st with
  | nil => exact ⟨rfl, h⟩
  | cons kv rest ih =>
      simp only [List.foldl_cons] at h ⊢
      obtain ⟨h1, h2⟩ := ih _ h
      simp only [Bool.or_eq_false_iff] at h2
      constructor
      · rw [h1]
        exact applyPersonalEntry_false _ _ _ h2.2
      · exact h2.1

theorem set_get?_self {α : Type} (l : List α) (i : Nat) (x : α)
    (h : l.get? i = some x) : l.set i x = l := by
  induction l generalizing i with
  | nil => simp at h
  | cons a rest ih =>
      cases i with
      | zero =>
          simp only [List.get?] at h
          cases h
          rfl
      | succ j =>
          simp only [List.get?] at h
          simp [List.set, ih j h]

theorem enrichTrips_false (c : ClientDatum) (agg : List (String × JsonVal))
    (h : (enrichTrips c agg).2 = false) : (enrichTrips c agg).1 = c.trips := by
  unfold enrichTrips at h ⊢
  by_cases hne : (enrichTripUpdates agg).nonempty = true
  · rw [if_pos hne] at h ⊢
    rcases hp : preferred_trip_index c with - | i
    · exfalso
      rw [hp] at h
      dsimp only at h
      rw [applyTripUpdates_fresh_nonempty _ hne] at h
      simp at h
    · rw [hp] at h
      dsimp only at h ⊢
      rcases hg : c.trips.get? i with - | t
      · rfl
      · rw [hg] at h
        dsimp only at h ⊢
        rw [applyTripUpdates_false _ _ h]
        exact set_get?_self _ _ _ hg
  · rw [if_neg hne]

theorem enrich_unchanged_of_not_updated (c : ClientDatum)
    (pl : List (String × JsonVal))
    (h : (enrich_client_from_payment_payload c pl).2 = false) :
    (enrich_client_from_payment_payload c pl).1 = c := by
  unfold enrich_client_from_payment_payload at h ⊢
  by_cases hagg : (enrichAggregate pl).isEmpty = true
  · rw [if_pos hagg]
  · rw [if_neg hagg] at h ⊢
    simp only at h ⊢
    have hupd : ((enrichPersonalFold c.personal_info (enrichAggregate pl)).2 ||
        (enrichTrips c (enrichAggregate pl)).2) = false := h
    simp only [Bool.or_eq_false_iff] at hupd
    have hpi : (enrichPersonalFold c.personal_info (enrichAggregate pl)).1 =
        c.personal_info :=
      (personalFold_false _ _ hupd.1).1
    have htr : (enrichTrips c (enrichAggregate pl)).1 = c.trips :=
      enrichTrips_false _ _ hupd.2
    rw [hupd.1, hupd.2]
    simp only [Bool.false_or, Bool.false_and, Bool.false_eq_true, if_false]
    rw [hpi, htr]

/-- Incomplete profile with a non-blank email, first in the C2 roster. -/
def incompleteClientA : ClientDatum :=
  { personal_info := { name := some "Ann", email_address := some "old@x.com" } }

/-- Incomplete profile without an email, second in the C2 roster. -/
def incompleteClientB : ClientDatum :=
  { personal_info := { name := some "Bob" } }

/-- CLAIM C2 counterexample: with two incomplete profiles on the roster and a
checkout payload carrying `customer_email`, the enrichment overwrites the
first profile's non-blank email with a different value and also modifies the
second profile - contradicting both the blank-overwrite rule and the
first-incomplete-profile-only rule of the claim. -/
theorem C2_payment_context_counterexample :
    is_blank_str incompleteClientA.personal_info.email_address = false ∧
    incompleteClientA.personal_info.email_address ≠ some "new@y.com" ∧
    incompleteClientA.required_missing_fields ≠ [] ∧
    incompleteClientB.required_missing_fields ≠ [] ∧
    ((apply_payment_context
        (JsonVal.jobj [("customer_email", JsonVal.jstr "new@y.com")])
        { clients := [incompleteClientA, incompleteClientB] }).clients.map
      (fun c => c.personal_info.email_address)) =
      [some "new@y.com", some "new@y.com"] := by
  refine ⟨by decide, by decide, by decide, by decide, ?_⟩
  rfl

/-- CLAIM C2 (amended): `apply_payment_context` normalizes the recognized keys
of the checkout payload and merges the values into every profile with missing
required fields - profiles with no missing fields are left unchanged - and a
recognized field is set whenever the normalized incoming value differs from
the current value under `_values_equal`, overwriting non-blank fields as well
(shown here for the `customer_email` key, whose value is stripped and
lowercased). -/
theorem C2_payment_context_enrichment_amended :
    (∀ (pl : List (String × JsonVal)) (s : Session),
      pl ≠ [] → s.clients ≠ [] →
      (apply_payment_context (JsonVal.jobj pl) s).clients =
        s.clients.map (fun c =>
          if c.required_missing_fields.isEmpty then c
          else (enrich_client_from_payment_payload c pl).1)) ∧
    (∀ (c : ClientDatum) (e : String),
      c.required_missing_fields ≠ [] →
      pyStrip e ≠ "" →
      valuesEqualStr c.personal_info.email_address (pyLower (pyStrip e)) = false →
      ((enrich_client_from_payment_payload c
          [("customer_email", JsonVal.jstr e)]).1).personal_info.email_address =
        some (pyLower (pyStrip e))) := by
  constructor
  · intro pl s hpl hcl
    have hplE : pl.isEmpty = false := by
      cases pl
      · exact absurd rfl hpl
      · rfl
    have hclE : s.clients.isEmpty = false := by
      cases hx : s.clients
      · exact absurd hx hcl
      · rfl
    simp only [apply_payment_context]
    rw [hplE, hclE]
    simp only [Bool.false_eq_true, if_false]
    by_cases hany : ((s.clients.map (fun c =>
        if c.required_missing_fields.isEmpty then (c, false)
        else enrich_client_from_payment_payload c pl)).any (·.2)) = true
    · rw [if_pos hany]
      dsimp only
      rw [List.map_map]
      apply List.map_congr_left
      intro c _
      by_cases hcpl : c.required_missing_fields.isEmpty = true
      · have h2 : c.required_missing_fields = [] := by simpa using hcpl
        simp [hcpl, h2]
      · have h2 : ¬ c.required_missing_fields = [] := by simpa using hcpl
        simp [hcpl, h2]
    · rw [if_neg hany]
      have hflags := List.any_eq_false.mp (by
        cases hx : ((s.clients.map (fun c =>
          if c.required_missing_fields.isEmpty then (c, false)
          else enrich_client_from_payment_payload c pl)).any (·.2))
        · rfl
        · exact absurd hx hany)
      have heach : ∀ c ∈ s.clients,
          (if c.required_missing_fields.isEmpty then c
           else (enrich_client_from_payment_payload c pl).1) = c := by
        intro c hc
        by_cases hcpl : c.required_missing_fields.isEmpty = true
        · simp [hcpl]
        · have hmem : (if c.required_missing_fields.isEmpty then (c, false)
              else enrich_client_from_payment_payload c pl) ∈
              s.clients.map (fun c =>
                if c.required_missing_fields.isEmpty then (c, false)
                else enrich_client_from_payment_payload c pl) :=
            List.mem_map_of_mem _ hc
          have hflag := hflags _ hmem
          rw [if_neg hcpl] at hflag ⊢
          have hfl : (enrich_client_from_payment_payload c pl).2 = false := by
            simpa using hflag
          exact enrich_unchanged_of_not_updated c pl hfl
      have hmapid : s.clients.map (fun c =>
          if c.required_missing_fields.isEmpty then c
          else (enrich_client_from_payment_payload c pl).1) = s.clients.map id := by
        apply List.map_congr_left
        intro a ha
        simpa using heach a ha
      simp only [hmapid, List.map_id]
  · intro c e he hne
    intro hval
    have hb : is_blank_value (JsonVal.jstr e) = false := by
      simp [is_blank_value]
      exact hne
    have hk : normalize_key "customer_email" = "customer_email" := by rfl
    have hagg : enrichAggregate [("customer_email", JsonVal.jstr e)] =
        [("customer_email", JsonVal.jstr e)] := by
      simp [enrichAggregate, enrichSourceKeys, collectEntry, alistGet, alistHas,
        hb, hk]
    have hns : normalize_personal_str true (JsonVal.jstr e) =
        some (pyLower (pyStrip e)) := by
      simp [normalize_personal_str, hb, pyStr]
      intro hc
      exact absurd hc hne
    have hape : applyPersonalEntry c.personal_info "customer_email"
        (JsonVal.jstr e) =
        ({ c.personal_info with email_address := some (pyLower (pyStrip e)) },
         true) := by
      simp [applyPersonalEntry, strMapGet, personalInfoFieldMap, hns, updOpt, hval]
    have hgt : gatherTripEntry {} "customer_email" (JsonVal.jstr e) = {} := by
      simp [gatherTripEntry, strMapGet, tripFieldMap]
    unfold enrich_client_from_payment_payload
    rw [hagg]
    simp only [List.isEmpty_cons, Bool.false_eq_true, if_false,
      enrichPersonalFold, enrichTrips, enrichTripUpdates, List.foldl_cons,
      List.foldl_nil, hape, hgt]
    simp [TripUpdates.nonempty]
    split <;> rfl

/-- Witness for the amended C2 at a concrete roster and payload. -/
theorem C2_payment_context_enrichment_amended_witness :
    (apply_payment_context
        (JsonVal.jobj [("customer_email", JsonVal.jstr "New@Y.com")])
        { clients := [incompleteClientB] }).clients =
      [incompleteClientB].map (fun c =>
        if c.required_missing_fields.isEmpty then c
        else (enrich_client_from_payment_payload c
          [("customer_email", JsonVal.jstr "New@Y.com")]).1) ∧
    ((enrich_client_from_payment_payload incompleteClientB
        [("customer_email", JsonVal.jstr "New@Y.com")]).1).personal_info.email_address =
      some "new@y.com" := by
  constructor
  · exact C2_payment_context_enrichment_amended.1
      [("customer_email", JsonVal.jstr "New@Y.com")]
      { clients := [incompleteClientB] } (by simp) (by simp)
  · have h := C2_payment_context_enrichment_amended.2 incompleteClientB
      "New@Y.com" (by decide) (by decide) (by decide)
    exact h.trans (by decide)

/-! Lemmas about the orchestration round loop. -/

/-- An action that names a registered tool other than `payment_checkout`. -/
def namesKnownNonPaymentTool (tools : List String)
    (a : List (String × JsonVal)) : Prop :=
  ∃ nm, alistGet a "tool" = some (JsonVal.jstr nm) ∧ nm ≠ "" ∧
    tools.contains nm = true ∧ nm ≠ "payment_checkout"

theorem finalize_output_of_nonblank (s : Session) (out : String)
    (actions : List (List (String × JsonVal))) (runs : List ToolRun) (k : Nat)
    (h : pyStrip out ≠ "") :
    (finalize_response s out actions runs k).output = out ∧
    (finalize_response s out actions runs k).actions = actions ∧
    (finalize_response s out actions runs k).llm_calls = k := by
  have hb : (pyStrip out == "") = false := by simpa using h
  unfold finalize_response
  simp [hb]

theorem processActions_ok (env : OrchestratorEnv) (k : Nat) :
    ∀ (acts : List (List (String × JsonVal))) (s : Session)
      (runs : List ToolRun) (cnt : Nat),
      (∀ a ∈ acts, namesKnownNonPaymentTool env.tools a) →
      ∃ s2 runs2 cnt2,
        processActions env k acts s runs cnt = .ok (s2, runs2, cnt2) := by
  intro acts
  induction acts with
  | nil =>
      intro s runs cnt _
      exact ⟨s, runs, cnt, rfl⟩
  | cons a rest ih =>
      intro s runs cnt hgood
      obtain ⟨nm, hget, hne, hknown, hnp⟩ := hgood a (by simp)
      have hrest : ∀ x ∈ rest, namesKnownNonPaymentTool env.tools x :=
        fun x hx => hgood x (by simp [hx])
      unfold processActions
      rw [hget]
      have htr : jsonTruthy (JsonVal.jstr nm) = true := by
        simpa [jsonTruthy] using hne
      simp only [Option.getD_some, htr, Bool.not_true, Bool.false_eq_true,
        if_false, hknown]
      have hnp' : (nm == "payment_checkout") = false := by simpa using hnp
      simp only [hnp', Bool.false_eq_true, if_false]
      exact ih _ _ _ hrest

theorem runRounds_exhaust (env : OrchestratorEnv) :
    ∀ (fuel llmCalls cnt : Nat) (s : Session) (runs : List ToolRun),
      (∀ n, llmCalls ≤ n → n < llmCalls + fuel →
        extract_actions (coerce_json_payload (env.oracle n).1 (env.oracle n).2) ≠ [] ∧
        ∀ a ∈ extract_actions
            (coerce_json_payload (env.oracle n).1 (env.oracle n).2),
          namesKnownNonPaymentTool env.tools a) →
      (runRounds env fuel llmCalls cnt s runs).output = maxRoundsReply ∧
      (runRounds env fuel llmCalls cnt s runs).llm_calls = llmCalls + fuel ∧
      (runRounds env fuel llmCalls cnt s runs).actions = [] := by
  intro fuel
  induction fuel with
  | zero =>
      intro llmCalls cnt s runs _
      have hnb : pyStrip maxRoundsReply ≠ "" := by decide
      have h := finalize_output_of_nonblank s maxRoundsReply [] runs llmCalls hnb
      exact ⟨h.1, by simpa using h.2.2, h.2.1⟩
  | succ f ih =>
      intro llmCalls cnt s runs hgood
      obtain ⟨hne, hacts⟩ := hgood llmCalls (le_refl _) (by omega)
      unfold runRounds
      have hemp : (extract_actions
          (coerce_json_payload (env.oracle llmCalls).1 (env.oracle llmCalls).2)).isEmpty
          = false := by
        cases hx : extract_actions
            (coerce_json_payload (env.oracle llmCalls).1 (env.oracle llmCalls).2)
        · exact absurd hx hne
        · rfl
      simp only [hemp, Bool.false_eq_true, if_false]
      obtain ⟨s2, runs2, cnt2, hok⟩ :=
        processActions_ok env (llmCalls + 1) _ s runs cnt hacts
      rw [hok]
      have hgood2 : ∀ n, llmCalls + 1 ≤ n → n < (llmCalls + 1) + f →
          extract_actions (coerce_json_payload (env.oracle n).1 (env.oracle n).2) ≠ [] ∧
          ∀ a ∈ extract_actions
              (coerce_json_payload (env.oracle n).1 (env.oracle n).2),
            namesKnownNonPaymentTool env.tools a := by
        intro n hn1 hn2
        exact hgood n (by omega) (by omega)
      obtain ⟨ho, hc, ha⟩ := ih (llmCalls + 1) cnt2 s2 runs2 hgood2
      refine ⟨ho, ?_, ha⟩
      rw [hc]
      omega

/-- CLAIM C3 (amended): for every sequence of LLM replies in which each reply
yields at least one action naming a registered tool other than
`payment_checkout` (so no round ends the turn early via the unknown-tool
apology or the payment readiness guard), `handle_message` makes exactly
`max_rounds = 6` LLM calls and then terminates normally with the fixed
try-again apology and an empty actions list. -/
theorem C3_round_exhaustion_amended :
    ∀ (env : OrchestratorEnv) (userMessage : String) (s : Session),
      (∀ n, n < 6 →
        extract_actions (coerce_json_payload (env.oracle n).1 (env.oracle n).2) ≠ [] ∧
        ∀ a ∈ extract_actions
            (coerce_json_payload (env.oracle n).1 (env.oracle n).2),
          namesKnownNonPaymentTool env.tools a) →
      (handle_message env userMessage s).output = maxRoundsReply ∧
      (handle_message env userMessage s).llm_calls = 6 ∧
      (handle_message env userMessage s).actions = [] := by
  intro env userMessage s hgood
  have h := runRounds_exhaust env 6 0 0
    ((try_mark_verification env.now userMessage
      (appendMessage s "user" userMessage)).1) []
    (fun n _ hn => hgood n (by omega))
  exact h

/-- Environment whose oracle always requests `payment_checkout` (a valid,
registered tool) with an empty input. -/
def paymentLoopEnv : OrchestratorEnv :=
  { tools := ["policy_research", "claims_recommendation", "document_ingest",
              "travel_insurance_purchase", "payment_checkout", "payment_status"]
    arun := fun _ _ => JsonVal.jobj []
    oracle := fun _ =>
      ("\x7b\"output\": \"\", \"actions\": [\x7b\"tool\": \"payment_checkout\", \"input\": \x7b\x7d\x7d]\x7d",
       some (JsonVal.jobj
        [("output", JsonVal.jstr ""),
         ("actions", JsonVal.jarr
           [JsonVal.jobj [("tool", JsonVal.jstr "payment_checkout"),
                          ("input", JsonVal.jobj [])]])]))
    uuidHex := fun n => toString n
    now := "2025-01-01T00:00:00+00:00" }

/-- CLAIM C3 counterexample: an oracle that always returns one valid
known-tool action (`payment_checkout`, registered in the tool map) makes the
loop terminate after a single LLM call with the payment guard's
missing-profile message - not after six calls with the try-again apology -
so the claim as stated fails on the code. -/
theorem C3_round_exhaustion_counterexample :
    (∀ n, extract_actions (coerce_json_payload (paymentLoopEnv.oracle n).1
        (paymentLoopEnv.oracle n).2) ≠ [] ∧
      ∀ a ∈ extract_actions (coerce_json_payload (paymentLoopEnv.oracle n).1
          (paymentLoopEnv.oracle n).2),
        ∃ nm, alistGet a "tool" = some (JsonVal.jstr nm) ∧
          paymentLoopEnv.tools.contains nm = true) ∧
    (handle_message paymentLoopEnv "hi" {}).llm_calls = 1 ∧
    (handle_message paymentLoopEnv "hi" {}).output =
      compose_payment_guard_reply
        (.missing_clients "I don\x27t have any traveller profile yet.") ∧
    (handle_message paymentLoopEnv "hi" {}).output ≠ maxRoundsReply := by
  refine ⟨?_, rfl, rfl, by decide⟩
  intro n
  have hred : extract_actions (coerce_json_payload (paymentLoopEnv.oracle n).1
      (paymentLoopEnv.oracle n).2) =
      [[("tool", JsonVal.jstr "payment_checkout"), ("input", JsonVal.jobj [])]] :=
    rfl
  constructor
  · rw [hred]
    simp
  · intro a ha
    rw [hred] at ha
    simp only [List.mem_singleton] at ha
    refine ⟨"payment_checkout", ?_, by decide⟩
    rw [ha]
    rfl

/-- Environment whose oracle always requests `claims_recommendation`. -/
def claimsLoopEnv : OrchestratorEnv :=
  { tools := ["policy_research", "claims_recommendation", "document_ingest",
              "travel_insurance_purchase", "payment_checkout", "payment_status"]
    arun := fun _ _ => JsonVal.jobj []
    oracle := fun _ =>
      ("\x7b\"output\": \"\", \"actions\": [\x7b\"tool\": \"claims_recommendation\", \"input\": \x7b\x7d\x7d]\x7d",
       some (JsonVal.jobj
        [("output", JsonVal.jstr ""),
         ("actions", JsonVal.jarr
           [JsonVal.jobj [("tool", JsonVal.jstr "claims_recommendation"),
                          ("input", JsonVal.jobj [])]])]))
    uuidHex := fun n => toString n
    now := "2025-01-01T00:00:00+00:00" }

/-- Witness for the amended C3: an oracle that always requests
`claims_recommendation` exhausts all six rounds and yields the apology. -/
theorem C3_round_exhaustion_amended_witness :
    (handle_message claimsLoopEnv "hi" {}).output = maxRoundsReply ∧
    (handle_message claimsLoopEnv "hi" {}).llm_calls = 6 ∧
    (handle_message claimsLoopEnv "hi" {}).actions = [] := by
  apply C3_round_exhaustion_amended claimsLoopEnv "hi" {}
  intro n _
  have hred : extract_actions (coerce_json_payload (claimsLoopEnv.oracle n).1
      (claimsLoopEnv.oracle n).2) =
      [[("tool", JsonVal.jstr "claims_recommendation"), ("input", JsonVal.jobj [])]] :=
    rfl
  constructor
  · rw [hred]
    simp
  · intro a ha
    rw [hred] at ha
    simp only [List.mem_singleton] at ha
    rw [ha]
    exact ⟨"claims_recommendation", rfl, by decide, by decide, by decide⟩

/-! Lemmas about the fallback summary. -/

theorem mem_dropWhile_of_not {α : Type} (p : α → Bool) (l : List α) (c : α)
    (hc : c ∈ l) (hp : p c = false) : c ∈ l.dropWhile p := by
  induction l with
  | nil => simp at hc
  | cons a rest ih =>
      by_cases ha : p a = true
      · rw [List.dropWhile_cons_of_pos ha]
        rcases List.mem_cons.mp hc with h | h
        · rw [h] at hp
          rw [hp] at ha
          simp at ha
        · exact ih h
      · rw [List.dropWhile_cons_of_neg ha]
        exact hc

theorem pyStrip_ne_empty_of_mem (s : String) (c : Char) (hc : c ∈ s.data)
    (hw : c.isWhitespace = false) : pyStrip s ≠ "" := by
  intro h
  have hdata : (pyStrip s).data = [] := by rw [h]
  unfold pyStrip at hdata
  have h1 : c ∈ s.data.dropWhile Char.isWhitespace :=
    mem_dropWhile_of_not _ _ _ hc hw
  have h2 : c ∈ (s.data.dropWhile Char.isWhitespace).reverse :=
    List.mem_reverse.mpr h1
  have h3 : c ∈ (s.data.dropWhile Char.isWhitespace).reverse.dropWhile
      Char.isWhitespace :=
    mem_dropWhile_of_not _ _ _ h2 hw
  have h4 : c ∈ ((s.data.dropWhile Char.isWhitespace).reverse.dropWhile
      Char.isWhitespace).reverse :=
    List.mem_reverse.mpr h3
  have hdata2 : ((s.data.dropWhile Char.isWhitespace).reverse.dropWhile
      Char.isWhitespace).reverse = ([] : List Char) := hdata
  rw [hdata2] at h4
  simp at h4

theorem joinWith_mem_data (sep : String) (l : List String) (x : String)
    (hx : x ∈ l) (c : Char) (hc : c ∈ x.data) :
    c ∈ (joinWith sep l).data := by
  induction l with
  | nil => simp at hx
  | cons a rest ih =>
      cases rest with
      | nil =>
          rcases List.mem_cons.mp hx with h | h
          · rw [← h]
            exact hc
          · simp at h
      | cons b rest2 =>
          rcases List.mem_cons.mp hx with h | h
          · show c ∈ (a ++ sep ++ joinWith sep (b :: rest2)).data
            rw [String.data_append]
            apply List.mem_append_left
            rw [String.data_append]
            apply List.mem_append_left
            rw [← h]
            exact hc
          · show c ∈ (a ++ sep ++ joinWith sep (b :: rest2)).data
            rw [String.data_append]
            exact List.mem_append_right _ (ih h)

theorem compose_policy_summary_nonempty (kvs : List (String × JsonVal))
    (rs : String) (hget : alistGet kvs "reasoning" = some (JsonVal.jstr rs))
    (hrs : pyStrip rs ≠ "") :
    compose_policy_research_summary (JsonVal.jobj kvs) ≠ "" := by
  have hlines : policySummaryLines kvs =
      (if (policyProductLines (alistGet kvs "products")).isEmpty then []
       else policyProductLines (alistGet kvs "products") ++ [""]) ++ [pyStrip rs] := by
    unfold policySummaryLines
    rw [hget]
    dsimp only
    rw [if_pos hrs]
  have hne : (policySummaryLines kvs).isEmpty = false := by
    rw [hlines]
    simp
  show (if (policySummaryLines kvs).isEmpty = true then ""
    else pyStrip (joinWith "\n"
      (policySummaryLines kvs ++ ["", "Source: policy taxonomy dataset."]))) ≠ ""
  rw [hne]
  simp only [Bool.false_eq_true, if_false]
  apply pyStrip_ne_empty_of_mem _ 'S'
  · apply joinWith_mem_data _ _ "Source: policy taxonomy dataset."
    · apply List.mem_append_right
      simp
    · simp
  · decide

/-- Joining with a trailing singleton appends it after one separator. -/
theorem joinWith_append_singleton (sep a : String) (xs : List String)
    (hxs : xs ≠ []) :
    joinWith sep (xs ++ [a]) = joinWith sep xs ++ sep ++ a := by
  induction xs with
  | nil => exact absurd rfl hxs
  | cons x rest ih =>
      cases rest with
      | nil => rfl
      | cons y rest2 =>
          have h1 : joinWith sep ((x :: y :: rest2) ++ [a])
              = x ++ sep ++ joinWith sep ((y :: rest2) ++ [a]) := rfl
          have h2 : joinWith sep (x :: y :: rest2)
              = x ++ sep ++ joinWith sep (y :: rest2) := rfl
          rw [h1, ih (by simp), h2]
          simp [String.append_assoc]

/-- A left-anchored suffix survives a leading `dropWhile`. -/
theorem dropWhile_append_suffix {α : Type} (p : α → Bool) (l₁ l₂ : List α)
    (h : l₂.dropWhile p = l₂) :
    l₂ <:+ (l₁ ++ l₂).dropWhile p := by
  induction l₁ with
  | nil =>
      rw [List.nil_append, h]
  | cons a rest ih =>
      rw [List.cons_append, List.dropWhile_cons]
      by_cases ha : p a = true
      · rw [if_pos ha]
        exact ih
      · rw [if_neg ha]
        exact List.IsSuffix.trans (List.suffix_append rest l₂)
          (List.suffix_cons a (rest ++ l₂))

/-- Stripping a string that ends in an attribution whose first character is
not whitespace and whose last character is not whitespace keeps the
attribution as a suffix. -/
theorem pyStrip_suffix_attr (s attr : String) (c : Char) (t : List Char)
    (hrev : attr.data.reverse = c :: t) (hc : Char.isWhitespace c = false)
    (hhead : attr.data.dropWhile Char.isWhitespace = attr.data) :
    attr.data <:+ (pyStrip (s ++ attr)).data := by
  have hD : (s ++ attr).data = s.data ++ attr.data := String.data_append s attr
  show attr.data <:+
    ((((s ++ attr).data.dropWhile Char.isWhitespace).reverse.dropWhile
      Char.isWhitespace).reverse)
  rw [hD]
  have hsuf1 : attr.data <:+ (s.data ++ attr.data).dropWhile Char.isWhitespace :=
    dropWhile_append_suffix _ _ _ hhead
  obtain ⟨pre, hpre⟩ := hsuf1
  have hnodrop : ((pre ++ attr.data).reverse).dropWhile Char.isWhitespace
      = (pre ++ attr.data).reverse := by
    rw [List.reverse_append, hrev, List.cons_append, List.dropWhile_cons,
      if_neg (by simp [hc])]
  rw [← hpre, hnodrop, List.reverse_reverse]
  exact List.suffix_append pre attr.data

/-- With non-blank reasoning the policy summary ends with the fixed source
attribution line. -/
theorem compose_policy_summary_attr (kvs : List (String × JsonVal))
    (rs : String) (hget : alistGet kvs "reasoning" = some (JsonVal.jstr rs))
    (hrs : pyStrip rs ≠ "") :
    ("Source: policy taxonomy dataset.").data
      <:+ (compose_policy_research_summary (JsonVal.jobj kvs)).data := by
  have hlines : policySummaryLines kvs =
      (if (policyProductLines (alistGet kvs "products")).isEmpty then []
       else policyProductLines (alistGet kvs "products") ++ [""]) ++ [pyStrip rs] := by
    unfold policySummaryLines
    rw [hget]
    dsimp only
    rw [if_pos hrs]
  have hne : (policySummaryLines kvs).isEmpty = false := by
    rw [hlines]
    simp
  have hnil : policySummaryLines kvs ≠ [] := by
    rw [hlines]
    simp
  show ("Source: policy taxonomy dataset.").data <:+
    (if (policySummaryLines kvs).isEmpty = true then ""
     else pyStrip (joinWith "\n"
       (policySummaryLines kvs ++ ["", "Source: policy taxonomy dataset."]))).data
  rw [hne]
  simp only [Bool.false_eq_true, if_false]
  have happ : policySummaryLines kvs ++ ["", "Source: policy taxonomy dataset."]
      = (policySummaryLines kvs ++ [""]) ++ ["Source: policy taxonomy dataset."] := by
    simp
  rw [happ, joinWith_append_singleton "\n" "Source: policy taxonomy dataset."
    (policySummaryLines kvs ++ [""]) (by simp)]
  exact pyStrip_suffix_attr
    (joinWith "\n" (policySummaryLines kvs ++ [""]) ++ "\n")
    "Source: policy taxonomy dataset." '.' _ rfl (by decide) (by decide)

/-- A recorded run of a tool other than `policy_research`. -/
def claimsRun : ToolRun :=
  ⟨JsonVal.jstr "claims_recommendation", JsonVal.jobj [],
   JsonVal.jobj [("recommended_plan", JsonVal.jstr "Plan A")],
   JsonVal.jstr "id-1"⟩

/-- A recorded `policy_research` run with non-blank reasoning. -/
def policyRun : ToolRun :=
  ⟨JsonVal.jstr "policy_research", JsonVal.jobj [],
   JsonVal.jobj [("products", JsonVal.jarr []),
                 ("reasoning", JsonVal.jstr "Reasoning text.")],
   JsonVal.jstr "id-2"⟩

/-- A recorded `policy_research` run with the blank result the tool actually
returns when the agent skips the LLM or its reply cannot be parsed. -/
def blankPolicyRun : ToolRun :=
  ⟨JsonVal.jstr "policy_research", JsonVal.jobj [],
   JsonVal.jobj [("products", JsonVal.jarr []), ("reasoning", JsonVal.jnull)],
   JsonVal.jstr "id-3"⟩

/-- CLAIM C8 counterexample: a turn in which a tool ran (`claims_recommendation`)
and the final LLM output is blank still returns the empty string - the
deterministic fallback exists only for `policy_research`, so the user can
receive an empty message. -/
theorem C8_empty_fallback_counterexample :
    [claimsRun] ≠ ([] : List ToolRun) ∧
    (finalize_response {} "" [] [claimsRun] 1).output = "" := by
  exact ⟨by simp, rfl⟩

/-- CLAIM C8 (amended): the blank-output fallback is synthesized only when the
last executed tool was `policy_research` and its result yields a non-empty
summary. (1) For any other last tool the output is returned unchanged (so a
blank output stays blank). (2) Even for `policy_research`, the blank result
the tool actually returns when the agent skips the LLM or its reply cannot be
parsed - no product entries, `reasoning` null - composes an empty summary, and
the user still receives the blank message. (3) When the `policy_research`
result carries a non-blank `reasoning` string, the finalized output of a blank
turn is a non-empty summary ending with the fixed source attribution line. -/
theorem C8_blank_output_fallback_amended :
    (∀ (s : Session) (out : String) (actions : List (List (String × JsonVal)))
       (runs : List ToolRun) (k : Nat) (lastRun : ToolRun),
      runs.getLast? = some lastRun →
      (∀ nm, lastRun.name = JsonVal.jstr nm → nm ≠ "policy_research") →
      (finalize_response s out actions runs k).output = out) ∧
    (∀ (s : Session) (actions : List (List (String × JsonVal)))
       (runs : List ToolRun) (k : Nat) (lastRun : ToolRun),
      runs.getLast? = some lastRun →
      lastRun.name = JsonVal.jstr "policy_research" →
      lastRun.result = JsonVal.jobj
        [("products", JsonVal.jarr []), ("reasoning", JsonVal.jnull)] →
      (finalize_response s "" actions runs k).output = "") ∧
    (∀ (s : Session) (actions : List (List (String × JsonVal)))
       (runs : List ToolRun) (k : Nat) (lastRun : ToolRun)
       (kvs : List (String × JsonVal)) (rs : String),
      runs.getLast? = some lastRun →
      lastRun.name = JsonVal.jstr "policy_research" →
      lastRun.result = JsonVal.jobj kvs →
      alistGet kvs "reasoning" = some (JsonVal.jstr rs) →
      pyStrip rs ≠ "" →
      (finalize_response s "" actions runs k).output ≠ "" ∧
      ("Source: policy taxonomy dataset.").data
        <:+ (finalize_response s "" actions runs k).output.data) := by
  refine ⟨?_, ?_, ?_⟩
  · intro s out actions runs k lastRun hlast hnm
    have hfb : compose_tool_fallback_reply runs = "" := by
      unfold compose_tool_fallback_reply
      rw [hlast]
      dsimp only
      rcases hn : lastRun.name with - | b | q | nm | xs | kvs
      · rfl
      · rfl
      · rfl
      · dsimp only
        rw [if_neg]
        intro hb
        exact hnm nm hn (by simpa using hb)
      · rfl
      · rfl
    unfold finalize_response
    by_cases hs : (pyStrip out == "") = true
    · simp [hs, hfb]
    · simp [hs]
  · intro s actions runs k lastRun hlast hname hres
    have hfb : compose_tool_fallback_reply runs = "" := by
      unfold compose_tool_fallback_reply
      rw [hlast]
      dsimp only
      rw [hname]
      dsimp only
      rw [if_pos (by simp), hres]
      rfl
    unfold finalize_response
    have hblank : (pyStrip "" == "") = true := by decide
    simp [hblank, hfb]
  · intro s actions runs k lastRun kvs rs hlast hname hres hget hrs
    have hfb : compose_tool_fallback_reply runs =
        compose_policy_research_summary (JsonVal.jobj kvs) := by
      unfold compose_tool_fallback_reply
      rw [hlast]
      dsimp only
      rw [hname]
      dsimp only
      rw [if_pos (by simp), hres]
    have hne := compose_policy_summary_nonempty kvs rs hget hrs
    have hsuf := compose_policy_summary_attr kvs rs hget hrs
    have hout : (finalize_response s "" actions runs k).output
        = compose_policy_research_summary (JsonVal.jobj kvs) := by
      unfold finalize_response
      have hblank : (pyStrip "" == "") = true := by decide
      simp [hblank, hfb, hne]
    rw [hout]
    exact ⟨hne, hsuf⟩

/-- Witness for the amended C8 at concrete tool runs: a non-policy tool, the
blank policy result, and a policy result with non-blank reasoning. -/
theorem C8_blank_output_fallback_amended_witness :
    (finalize_response {} "" [] [claimsRun] 1).output = "" ∧
    (finalize_response {} "" [] [blankPolicyRun] 1).output = "" ∧
    ((finalize_response {} "" [] [policyRun] 1).output ≠ "" ∧
     ("Source: policy taxonomy dataset.").data
       <:+ (finalize_response {} "" [] [policyRun] 1).output.data) := by
  refine ⟨?_, ?_, ?_⟩
  · exact C8_blank_output_fallback_amended.1 {} "" [] [claimsRun] 1 claimsRun rfl
      (by
        intro nm h
        cases h
        decide)
  · exact C8_blank_output_fallback_amended.2.1 {} [] [blankPolicyRun] 1
      blankPolicyRun rfl rfl rfl
  · exact C8_blank_output_fallback_amended.2.2 {} [] [policyRun] 1 policyRun
      [("products", JsonVal.jarr []), ("reasoning", JsonVal.jstr "Reasoning text.")]
      "Reasoning text." rfl rfl rfl rfl (by decide)

/-- A taxonomy declaring only the product `Plan B` inside `layer_2_benefits`
(and no top-level `products` list). -/
def taxoGhost : JsonVal :=
  JsonVal.jobj [("layers", JsonVal.jobj
    [("layer_2_benefits", JsonVal.jarr
      [JsonVal.jobj [("benefit_name", JsonVal.jstr "Medical"),
        ("products", JsonVal.jobj [("Plan B", JsonVal.jstr "covered")])]])])]

/-- CLAIM C9 counterexample: requesting the product `Ghost`, absent from the
taxonomy (whose only product is `Plan B`), still renders a non-blank benefits
context (the per-product section carries the product name even with empty
entry lists), so the LLM IS invoked and the agent result depends on the
oracle: two different oracles yield different `raw` outputs. -/
theorem C9_policy_skip_counterexample :
    extract_all_taxonomy_products taxoGhost = ["Plan B"] ∧
    "Ghost" ∉ extract_all_taxonomy_products taxoGhost ∧
    (policy_agent_run taxoGhost ("alpha", none) [JsonVal.jstr "Ghost"] []).llm_invoked
      = true ∧
    pyStrip (policy_agent_run taxoGhost ("alpha", none) [JsonVal.jstr "Ghost"] []).context
      ≠ "" ∧
    (policy_agent_run taxoGhost ("alpha", none) [JsonVal.jstr "Ghost"] []).raw ≠
      (policy_agent_run taxoGhost ("beta", none) [JsonVal.jstr "Ghost"] []).raw := by
  have h2 : extract_all_taxonomy_products taxoGhost
      = (["Plan B"] : List String).mergeSort (fun a b => decide (a ≤ b)) := rfl
  have hextract : extract_all_taxonomy_products taxoGhost = ["Plan B"] :=
    h2.trans (List.mergeSort_singleton ..)
  refine ⟨hextract, ?_, by decide, by decide, by decide⟩
  rw [hextract]
  decide

/-- CLAIM C9 (amended): the reasoning stage is skipped - the LLM is never
invoked and the result is oracle-independent, with empty products and an empty
context - exactly in the no-resolved-products case: when the requested product
list normalises to empty AND the taxonomy-wide fallback extraction is empty.
(A merely absent-from-the-taxonomy requested product still renders a non-blank
per-product section and the LLM runs, as the counterexample shows.) -/
theorem C9_policy_skip_amended (taxonomy : JsonVal)
    (o1 o2 : String × Option JsonVal) (rawProducts rawTiers : List JsonVal)
    (h1 : normalize_product_list rawProducts = [])
    (h2 : extract_all_taxonomy_products taxonomy = []) :
    policy_agent_run taxonomy o1 rawProducts rawTiers =
      policy_agent_run taxonomy o2 rawProducts rawTiers ∧
    (policy_agent_run taxonomy o1 rawProducts rawTiers).llm_invoked = false ∧
    (policy_agent_run taxonomy o1 rawProducts rawTiers).products = [] ∧
    (policy_agent_run taxonomy o1 rawProducts rawTiers).context = "" := by
  have hres : resolve_products_and_tiers taxonomy rawProducts rawTiers
      = ([], [], false) := by
    unfold resolve_products_and_tiers
    rw [h1, h2]
    simp
  unfold policy_agent_run
  rw [hres]
  simp

/-- Witness for the amended C9: an empty request against an empty taxonomy,
checked against two distinct oracles. -/
theorem C9_policy_skip_amended_witness :
    normalize_product_list [] = [] ∧
    extract_all_taxonomy_products (JsonVal.jobj []) = [] ∧
    (policy_agent_run (JsonVal.jobj []) ("alpha", none) [] [] =
       policy_agent_run (JsonVal.jobj []) ("beta", none) [] [] ∧
     (policy_agent_run (JsonVal.jobj []) ("alpha", none) [] []).llm_invoked = false ∧
     (policy_agent_run (JsonVal.jobj []) ("alpha", none) [] []).products = [] ∧
     (policy_agent_run (JsonVal.jobj []) ("alpha", none) [] []).context = "") :=
  ⟨rfl, rfl,
   C9_policy_skip_amended (JsonVal.jobj []) ("alpha", none) ("beta", none) [] []
     rfl rfl⟩

/-- A non-blank optional string is `some` of its `getD ""` payload. -/
theorem nonblank_eq_some (o : Option String) (h : is_blank_str o = false) :
    o = some (o.getD "") := by
  cases o
  · simp [is_blank_str] at h
  · rfl

/-- The two ways a trip can acquire an identity key: a non-blank `trip_id`
(tagged tuple) or the normalised destination/date tuple. -/
theorem trip_key_cases (t : TripDetails) (k : String × String × String × String)
    (h : trip_identity_key t = some k) :
    (is_blank_str t.trip_id = false ∧ k = ("trip_id", t.trip_id.getD "", "", "")) ∨
    (is_blank_str t.trip_id = true ∧ is_blank_str t.destination = false ∧
     t.start_date.isSome = true ∧
     k = (pyLower (pyStrip (t.destination.getD "")),
          (t.start_date.map dateStr).getD "",
          (t.end_date.map dateStr).getD "",
          (t.trip_type.map tripTypeStr).getD "")) := by
  unfold trip_identity_key at h
  split at h
  case isTrue hc =>
    left
    refine ⟨by simpa using hc, (Option.some.inj h).symm⟩
  case isFalse hc =>
    split at h
    case isTrue hc2 =>
      right
      have hc' : is_blank_str t.trip_id = true := by
        cases hx : is_blank_str t.trip_id
        · exact absurd (by simp [hx]) hc
        · rfl
      simp only [Bool.and_eq_true] at hc2
      refine ⟨hc', by simpa using hc2.1, hc2.2, (Option.some.inj h).symm⟩
    case isFalse hc2 => exact absurd h (by simp)

/-- Identity key of a trip carrying a non-blank `trip_id`. -/
theorem trip_identity_key_of_id (t : TripDetails)
    (h : is_blank_str t.trip_id = false) :
    trip_identity_key t = some ("trip_id", t.trip_id.getD "", "", "") := by
  unfold trip_identity_key
  rw [h]
  rfl

/-- Identity key of a trip with a blank `trip_id` but a destination and a
start date. -/
theorem trip_identity_key_of_tuple (t : TripDetails)
    (h1 : is_blank_str t.trip_id = true) (h2 : is_blank_str t.destination = false)
    (h3 : t.start_date.isSome = true) :
    trip_identity_key t = some (pyLower (pyStrip (t.destination.getD "")),
      (t.start_date.map dateStr).getD "", (t.end_date.map dateStr).getD "",
      (t.trip_type.map tripTypeStr).getD "") := by
  unfold trip_identity_key
  rw [h1, h2, h3]
  rfl

/-- A blank incoming value never overwrites. -/
theorem mergeVal_skip {α : Type} (isB : α → Bool) (cur new : α) (p : Bool)
    (h : isB new = true) : mergeVal isB cur new p = cur := by
  simp [mergeVal, h]

/-- `_merge_trip` preserves a shared identity key: when the matched base trip
and the incoming trip carry the same key, the merged trip still carries it
(in every combination of `trip_id`-based and tuple-based keys). -/
theorem merge_trip_key_preserved (base trip : TripDetails) (p : Bool)
    (k : String × String × String × String)
    (hb : trip_identity_key base = some k) (ht : trip_identity_key trip = some k) :
    trip_identity_key (merge_trip base trip p) = some k := by
  have hdefId : (merge_trip base trip p).trip_id
      = mergeVal is_blank_str base.trip_id trip.trip_id p := rfl
  rcases trip_key_cases base k hb with ⟨hb1, hbk⟩ | ⟨hb1, hb2, hb3, hbk⟩
  · rcases trip_key_cases trip k ht with ⟨ht1, htk⟩ | ⟨ht1, ht2, ht3, htk⟩
    · have hgd : base.trip_id.getD "" = trip.trip_id.getD "" :=
        congrArg (fun q => q.2.1) (hbk.symm.trans htk)
      have hid : base.trip_id = trip.trip_id := by
        rw [nonblank_eq_some base.trip_id hb1, nonblank_eq_some trip.trip_id ht1, hgd]
      have hm : (merge_trip base trip p).trip_id = trip.trip_id := by
        rw [hdefId, hid]
        exact mergeVal_self ..
      have hmb : is_blank_str (merge_trip base trip p).trip_id = false := by
        rw [hm]; exact ht1
      rw [trip_identity_key_of_id _ hmb, hm, ← htk]
    · have hm : (merge_trip base trip p).trip_id = base.trip_id := by
        rw [hdefId]
        exact mergeVal_skip _ _ _ _ ht1
      have hmb : is_blank_str (merge_trip base trip p).trip_id = false := by
        rw [hm]; exact hb1
      rw [trip_identity_key_of_id _ hmb, hm, ← hbk]
  · rcases trip_key_cases trip k ht with ⟨ht1, htk⟩ | ⟨ht1, ht2, ht3, htk⟩
    · have hm : (merge_trip base trip p).trip_id = trip.trip_id := by
        rw [hdefId]
        exact mergeVal_fill _ _ _ _ hb1 ht1
      have hmb : is_blank_str (merge_trip base trip p).trip_id = false := by
        rw [hm]; exact ht1
      rw [trip_identity_key_of_id _ hmb, hm, ← htk]
    · obtain ⟨k1, k2, k3, k4⟩ := k
      simp only [Prod.mk.injEq] at hbk htk
      have hmId : is_blank_str (merge_trip base trip p).trip_id = true := by
        rw [hdefId, mergeVal_skip _ _ _ _ ht1]
        exact hb1
      have hdefD : (merge_trip base trip p).destination
          = mergeVal is_blank_str base.destination trip.destination p := rfl
      have hdefS : (merge_trip base trip p).start_date
          = mergeVal is_blank_opt base.start_date trip.start_date p := rfl
      have hdefE : (merge_trip base trip p).end_date
          = mergeVal is_blank_opt base.end_date trip.end_date p := rfl
      have hdefT : (merge_trip base trip p).trip_type
          = mergeVal is_blank_opt base.trip_type trip.trip_type p := rfl
      have hDest : is_blank_str (merge_trip base trip p).destination = false := by
        rw [hdefD]
        rcases mergeVal_result is_blank_str base.destination trip.destination p with
          hd | ⟨hd, hdnb⟩
        · rw [hd]; exact hb2
        · rw [hd]; exact hdnb
      have e1 : pyLower (pyStrip ((merge_trip base trip p).destination.getD "")) = k1 := by
        rw [hdefD]
        rcases mergeVal_result is_blank_str base.destination trip.destination p with
          hd | ⟨hd, -⟩
        · rw [hd]; exact hbk.1.symm
        · rw [hd]; exact htk.1.symm
      have hSd : (merge_trip base trip p).start_date.isSome = true := by
        rw [hdefS]
        rcases mergeVal_result is_blank_opt base.start_date trip.start_date p with
          hs | ⟨hs, -⟩
        · rw [hs]; exact hb3
        · rw [hs]; exact ht3
      have e2 : ((merge_trip base trip p).start_date.map dateStr).getD "" = k2 := by
        rw [hdefS]
        rcases mergeVal_result is_blank_opt base.start_date trip.start_date p with
          hs | ⟨hs, -⟩
        · rw [hs]; exact hbk.2.1.symm
        · rw [hs]; exact htk.2.1.symm
      have e3 : ((merge_trip base trip p).end_date.map dateStr).getD "" = k3 := by
        rw [hdefE]
        rcases mergeVal_result is_blank_opt base.end_date trip.end_date p with
          he | ⟨he, -⟩
        · rw [he]; exact hbk.2.2.1.symm
        · rw [he]; exact htk.2.2.1.symm
      have e4 : ((merge_trip base trip p).trip_type.map tripTypeStr).getD "" = k4 := by
        rw [hdefT]
        rcases mergeVal_result is_blank_opt base.trip_type trip.trip_type p with
          hy | ⟨hy, -⟩
        · rw [hy]; exact hbk.2.2.2.symm
        · rw [hy]; exact htk.2.2.2.symm
      rw [trip_identity_key_of_tuple _ hmId hDest hSd, e1, e2, e3, e4]

/-- Two optional trip keys never both equal the same concrete key (the relation
under which a trip list is duplicate-free; key-less trips satisfy it freely). -/
def KeysDisjoint (a b : Option (String × String × String × String)) : Prop :=
  ∀ k, a = some k → b ≠ some k

/-- No two entries of a trip list share an identity key. -/
def noDupTripKeys (l : List TripDetails) : Prop :=
  (l.map trip_identity_key).Pairwise KeysDisjoint

/-- The `_merge_trips` loop body preserves key-disjointness: a matched incoming
trip is merged in place (keeping the shared key), an unmatched or key-less one
is appended without colliding. -/
theorem mergeTripStep_noDup (p : Bool) (merged : List TripDetails)
    (trip : TripDetails) (h : noDupTripKeys merged) :
    noDupTripKeys (mergeTripStep p merged trip) := by
  unfold mergeTripStep
  cases hloc : locate_trip_index merged trip with
  | none =>
      show noDupTripKeys (merged ++ [trip])
      unfold noDupTripKeys at h ⊢
      rw [List.map_append, List.pairwise_append]
      refine ⟨h, by simp, ?_⟩
      intro a ha b hb
      simp only [List.map_cons, List.map_nil, List.mem_singleton] at hb
      subst hb
      intro k hak
      unfold locate_trip_index at hloc
      cases hk : trip_identity_key trip with
      | none => simp
      | some k0 =>
          rw [hk] at hloc
          have hall := List.findIdx?_eq_none_iff.mp hloc
          intro hcon
          have hk0 : k0 = k := Option.some.inj hcon
          obtain ⟨tr, htr, rfl⟩ := List.mem_map.mp ha
          have := hall tr htr
          rw [hak, hk0] at this
          simp at this
  | some i =>
      cases hget : merged.get? i with
      | none =>
          have hred : (match merged.get? i with
              | none => merged
              | some base => merged.set i (merge_trip base trip p)) = merged := by
            rw [hget]
          show noDupTripKeys (match merged.get? i with
            | none => merged
            | some base => merged.set i (merge_trip base trip p))
          rw [hred]
          exact h
      | some base =>
          have hred : (match merged.get? i with
              | none => merged
              | some base => merged.set i (merge_trip base trip p))
              = merged.set i (merge_trip base trip p) := by
            rw [hget]
          show noDupTripKeys (match merged.get? i with
            | none => merged
            | some base => merged.set i (merge_trip base trip p))
          rw [hred]
          unfold locate_trip_index at hloc
          cases hk : trip_identity_key trip with
          | none => rw [hk] at hloc; cases hloc
          | some k0 =>
              rw [hk] at hloc
              obtain ⟨hilt, hpi, -⟩ := List.findIdx?_eq_some_iff_getElem.mp hloc
              have hgetElem : merged.get? i = some merged[i] := by
                rw [List.get?_eq_getElem?]
                exact List.getElem?_eq_getElem hilt
              have hbase_i : base = merged[i] :=
                Option.some.inj (hget.symm.trans hgetElem)
              have hbase_key : trip_identity_key base = some k0 := by
                rw [hbase_i]
                exact eq_of_beq hpi
              have hpres := merge_trip_key_preserved base trip p k0 hbase_key hk
              have hmap : (merged.set i (merge_trip base trip p)).map trip_identity_key
                  = merged.map trip_identity_key := by
                rw [List.map_set]
                apply set_get?_self
                rw [List.get?_map, hget]
                simp only [Option.map_some']
                rw [hpres, ← hbase_key]
              unfold noDupTripKeys
              rw [hmap]
              exact h

/-- `_merge_trips` preserves key-disjointness for any incoming batch. -/
theorem merge_trips_noDup (incoming : List TripDetails) (p : Bool) :
    ∀ existing, noDupTripKeys existing →
      noDupTripKeys (merge_trips existing incoming p) := by
  induction incoming with
  | nil => intro existing h; exact h
  | cons t rest ih =>
      intro existing h
      show noDupTripKeys (List.foldl (mergeTripStep p) (mergeTripStep p existing t) rest)
      exact ih _ (mergeTripStep_noDup p existing t h)

/-- Two trips sharing a `trip_id` but with different destinations. -/
def tripIdParis : TripDetails := { trip_id := some "T", destination := some "Paris" }

/-- The conflicting second trip of the C7 counterexample. -/
def tripIdRome : TripDetails := { trip_id := some "T", destination := some "Rome" }

/-- CLAIM C7 counterexample: two trips with different destinations do NOT
always produce two separate entries - sharing a `trip_id` makes the identity
key ignore the destination, so the two trips collapse into one entry. -/
theorem C7_different_destinations_counterexample :
    tripIdParis.destination ≠ tripIdRome.destination ∧
    (merge_trips [tripIdParis] [tripIdRome] false).length = 1 := by
  exact ⟨by decide, by decide⟩

/-- CLAIM C7 (amended): (1) trip merging preserves the invariant that no two
entries share an identity key (`trip_id` tag if present, else the normalised
destination/date tuple) - in particular a roster built up from the empty list
never holds two entries with the same key; (2) two trips with different
normalised destinations produce two separate entries PROVIDED neither trip
carries a `trip_id` - a shared `trip_id` overrides the destination (see the
counterexample). -/
theorem C7_trip_key_disjointness_amended :
    (∀ (existing incoming : List TripDetails) (p : Bool),
      noDupTripKeys existing → noDupTripKeys (merge_trips existing incoming p)) ∧
    (∀ (t1 t2 : TripDetails) (p : Bool),
      is_blank_str t1.trip_id = true → is_blank_str t2.trip_id = true →
      pyLower (pyStrip (t1.destination.getD "")) ≠
        pyLower (pyStrip (t2.destination.getD "")) →
      merge_trips [t1] [t2] p = [t1, t2]) := by
  constructor
  · intro existing incoming p h
    exact merge_trips_noDup incoming p existing h
  · intro t1 t2 p hb1 hb2 hdest
    show mergeTripStep p [t1] t2 = [t1, t2]
    have hloc : locate_trip_index [t1] t2 = none := by
      unfold locate_trip_index
      cases hk : trip_identity_key t2 with
      | none => rfl
      | some k =>
          rcases trip_key_cases t2 k hk with ⟨hid, -⟩ | ⟨-, -, -, hkk⟩
          · rw [hid] at hb2; cases hb2
          · apply List.findIdx?_eq_none_iff.mpr
            intro x hx
            simp only [List.mem_singleton] at hx
            subst hx
            cases hk1 : trip_identity_key x with
            | none => rfl
            | some k1 =>
                rcases trip_key_cases x k1 hk1 with ⟨hid1, -⟩ | ⟨-, -, -, hk1k⟩
                · rw [hid1] at hb1; cases hb1
                · have hne : k1 ≠ k := by
                    intro he
                    apply hdest
                    have h1 : k1.1 = pyLower (pyStrip (x.destination.getD "")) := by
                      rw [hk1k]
                    have h2 : k.1 = pyLower (pyStrip (t2.destination.getD "")) := by
                      rw [hkk]
                    rw [← h1, ← h2, he]
                  simp [hne]
    unfold mergeTripStep
    rw [hloc]
    rfl

/-- Witness for the amended C7: a fresh roster stays key-disjoint, and two
`trip_id`-less trips bound for Paris and Rome stay separate entries. -/
theorem C7_trip_key_disjointness_amended_witness :
    noDupTripKeys (merge_trips []
      [{ destination := some "Paris", start_date := some ⟨2025, 1, 1⟩ }] false) ∧
    merge_trips [{ destination := some "Paris" }] [{ destination := some "Rome" }]
      false = [{ destination := some "Paris" }, { destination := some "Rome" }] := by
  constructor
  · exact C7_trip_key_disjointness_amended.1 []
      [{ destination := some "Paris", start_date := some ⟨2025, 1, 1⟩ }] false
      (by simp [noDupTripKeys])
  · exact C7_trip_key_disjointness_amended.2
      { destination := some "Paris" } { destination := some "Rome" } false
      rfl rfl (by decide)

/-- The first element surviving `dropWhile` fails the predicate. -/
theorem dropWhile_head_false {α : Type} (p : α → Bool) (l : List α) (a : α)
    (t : List α) (h : l.dropWhile p = a :: t) : p a = false := by
  induction l with
  | nil => cases h
  | cons x xs ih =>
      by_cases hx : p x = true
      · rw [List.dropWhile_cons, if_pos hx] at h
        exact ih h
      · rw [List.dropWhile_cons, if_neg hx] at h
        cases h
        exact Bool.eq_false_iff.mpr hx

/-- Trimming both ends of a character list is idempotent. -/
theorem dropWhile_trim_idem (p : Char → Bool) (l : List Char) :
    (((((l.dropWhile p).reverse.dropWhile p).reverse.dropWhile p).reverse.dropWhile
        p).reverse)
      = ((l.dropWhile p).reverse.dropWhile p).reverse := by
  have h2 : ((l.dropWhile p).reverse.dropWhile p).reverse.dropWhile p
      = ((l.dropWhile p).reverse.dropWhile p).reverse := by
    cases hc : ((l.dropWhile p).reverse.dropWhile p).reverse with
    | nil => rfl
    | cons a t =>
        have hsuf : (l.dropWhile p).reverse.dropWhile p <:+ (l.dropWhile p).reverse :=
          List.dropWhile_suffix p
        have hpre : ((l.dropWhile p).reverse.dropWhile p).reverse <+: l.dropWhile p :=
          List.reverse_suffix.mp (by rw [List.reverse_reverse]; exact hsuf)
        rw [hc] at hpre
        obtain ⟨r, hr⟩ := hpre
        have hl : l.dropWhile p = a :: (t ++ r) := by
          rw [← hr]
          rfl
        have ha := dropWhile_head_false p l a (t ++ r) hl
        rw [List.dropWhile_cons, if_neg (by simp [ha])]
  rw [h2, List.reverse_reverse, List.dropWhile_idempotent]

/-- Python `str.strip()` is idempotent. -/
theorem pyStrip_idem (s : String) : pyStrip (pyStrip s) = pyStrip s := by
  unfold pyStrip
  exact congrArg String.mk (dropWhile_trim_idem Char.isWhitespace s.data)

/-- Stripping preserves blankness of the wrapped value. -/
theorem is_blank_str_pyStrip (s : String) :
    is_blank_str (some (pyStrip s)) = is_blank_str (some s) := by
  show (pyStrip (pyStrip s) == "") = (pyStrip s == "")
  rw [pyStrip_idem]

/-- `a > a` is false for Python string comparison. -/
theorem pyStrGt_irrefl (x : String) : pyStrGt x x = false := by
  simp [pyStrGt]

/-- A non-blank target is never overwritten by the blank-fill rule. -/
theorem fillBlank_keep (cur new : Option String)
    (h : is_blank_str cur = false) : fillBlank cur new = cur := by
  simp [fillBlank, h]

/-- Keys of an association list, in Python membership form. -/
theorem alistHas_iff (kvs : List (String × JsonVal)) (k : String) :
    alistHas kvs k = true ↔ ∃ p ∈ kvs, p.1 = k := by
  unfold alistHas
  rw [List.any_eq_true]
  constructor
  · rintro ⟨p, hp, hbeq⟩
    exact ⟨p, hp, eq_of_beq hbeq⟩
  · rintro ⟨p, hp, hkey⟩
    exact ⟨p, hp, by rw [hkey]; exact beq_self_eq_true k⟩

/-- On a well-formed dict, lookup of a member key returns its value. -/
theorem alistGet_of_wf_mem (kvs : List (String × JsonVal)) (k : String)
    (v : JsonVal) (hwf : dictWF kvs) (hmem : (k, v) ∈ kvs) :
    alistGet kvs k = some v := by
  induction kvs with
  | nil => cases hmem
  | cons a rest ih =>
      unfold dictWF at hwf
      rw [List.map_cons, List.nodup_cons] at hwf
      rcases List.mem_cons.mp hmem with heq | hmem'
      · have hpos : (a.1 == k) = true := by
          rw [← heq]; exact beq_self_eq_true k
        have hfind : List.find? (fun p => p.1 == k) (a :: rest) = some a :=
          List.find?_cons_of_pos rest hpos
        unfold alistGet
        rw [hfind, ← heq]
        rfl
      · have hk : (a.1 == k) = false := by
          apply beq_eq_false_iff_ne.mpr
          intro he
          apply hwf.1
          rw [he]
          exact List.mem_map_of_mem Prod.fst hmem'

        have hfind : List.find? (fun p => p.1 == k) (a :: rest)
            = List.find? (fun p => p.1 == k) rest :=
          List.find?_cons_of_neg rest (by simp [hk])
        unfold alistGet
        rw [hfind]
        exact ih hwf.2 hmem'

/-- `{**d}`-style union with an empty right side is the identity. -/
theorem dictUnion_nil (a : List (String × JsonVal)) : dictUnion a [] = a := by
  unfold dictUnion
  simp [alistGet]

/-- Every key of the right operand is a key of a dict union. -/
theorem alistHas_dictUnion_right (a b : List (String × JsonVal))
    (q : String × JsonVal) (hq : q ∈ b) :
    alistHas (dictUnion a b) q.1 = true := by
  by_cases ha : alistHas a q.1 = true
  · obtain ⟨p, hp, hpk⟩ := (alistHas_iff a q.1).mp ha
    apply (alistHas_iff _ _).mpr
    refine ⟨(p.1, (alistGet b p.1).getD p.2), ?_, hpk⟩
    unfold dictUnion
    exact List.mem_append_left _ (List.mem_map_of_mem _ hp)
  · apply (alistHas_iff _ _).mpr
    refine ⟨q, ?_, rfl⟩
    unfold dictUnion
    apply List.mem_append_right
    apply List.mem_filter.mpr
    refine ⟨hq, ?_⟩
    simp only [Bool.not_eq_true'] at ha ⊢
    simp [ha]

/-- Re-merging the same well-formed dict on the right is absorbed. -/
theorem dictUnion_absorb (a b : List (String × JsonVal)) (hb : dictWF b) :
    dictUnion (dictUnion a b) b = dictUnion a b := by
  conv_lhs => rw [dictUnion]
  have hfil : b.filter (fun p => !alistHas (dictUnion a b) p.1) = [] := by
    apply List.filter_eq_nil_iff.mpr
    intro p hp
    rw [alistHas_dictUnion_right a b p hp]
    simp
  have hmap : (dictUnion a b).map (fun p => (p.1, (alistGet b p.1).getD p.2))
      = dictUnion a b := by
    have hcg : ∀ q ∈ dictUnion a b,
        (q.1, (alistGet b q.1).getD q.2) = q := by
      intro q hq
      unfold dictUnion at hq
      rcases List.mem_append.mp hq with hqa | hqb
      · obtain ⟨p, hp, hpq⟩ := List.mem_map.mp hqa
        rw [← hpq]
        cases hg : alistGet b p.1 with
        | none => rfl
        | some w => rfl
      · have hqb' := List.mem_filter.mp hqb
        have : alistGet b q.1 = some q.2 :=
          alistGet_of_wf_mem b q.1 q.2 hb hqb'.1
        rw [this]
        rfl
    rw [List.map_congr_left hcg]
    exact List.map_id _
  rw [hfil, hmap, List.append_nil]

/-- Union of a well-formed dict with itself is the identity. -/
theorem dictUnion_self (d : List (String × JsonVal)) (hd : dictWF d) :
    dictUnion d d = d := by
  unfold dictUnion
  have hfil : d.filter (fun p => !alistHas d p.1) = [] := by
    apply List.filter_eq_nil_iff.mpr
    intro p hp
    have : alistHas d p.1 = true :=
      (alistHas_iff d p.1).mpr ⟨p, hp, rfl⟩
    rw [this]
    simp
  have hmap : d.map (fun p => (p.1, (alistGet d p.1).getD p.2)) = d := by
    have hcg : ∀ p ∈ d, (p.1, (alistGet d p.1).getD p.2) = p := by
      intro p hp
      have : alistGet d p.1 = some p.2 :=
        alistGet_of_wf_mem d p.1 p.2 hd hp
      rw [this]
      rfl
    rw [List.map_congr_left hcg]
    exact List.map_id _
  rw [hfil, hmap, List.append_nil]

/-- Skip pass of `_merge_interests`: when every remaining value is blank or
already seen, nothing more is accumulated. -/
theorem mergeInterestsGo_skip (vs : List String) :
    ∀ (seen acc : List String),
      (∀ v ∈ vs, is_blank_str (some v) = true ∨ pyLower (pyStrip v) ∈ seen) →
      mergeInterestsGo vs seen acc = acc.reverse := by
  induction vs with
  | nil => intro seen acc _; rfl
  | cons v vs ih =>
      intro seen acc h
      by_cases hb : is_blank_str (some v) = true
      · unfold mergeInterestsGo
        rw [if_pos hb]
        exact ih seen acc (fun u hu => h u (List.mem_cons_of_mem _ hu))
      · have hs : pyLower (pyStrip v) ∈ seen :=
          (h v (List.mem_cons_self v vs)).resolve_left hb
        unfold mergeInterestsGo
        rw [if_neg hb]
        show (if seen.contains (pyLower (pyStrip v)) = true
              then mergeInterestsGo vs seen acc
              else mergeInterestsGo vs (pyLower (pyStrip v) :: seen)
                (pyStrip v :: acc)) = acc.reverse
        rw [if_pos (List.elem_eq_true_of_mem hs)]
        exact ih seen acc (fun u hu => h u (List.mem_cons_of_mem _ hu))

/-- Main pass of `_merge_interests`: clean unseen values pass through
untouched, pushing their lowercase keys onto the seen set. -/
theorem mergeInterestsGo_clean (L : List String) :
    ∀ (rest seen acc : List String),
      (∀ s ∈ L, is_blank_str (some s) = false ∧ pyStrip s = s) →
      ((L.map pyLower).Nodup) →
      (∀ s ∈ L, pyLower s ∉ seen) →
      mergeInterestsGo (L ++ rest) seen acc
        = mergeInterestsGo rest ((L.map pyLower).reverse ++ seen)
            (L.reverse ++ acc) := by
  induction L with
  | nil => intro rest seen acc _ _ _; rfl
  | cons s L ih =>
      intro rest seen acc hclean hnodup hseen
      have hcs := hclean s (List.mem_cons_self s L)
      show mergeInterestsGo (s :: (L ++ rest)) seen acc = _
      conv_lhs => unfold mergeInterestsGo
      rw [if_neg (by simp [hcs.1])]
      show (if seen.contains (pyLower (pyStrip s)) = true
            then mergeInterestsGo (L ++ rest) seen acc
            else mergeInterestsGo (L ++ rest) (pyLower (pyStrip s) :: seen)
              (pyStrip s :: acc)) = _
      rw [hcs.2]
      have hnot : ¬(seen.contains (pyLower s) = true) := by
        intro hx
        exact hseen s (List.mem_cons_self s L) (List.mem_of_elem_eq_true hx)
      rw [if_neg hnot]
      rw [List.map_cons, List.nodup_cons] at hnodup
      have hseen2 : ∀ u ∈ L, pyLower u ∉ pyLower s :: seen := by
        intro u hu hmem
        rcases List.mem_cons.mp hmem with heq | hmem'
        · exact hnodup.1 (heq ▸ List.mem_map_of_mem pyLower hu)
        · exact hseen u (List.mem_cons_of_mem _ hu) hmem'
      rw [ih rest (pyLower s :: seen) (s :: acc)
        (fun u hu => hclean u (List.mem_cons_of_mem _ hu)) hnodup.2 hseen2]
      rw [List.map_cons, List.reverse_cons, List.reverse_cons, List.append_assoc,
        List.append_assoc]
      rfl

/-- Output invariant of the `_merge_interests` worker: the accumulator is
extended with clean values whose lowercase keys are fresh and pairwise
distinct, covering every non-blank input value. -/
theorem mergeInterestsGo_spec (vs : List String) :
    ∀ (seen acc : List String),
      ∃ extra, mergeInterestsGo vs seen acc = acc.reverse ++ extra ∧
        (∀ s ∈ extra,
          is_blank_str (some s) = false ∧ pyStrip s = s ∧ pyLower s ∉ seen) ∧
        ((extra.map pyLower).Nodup) ∧
        (∀ v ∈ vs, is_blank_str (some v) = false →
          pyLower (pyStrip v) ∈ seen ∨ pyLower (pyStrip v) ∈ extra.map pyLower) := by
  induction vs with
  | nil =>
      intro seen acc
      refine ⟨[], by simp [mergeInterestsGo], by simp, by simp, by simp⟩
  | cons v vs ih =>
      intro seen acc
      by_cases hb : is_blank_str (some v) = true
      · obtain ⟨extra, he, hcl, hnd, hcov⟩ := ih seen acc
        refine ⟨extra, ?_, hcl, hnd, ?_⟩
        · unfold mergeInterestsGo
          rw [if_pos hb]
          exact he
        · intro u hu hub
          rcases List.mem_cons.mp hu with rfl | hu'
          · rw [hub] at hb; cases hb
          · exact hcov u hu' hub
      · by_cases hctn : seen.contains (pyLower (pyStrip v)) = true
        · obtain ⟨extra, he, hcl, hnd, hcov⟩ := ih seen acc
          refine ⟨extra, ?_, hcl, hnd, ?_⟩
          · unfold mergeInterestsGo
            rw [if_neg hb]
            show (if seen.contains (pyLower (pyStrip v)) = true
                  then mergeInterestsGo vs seen acc
                  else mergeInterestsGo vs (pyLower (pyStrip v) :: seen)
                    (pyStrip v :: acc)) = acc.reverse ++ extra
            rw [if_pos hctn]
            exact he
          · intro u hu hub
            rcases List.mem_cons.mp hu with rfl | hu'
            · left; exact List.mem_of_elem_eq_true hctn
            · exact hcov u hu' hub
        · obtain ⟨extra, he, hcl, hnd, hcov⟩ :=
            ih (pyLower (pyStrip v) :: seen) (pyStrip v :: acc)
          refine ⟨pyStrip v :: extra, ?_, ?_, ?_, ?_⟩
          · unfold mergeInterestsGo
            rw [if_neg hb]
            show (if seen.contains (pyLower (pyStrip v)) = true
                  then mergeInterestsGo vs seen acc
                  else mergeInterestsGo vs (pyLower (pyStrip v) :: seen)
                    (pyStrip v :: acc)) = acc.reverse ++ (pyStrip v :: extra)
            rw [if_neg hctn, he, List.reverse_cons, List.append_assoc]
            rfl
          · intro s hs
            rcases List.mem_cons.mp hs with rfl | hs'
            · refine ⟨?_, pyStrip_idem v, ?_⟩
              · rw [is_blank_str_pyStrip]
                exact Bool.eq_false_iff.mpr hb
              · intro hmem
                exact hctn (List.elem_eq_true_of_mem hmem)
            · have hthis := hcl s hs'
              exact ⟨hthis.1, hthis.2.1,
                fun hmem => hthis.2.2 (List.mem_cons_of_mem _ hmem)⟩
          · rw [List.map_cons, List.nodup_cons]
            refine ⟨?_, hnd⟩
            intro hmem
            obtain ⟨s, hs, hls⟩ := List.mem_map.mp hmem
            exact (hcl s hs).2.2 (hls ▸ List.mem_cons_self _ _)
          · intro u hu hub
            rcases List.mem_cons.mp hu with rfl | hu'
            · right
              rw [List.map_cons]
              have : pyLower (pyStrip (pyStrip u)) = pyLower (pyStrip u) := by
                rw [pyStrip_idem]
              exact this ▸ List.mem_cons_self _ _
            · rcases hcov u hu' hub with hseen | hextra
              · rcases List.mem_cons.mp hseen with heq | hseen'
                · right
                  rw [List.map_cons, heq]
                  have : pyLower (pyStrip (pyStrip v)) = pyLower (pyStrip v) := by
                    rw [pyStrip_idem]
                  exact this ▸ List.mem_cons_self _ _
                · left; exact hseen'
              · right
                rw [List.map_cons]
                exact List.mem_cons_of_mem _ hextra

/-- `_merge_interests` output: values clean, keys deduplicated, every
non-blank input key covered. -/
theorem merge_interests_spec (ex inc : List String) :
    (∀ s ∈ merge_interests ex inc,
      is_blank_str (some s) = false ∧ pyStrip s = s) ∧
    (((merge_interests ex inc).map pyLower).Nodup) ∧
    (∀ v ∈ ex ++ inc, is_blank_str (some v) = false →
      pyLower (pyStrip v) ∈ (merge_interests ex inc).map pyLower) := by
  obtain ⟨extra, he, hcl, hnd, hcov⟩ := mergeInterestsGo_spec (ex ++ inc) [] []
  have hL : merge_interests ex inc = extra := by
    unfold merge_interests
    rw [he]
    rfl
  refine ⟨?_, ?_, ?_⟩
  · intro s hs
    rw [hL] at hs
    exact ⟨(hcl s hs).1, (hcl s hs).2.1⟩
  · rw [hL]; exact hnd
  · intro v hv hvb
    rw [hL]
    rcases hcov v hv hvb with hfalse | hok
    · cases hfalse
    · exact hok

/-- Re-merging the same incoming interests is absorbed. -/
theorem merge_interests_absorb (ex inc : List String) :
    merge_interests (merge_interests ex inc) inc = merge_interests ex inc := by
  obtain ⟨hcl, hnd, hcov⟩ := merge_interests_spec ex inc
  show mergeInterestsGo (merge_interests ex inc ++ inc) [] [] = _
  rw [mergeInterestsGo_clean (merge_interests ex inc) inc [] [] hcl hnd
    (by simp)]
  simp only [List.append_nil]
  rw [mergeInterestsGo_skip inc _ _ ?_, List.reverse_reverse]
  intro v hv
  by_cases hvb : is_blank_str (some v) = true
  · left; exact hvb
  · right
    apply List.mem_reverse.mpr
    exact hcov v (List.mem_append_right ex hv) (Bool.eq_false_iff.mpr hvb)

/-- Merging a clean interest list with itself is the identity. -/
theorem merge_interests_self (l : List String)
    (hclean : ∀ s ∈ l, is_blank_str (some s) = false ∧ pyStrip s = s)
    (hnd : (l.map pyLower).Nodup) :
    merge_interests l l = l := by
  show mergeInterestsGo (l ++ l) [] [] = l
  rw [mergeInterestsGo_clean l l [] [] hclean hnd (by simp)]
  simp only [List.append_nil]
  rw [mergeInterestsGo_skip l _ _ ?_, List.reverse_reverse]
  intro v hv
  right
  rw [(hclean v hv).2]
  exact List.mem_reverse.mpr (List.mem_map_of_mem pyLower hv)

/-- Merging a trip into an equal trip is the identity (well-formed metadata). -/
theorem merge_trip_self (t : TripDetails) (p : Bool) (hm : dictWF t.metadata) :
    merge_trip t t p = t := by
  unfold merge_trip
  rw [mergeVal_self, mergeVal_self, mergeVal_self, mergeVal_self, mergeVal_self,
    mergeVal_self, mergeVal_self]
  by_cases he : t.metadata.isEmpty = true
  · rw [if_pos he]
  · rw [if_neg he, dictUnion_self t.metadata hm]

/-- Re-merging the same incoming trip into a merged trip is absorbed. -/
theorem merge_trip_idem (base t : TripDetails) (p : Bool)
    (hm : dictWF t.metadata) :
    merge_trip (merge_trip base t p) t p = merge_trip base t p := by
  unfold merge_trip
  dsimp only
  rw [mergeVal_idem, mergeVal_idem, mergeVal_idem, mergeVal_idem, mergeVal_idem,
    mergeVal_idem, mergeVal_idem]
  by_cases he : t.metadata.isEmpty = true
  · rw [if_pos he]
  · rw [if_neg he, if_neg he, dictUnion_absorb base.metadata t.metadata hm]

/-- The `_merge_trips` loop body leaves the list unchanged on this trip. -/
def TripAbsorbed (p : Bool) (l : List TripDetails) (t : TripDetails) : Prop :=
  mergeTripStep p l t = l

/-- Locating a trip with a known key is a `findIdx?` over keys. -/
theorem locate_trip_index_of_key (l : List TripDetails) (t : TripDetails)
    (k : String × String × String × String) (hk : trip_identity_key t = some k) :
    locate_trip_index l t
      = l.findIdx? (fun tr => trip_identity_key tr == some k) := by
  unfold locate_trip_index
  rw [hk]

/-- An absorbed keyed trip has a located entry that swallows it. -/
theorem tripAbsorbed_elim (p : Bool) (l : List TripDetails) (t : TripDetails)
    (k : String × String × String × String)
    (hk : trip_identity_key t = some k) (ha : TripAbsorbed p l t) :
    ∃ j e, l.findIdx? (fun tr => trip_identity_key tr == some k) = some j ∧
      l.get? j = some e ∧ merge_trip e t p = e := by
  have hloc := locate_trip_index_of_key l t k hk
  cases hf : l.findIdx? (fun tr => trip_identity_key tr == some k) with
  | none =>
      exfalso
      have hred : mergeTripStep p l t = l ++ [t] := by
        unfold mergeTripStep
        rw [hloc, hf]
      have hcon : l ++ [t] = l := hred.symm.trans ha
      have := congrArg List.length hcon
      simp at this
  | some j =>
      obtain ⟨hlt, hpi, -⟩ := List.findIdx?_eq_some_iff_getElem.mp hf
      have hget : l.get? j = some l[j] := by
        rw [List.get?_eq_getElem?]
        exact List.getElem?_eq_getElem hlt
      have hred : mergeTripStep p l t = l.set j (merge_trip l[j] t p) := by
        unfold mergeTripStep
        rw [hloc, hf]
        show (match l.get? j with
          | none => l
          | some base => l.set j (merge_trip base t p)) = _
        rw [hget]
      have hset : l.set j (merge_trip l[j] t p) = l := hred.symm.trans ha
      refine ⟨j, l[j], rfl, hget, ?_⟩
      have h2 : (l.set j (merge_trip l[j] t p)).get? j = l.get? j := by rw [hset]
      rw [List.get?_set_eq_of_lt _ hlt, hget] at h2
      exact Option.some.inj h2

/-- After merging a keyed trip, the list absorbs it. -/
theorem mergeTripStep_absorbs_self (p : Bool) (l : List TripDetails)
    (t : TripDetails) (k : String × String × String × String)
    (hk : trip_identity_key t = some k) (hm : dictWF t.metadata) :
    TripAbsorbed p (mergeTripStep p l t) t := by
  have hloc := locate_trip_index_of_key l t k hk
  cases hf : l.findIdx? (fun tr => trip_identity_key tr == some k) with
  | none =>
      have hred : mergeTripStep p l t = l ++ [t] := by
        unfold mergeTripStep
        rw [hloc, hf]
      rw [hred]
      have hall := List.findIdx?_eq_none_iff.mp hf
      have hfind2 : (l ++ [t]).findIdx?
          (fun tr => trip_identity_key tr == some k) = some l.length := by
        apply List.findIdx?_eq_some_iff_getElem.mpr
        refine ⟨by simp, ?_, ?_⟩
        · have hbl : l.length < (l ++ [t]).length := by simp
          have hgetl : (l ++ [t])[l.length] = t :=
            List.getElem_concat_length l t l.length rfl hbl
          rw [hgetl, hk]
          exact beq_self_eq_true _
        · intro j hj
          have hbj : j < (l ++ [t]).length := by simp; omega
          have hgl : (l ++ [t])[j] = l[j] :=
            List.getElem_append_left hj
          rw [hgl]
          have := hall l[j] (List.getElem_mem hj)
          simp [this]
      have hloc2 : locate_trip_index (l ++ [t]) t = some l.length := by
        rw [locate_trip_index_of_key (l ++ [t]) t k hk, hfind2]
      have hget2 : (l ++ [t]).get? l.length = some t := by simp
      show mergeTripStep p (l ++ [t]) t = l ++ [t]
      unfold mergeTripStep
      rw [hloc2]
      show (match (l ++ [t]).get? l.length with
        | none => l ++ [t]
        | some base => (l ++ [t]).set l.length (merge_trip base t p)) = l ++ [t]
      rw [hget2]
      show (l ++ [t]).set l.length (merge_trip t t p) = l ++ [t]
      rw [merge_trip_self t p hm]
      exact set_get?_self _ _ _ hget2
  | some i =>
      obtain ⟨hlt, hpi, hprev⟩ := List.findIdx?_eq_some_iff_getElem.mp hf
      have hget : l.get? i = some l[i] := by
        rw [List.get?_eq_getElem?]
        exact List.getElem?_eq_getElem hlt
      have hred : mergeTripStep p l t = l.set i (merge_trip l[i] t p) := by
        unfold mergeTripStep
        rw [hloc, hf]
        show (match l.get? i with
          | none => l
          | some base => l.set i (merge_trip base t p)) = _
        rw [hget]
      rw [hred]
      have hkey : trip_identity_key l[i] = some k := eq_of_beq hpi
      have hkey2 : trip_identity_key (merge_trip l[i] t p) = some k :=
        merge_trip_key_preserved _ _ p k hkey hk
      have hfind2 : (l.set i (merge_trip l[i] t p)).findIdx?
          (fun tr => trip_identity_key tr == some k) = some i := by
        apply List.findIdx?_eq_some_iff_getElem.mpr
        refine ⟨by simpa using hlt, ?_, ?_⟩
        · have hbi : i < (l.set i (merge_trip l[i] t p)).length := by
            simpa using hlt
          have : (l.set i (merge_trip l[i] t p))[i]
              = merge_trip l[i] t p := List.getElem_set_eq hbi
          rw [this, hkey2]
          exact beq_self_eq_true _
        · intro j hj
          have hjl : j < l.length := lt_trans hj hlt
          have hbj : j < (l.set i (merge_trip l[i] t p)).length := by
            simpa using hjl
          have : (l.set i (merge_trip l[i] t p))[j] = l[j] :=
            List.getElem_set_ne (by omega) hbj
          rw [this]
          exact hprev j hj
      have hloc2 : locate_trip_index (l.set i (merge_trip l[i] t p)) t = some i := by
        rw [locate_trip_index_of_key _ t k hk, hfind2]
      have hget2 : (l.set i (merge_trip l[i] t p)).get? i
          = some (merge_trip l[i] t p) := List.get?_set_eq_of_lt _ hlt
      show mergeTripStep p (l.set i (merge_trip l[i] t p)) t = _
      unfold mergeTripStep
      rw [hloc2]
      show (match (l.set i (merge_trip l[i] t p)).get? i with
        | none => l.set i (merge_trip l[i] t p)
        | some base => (l.set i (merge_trip l[i] t p)).set i (merge_trip base t p))
          = l.set i (merge_trip l[i] t p)
      rw [hget2]
      show (l.set i (merge_trip l[i] t p)).set i
          (merge_trip (merge_trip l[i] t p) t p) = l.set i (merge_trip l[i] t p)
      rw [merge_trip_idem l[i] t p hm]
      exact set_get?_self _ _ _ hget2

/-- Merging a keyed trip preserves absorption of every differently-keyed trip. -/
theorem mergeTripStep_preserves_absorbed (p : Bool) (l : List TripDetails)
    (t u : TripDetails) (k ku : String × String × String × String)
    (hk : trip_identity_key t = some k) (hku : trip_identity_key u = some ku)
    (hne : k ≠ ku) (ha : TripAbsorbed p l u) :
    TripAbsorbed p (mergeTripStep p l t) u := by
  obtain ⟨j, e, hfj, hgj, hme⟩ := tripAbsorbed_elim p l u ku hku ha
  obtain ⟨hjlt, hpj, hprevj⟩ := List.findIdx?_eq_some_iff_getElem.mp hfj
  have hloc := locate_trip_index_of_key l t k hk
  cases hf : l.findIdx? (fun tr => trip_identity_key tr == some k) with
  | none =>
      have hred : mergeTripStep p l t = l ++ [t] := by
        unfold mergeTripStep
        rw [hloc, hf]
      rw [hred]
      have hfind2 : (l ++ [t]).findIdx?
          (fun tr => trip_identity_key tr == some ku) = some j := by
        apply List.findIdx?_eq_some_iff_getElem.mpr
        refine ⟨by simp; omega, ?_, ?_⟩
        · have hbj : j < (l ++ [t]).length := by simp; omega
          have hgl : (l ++ [t])[j] = l[j] :=
            List.getElem_append_left hjlt
          rw [hgl]
          exact hpj
        · intro j2 hj2
          have hj2l : j2 < l.length := lt_trans hj2 hjlt
          have hbj2 : j2 < (l ++ [t]).length := by simp; omega
          have hgl : (l ++ [t])[j2] = l[j2] :=
            List.getElem_append_left hj2l
          rw [hgl]
          exact hprevj j2 hj2
      have hloc2 : locate_trip_index (l ++ [t]) u = some j := by
        rw [locate_trip_index_of_key _ u ku hku, hfind2]
      have hget2 : (l ++ [t]).get? j = some e := by
        rw [List.get?_append hjlt]
        exact hgj
      show mergeTripStep p (l ++ [t]) u = l ++ [t]
      unfold mergeTripStep
      rw [hloc2]
      show (match (l ++ [t]).get? j with
        | none => l ++ [t]
        | some base => (l ++ [t]).set j (merge_trip base u p)) = l ++ [t]
      rw [hget2]
      show (l ++ [t]).set j (merge_trip e u p) = l ++ [t]
      rw [hme]
      exact set_get?_self _ _ _ hget2
  | some i =>
      obtain ⟨hlt, hpi, hprev⟩ := List.findIdx?_eq_some_iff_getElem.mp hf
      have hget : l.get? i = some l[i] := by
        rw [List.get?_eq_getElem?]
        exact List.getElem?_eq_getElem hlt
      have hred : mergeTripStep p l t = l.set i (merge_trip l[i] t p) := by
        unfold mergeTripStep
        rw [hloc, hf]
        show (match l.get? i with
          | none => l
          | some base => l.set i (merge_trip base t p)) = _
        rw [hget]
      rw [hred]
      have hkeyi : trip_identity_key l[i] = some k := eq_of_beq hpi
      have hkeyj : trip_identity_key l[j] = some ku := eq_of_beq hpj
      have hij : i ≠ j := by
        intro he2
        subst he2
        exact hne (Option.some.inj (hkeyi.symm.trans hkeyj))
      have hkey2 : trip_identity_key (merge_trip l[i] t p) = some k :=
        merge_trip_key_preserved _ _ p k hkeyi hk
      have hfind2 : (l.set i (merge_trip l[i] t p)).findIdx?
          (fun tr => trip_identity_key tr == some ku) = some j := by
        apply List.findIdx?_eq_some_iff_getElem.mpr
        refine ⟨by simpa using hjlt, ?_, ?_⟩
        · have hbj : j < (l.set i (merge_trip l[i] t p)).length := by
            simpa using hjlt
          have : (l.set i (merge_trip l[i] t p))[j] = l[j] :=
            List.getElem_set_ne hij hbj
          rw [this]
          exact hpj
        · intro j2 hj2
          have hj2l : j2 < l.length := lt_trans hj2 hjlt
          have hbj2 : j2 < (l.set i (merge_trip l[i] t p)).length := by
            simpa using hj2l
          by_cases hj2i : i = j2
          · subst hj2i
            have : (l.set i (merge_trip l[i] t p))[i]
                = merge_trip l[i] t p := List.getElem_set_eq hbj2
            rw [this, hkey2]
            simp [hne]
          · have : (l.set i (merge_trip l[i] t p))[j2]
                = l[j2] := List.getElem_set_ne hj2i hbj2
            rw [this]
            exact hprevj j2 hj2
      have hloc2 : locate_trip_index (l.set i (merge_trip l[i] t p)) u = some j := by
        rw [locate_trip_index_of_key _ u ku hku, hfind2]
      have hget2 : (l.set i (merge_trip l[i] t p)).get? j = some e := by
        rw [List.get?_set_ne _ _ hij]
        exact hgj
      show mergeTripStep p (l.set i (merge_trip l[i] t p)) u = _
      unfold mergeTripStep
      rw [hloc2]
      show (match (l.set i (merge_trip l[i] t p)).get? j with
        | none => l.set i (merge_trip l[i] t p)
        | some base => (l.set i (merge_trip l[i] t p)).set j (merge_trip base u p))
          = l.set i (merge_trip l[i] t p)
      rw [hget2]
      show (l.set i (merge_trip l[i] t p)).set j (merge_trip e u p)
          = l.set i (merge_trip l[i] t p)
      rw [hme]
      exact set_get?_self _ _ _ hget2

/-- Absorption survives a whole `_merge_trips` pass of differently-keyed trips. -/
theorem tripAbsorbed_fold (p : Bool) (cs : List TripDetails) (u : TripDetails)
    (ku : String × String × String × String)
    (hku : trip_identity_key u = some ku) :
    ∀ l, TripAbsorbed p l u →
      (∀ v ∈ cs, ∃ kv, trip_identity_key v = some kv ∧ kv ≠ ku) →
      TripAbsorbed p (merge_trips l cs p) u := by
  induction cs with
  | nil => intro l ha _; exact ha
  | cons v cs ih =>
      intro l ha hcs
      obtain ⟨kv, hkv, hnev⟩ := hcs v (List.mem_cons_self v cs)
      show TripAbsorbed p (List.foldl (mergeTripStep p) (mergeTripStep p l v) cs) u
      exact ih (mergeTripStep p l v)
        (mergeTripStep_preserves_absorbed p l v u kv ku hkv hku hnev ha)
        (fun w hw => hcs w (List.mem_cons_of_mem _ hw))

/-- After one `_merge_trips` pass over a clean batch, every batch trip is
absorbed. -/
theorem merge_trips_all_absorbed (p : Bool) (cs : List TripDetails) :
    ∀ l, (∀ u ∈ cs, (trip_identity_key u).isSome = true ∧ dictWF u.metadata) →
      ((cs.map trip_identity_key).Nodup) →
      ∀ t ∈ cs, TripAbsorbed p (merge_trips l cs p) t := by
  induction cs with
  | nil => intro l _ _ t ht; cases ht
  | cons u cs ih =>
      intro l hcs hnd t ht
      rw [List.map_cons, List.nodup_cons] at hnd
      show TripAbsorbed p (List.foldl (mergeTripStep p) (mergeTripStep p l u) cs) t
      rcases List.mem_cons.mp ht with rfl | ht'
      · obtain ⟨hsome, hwf⟩ := hcs t (List.mem_cons_self t cs)
        obtain ⟨k, hk⟩ := Option.isSome_iff_exists.mp hsome
        apply tripAbsorbed_fold p cs t k hk (mergeTripStep p l t)
          (mergeTripStep_absorbs_self p l t k hk hwf)
        intro w hw
        obtain ⟨hsomew, -⟩ := hcs w (List.mem_cons_of_mem _ hw)
        obtain ⟨kw, hkw⟩ := Option.isSome_iff_exists.mp hsomew
        refine ⟨kw, hkw, ?_⟩
        intro he2
        apply hnd.1
        have : trip_identity_key w ∈ cs.map trip_identity_key :=
          List.mem_map_of_mem _ hw
        rw [hkw, he2, ← hk] at this
        exact this
      · exact ih (mergeTripStep p l u)
          (fun w hw => hcs w (List.mem_cons_of_mem _ hw)) hnd.2 t ht'

/-- A `_merge_trips` pass over a batch that the list already absorbs is the
identity. -/
theorem merge_trips_foldl_fixed (p : Bool) (cs : List TripDetails) :
    ∀ M, (∀ t ∈ cs, TripAbsorbed p M t) → merge_trips M cs p = M := by
  induction cs with
  | nil => intro M _; rfl
  | cons t cs ih =>
      intro M h
      show List.foldl (mergeTripStep p) (mergeTripStep p M t) cs = M
      rw [show mergeTripStep p M t = M from h t (List.mem_cons_self t cs)]
      exact ih M (fun u hu => h u (List.mem_cons_of_mem _ hu))

/-- Re-merging the same clean trip batch is absorbed. -/
theorem merge_trips_idem (p : Bool) (cs : List TripDetails)
    (hcs : ∀ u ∈ cs, (trip_identity_key u).isSome = true ∧ dictWF u.metadata)
    (hnd : (cs.map trip_identity_key).Nodup) (l : List TripDetails) :
    merge_trips (merge_trips l cs p) cs p = merge_trips l cs p :=
  merge_trips_foldl_fixed p cs _ (merge_trips_all_absorbed p cs l hcs hnd)

/-- Merging a clean trip list into itself is the identity. -/
theorem merge_trips_self (p : Bool) (l : List TripDetails)
    (hcs : ∀ u ∈ l, (trip_identity_key u).isSome = true ∧ dictWF u.metadata)
    (hnd : (l.map trip_identity_key).Nodup) :
    merge_trips l l p = l := by
  apply merge_trips_foldl_fixed
  intro t ht
  obtain ⟨hsome, hwf⟩ := hcs t ht
  obtain ⟨k, hk⟩ := Option.isSome_iff_exists.mp hsome
  obtain ⟨j, hjlt, hjt⟩ := List.mem_iff_getElem.mp ht
  have hfind : l.findIdx? (fun tr => trip_identity_key tr == some k) = some j := by
    apply List.findIdx?_eq_some_iff_getElem.mpr
    refine ⟨hjlt, ?_, ?_⟩
    · rw [hjt, hk]
      exact beq_self_eq_true _
    · intro j2 hj2
      intro hcon
      have hkeyj2 : trip_identity_key l[j2] = some k := eq_of_beq (by simpa using hcon)
      have hj2l : j2 < l.length := lt_trans hj2 hjlt
      have hbj2 : j2 < (l.map trip_identity_key).length := by simpa using hj2l
      have hbj : j < (l.map trip_identity_key).length := by simpa using hjlt
      have hmapeq : (l.map trip_identity_key)[j2]
          = (l.map trip_identity_key)[j] := by
        rw [List.getElem_map, List.getElem_map, hkeyj2, hjt, hk]
      have := (List.Nodup.getElem_inj_iff hnd).mp hmapeq
      omega
  have hget : l.get? j = some t := by
    rw [List.get?_eq_getElem?, List.getElem?_eq_getElem hjlt, hjt]
  have hloc := locate_trip_index_of_key l t k hk
  show mergeTripStep p l t = l
  unfold mergeTripStep
  rw [hloc, hfind]
  show (match l.get? j with
    | none => l
    | some base => l.set j (merge_trip base t p)) = l
  rw [hget]
  show l.set j (merge_trip t t p) = l
  rw [merge_trip_self t p hwf]
  exact set_get?_self _ _ _ hget

/-- The later-timestamp update keeps a value that already equals the incoming
one whenever the incoming one is truthy. -/
theorem stamp_upd_keep (incv x : Option String)
    (h : truthyOptStr incv = true → x = incv) :
    (if truthyOptStr incv &&
        (!truthyOptStr x || pyStrGt (incv.getD "") (x.getD ""))
      then incv else x) = x := by
  by_cases htr : truthyOptStr incv = true
  · rw [h htr, ite_self]
  · rw [if_neg]
    simp [htr]

/-- The later-timestamp update is idempotent. -/
theorem stamp_upd_idem (incv curv : Option String) :
    (if truthyOptStr incv &&
        (!truthyOptStr (if truthyOptStr incv &&
            (!truthyOptStr curv || pyStrGt (incv.getD "") (curv.getD ""))
          then incv else curv) ||
          pyStrGt (incv.getD "")
            ((if truthyOptStr incv &&
                (!truthyOptStr curv || pyStrGt (incv.getD "") (curv.getD ""))
              then incv else curv).getD ""))
      then incv
      else (if truthyOptStr incv &&
          (!truthyOptStr curv || pyStrGt (incv.getD "") (curv.getD ""))
        then incv else curv))
    = (if truthyOptStr incv &&
        (!truthyOptStr curv || pyStrGt (incv.getD "") (curv.getD ""))
      then incv else curv) := by
  by_cases hc : (truthyOptStr incv &&
      (!truthyOptStr curv || pyStrGt (incv.getD "") (curv.getD ""))) = true
  · rw [if_pos hc, ite_self]
  · rw [if_neg hc, if_neg hc]

/-- Merging a verification record into itself is the identity. -/
theorem merge_verification_self (v : VerificationRecord) (now : String)
    (hwf : dictWF v.fields) : merge_verification v v now = v := by
  unfold merge_verification
  dsimp only
  rw [if_neg (Nat.lt_irrefl _), if_pos (beq_self_eq_true _),
    dictUnion_self v.fields hwf, ite_self, ite_self]

/-- Re-merging the same incoming verification record is absorbed. -/
theorem merge_verification_idem (cur inc : VerificationRecord)
    (now1 now2 : String) (hwf : dictWF inc.fields)
    (hreq : truthyOptStr inc.requested_at = true →
      is_blank_str inc.requested_at = false) :
    merge_verification (merge_verification cur inc now1) inc now2
      = merge_verification cur inc now1 := by
  by_cases hlt : statusPriority cur.status < statusPriority inc.status
  · have h1 : merge_verification cur inc now1 = { cur with
        status := inc.status
        fields := if inc.fields.isEmpty then cur.fields else inc.fields
        requested_at :=
          if inc.status == VStatus.pending && is_blank_str inc.requested_at
          then some now1 else pyOrOptStr inc.requested_at cur.requested_at
        confirmed_at :=
          pyOrOptStr inc.confirmed_at
            (if inc.status == VStatus.confirmed then some now1
             else cur.confirmed_at) } := by
      unfold merge_verification
      dsimp only
      rw [if_pos hlt]
    rw [h1]
    unfold merge_verification
    dsimp only
    rw [if_neg (Nat.lt_irrefl _), if_pos (beq_self_eq_true _)]
    congr 1
    · apply stamp_upd_keep
      intro htr
      have hnb := hreq htr
      rw [if_neg (by simp [hnb])]
      unfold pyOrOptStr
      rw [if_pos htr]
    · apply stamp_upd_keep
      intro htc
      unfold pyOrOptStr
      rw [if_pos htc]
    · by_cases hie : inc.fields.isEmpty = true
      · have hnil : inc.fields = [] := by simpa using hie
        rw [if_pos hie, hnil, dictUnion_nil]
      · rw [if_neg hie]
        exact dictUnion_self inc.fields hwf
  · by_cases heq : (statusPriority cur.status == statusPriority inc.status) = true
    · have h1 : merge_verification cur inc now1 = { cur with
          fields := dictUnion cur.fields inc.fields
          requested_at :=
            if truthyOptStr inc.requested_at &&
                (!truthyOptStr cur.requested_at ||
                  pyStrGt (inc.requested_at.getD "") (cur.requested_at.getD ""))
            then inc.requested_at else cur.requested_at
          confirmed_at :=
            if truthyOptStr inc.confirmed_at &&
                (!truthyOptStr cur.confirmed_at ||
                  pyStrGt (inc.confirmed_at.getD "") (cur.confirmed_at.getD ""))
            then inc.confirmed_at else cur.confirmed_at } := by
        unfold merge_verification
        dsimp only
        rw [if_neg hlt, if_pos heq]
      rw [h1]
      unfold merge_verification
      dsimp only
      rw [if_neg hlt, if_pos heq]
      congr 1
      · exact stamp_upd_idem inc.requested_at cur.requested_at
      · exact stamp_upd_idem inc.confirmed_at cur.confirmed_at
      · exact dictUnion_absorb cur.fields inc.fields hwf
    · have h3 : ∀ nw, merge_verification cur inc nw = cur := by
        intro nw
        unfold merge_verification
        dsimp only
        rw [if_neg hlt, if_neg heq, if_neg]
        intro hcon
        simp only [Bool.and_eq_true] at hcon
        apply heq
        have h0c : statusPriority cur.status = 0 := by
          simpa using hcon.1.1
        have h0i : statusPriority inc.status = 0 := by
          simpa using hcon.1.2
        rw [h0c, h0i]
        rfl
      rw [h3 now1, h3 now2]

/-- Merging personal info into itself is the identity. -/
theorem merge_personal_info_self (t : PersonalInfo) (p : Bool) :
    merge_personal_info t t p = t := by
  unfold merge_personal_info
  rw [mergeVal_self, mergeVal_self, mergeVal_self, mergeVal_self, mergeVal_self,
    mergeVal_self]

/-- Re-merging the same incoming personal info is absorbed. -/
theorem merge_personal_info_idem (t s : PersonalInfo) (p : Bool) :
    merge_personal_info (merge_personal_info t s p) s p
      = merge_personal_info t s p := by
  unfold merge_personal_info
  dsimp only
  rw [mergeVal_idem, mergeVal_idem, mergeVal_idem, mergeVal_idem, mergeVal_idem,
    mergeVal_idem]

/-- Merging a clean client into itself is the identity. -/
theorem merge_client_self (c : ClientDatum) (now : String)
    (htripsS : ∀ u ∈ c.trips, (trip_identity_key u).isSome = true ∧ dictWF u.metadata)
    (htripsN : (c.trips.map trip_identity_key).Nodup)
    (hint : ∀ s ∈ c.interests, is_blank_str (some s) = false ∧ pyStrip s = s)
    (hintN : (c.interests.map pyLower).Nodup)
    (hextra : dictWF c.extra)
    (hvf : dictWF c.verification.fields) :
    merge_client c c now = c := by
  unfold merge_client
  dsimp only
  rw [fillBlank_self, fillBlank_self, merge_personal_info_self,
    merge_interests_self c.interests hint hintN,
    merge_trips_self _ c.trips htripsS htripsN,
    merge_verification_self c.verification now hvf]
  by_cases he : c.extra.isEmpty = true
  · rw [if_pos he]
  · rw [if_neg he, dictUnion_self c.extra hextra]

/-- Re-merging the same clean candidate into a merged client is absorbed. -/
theorem merge_client_idem (m c : ClientDatum) (now1 now2 : String)
    (htripsS : ∀ u ∈ c.trips, (trip_identity_key u).isSome = true ∧ dictWF u.metadata)
    (htripsN : (c.trips.map trip_identity_key).Nodup)
    (hextra : dictWF c.extra)
    (hvf : dictWF c.verification.fields)
    (hreq : truthyOptStr c.verification.requested_at = true →
      is_blank_str c.verification.requested_at = false) :
    merge_client (merge_client m c now1) c now2 = merge_client m c now1 := by
  unfold merge_client
  dsimp only
  rw [fillBlank_idem, fillBlank_idem, merge_personal_info_idem,
    merge_interests_absorb, merge_trips_idem _ c.trips htripsS htripsN,
    merge_verification_idem m.verification c.verification now1 now2 hvf hreq]
  by_cases he : c.extra.isEmpty = true
  · rw [if_pos he]
  · rw [if_neg he, if_neg he, dictUnion_absorb m.extra c.extra hextra]

/-- Membership in a conditional singleton. -/
theorem mem_ite_singleton {α : Type} (b : Bool) (a k : α) :
    (k ∈ if b = true then [a] else ([] : List α)) ↔ (k = a ∧ b = true) := by
  cases b <;> simp

/-- The four possible identity keys of a client. -/
theorem mem_client_identity_keys (x : ClientDatum) (k : String × String) :
    k ∈ client_identity_keys x ↔
      (k = ("client_id", pyLower (x.client_id.getD "")) ∧
        is_blank_str x.client_id = false) ∨
      (k = ("passport_number",
          pyUpper (pyStrip (x.personal_info.passport_number.getD ""))) ∧
        is_blank_str x.personal_info.passport_number = false) ∨
      (k = ("email_address",
          pyLower (pyStrip (x.personal_info.email_address.getD ""))) ∧
        is_blank_str x.personal_info.email_address = false) ∨
      (k = ("phone_number",
          String.mk ((x.personal_info.phone_number.getD "").data.filter
            Char.isDigit)) ∧
        is_blank_str x.personal_info.phone_number = false) := by
  unfold client_identity_keys
  simp only [List.mem_append, mem_ite_singleton]
  simp only [Bool.not_eq_true']
  tauto

/-- Intersection of key lists in membership form. -/
theorem keysIntersect_iff (a b : List (String × String)) :
    keysIntersect a b = true ↔ ∃ k, k ∈ a ∧ k ∈ b := by
  unfold keysIntersect
  rw [List.any_eq_true]
  constructor
  · rintro ⟨k, hk, hc⟩
    exact ⟨k, hk, List.mem_of_elem_eq_true hc⟩
  · rintro ⟨k, hk, hkb⟩
    exact ⟨k, hk, List.elem_eq_true_of_mem hkb⟩

/-- A non-empty key list intersects itself. -/
theorem keysIntersect_self (a : List (String × String)) (ha : a ≠ []) :
    keysIntersect a a = true := by
  cases a with
  | nil => exact absurd rfl ha
  | cons k rest =>
      exact (keysIntersect_iff _ _).mpr
        ⟨k, List.mem_cons_self k rest, List.mem_cons_self k rest⟩

/-- An identity key shared by the target and the candidate survives the merge. -/
theorem merge_client_keys_preserved (m c : ClientDatum) (now : String)
    (k : String × String) (hm : k ∈ client_identity_keys m)
    (hc : k ∈ client_identity_keys c) :
    k ∈ client_identity_keys (merge_client m c now) := by
  have hme : (merge_client m c now).personal_info.email_address
      = mergeVal is_blank_str m.personal_info.email_address
          c.personal_info.email_address
          (c.verification.status == VStatus.confirmed) := rfl
  have hmp : (merge_client m c now).personal_info.passport_number
      = mergeVal is_blank_str m.personal_info.passport_number
          c.personal_info.passport_number
          (c.verification.status == VStatus.confirmed) := rfl
  have hmf : (merge_client m c now).personal_info.phone_number
      = mergeVal is_blank_str m.personal_info.phone_number
          c.personal_info.phone_number
          (c.verification.status == VStatus.confirmed) := rfl
  rw [mem_client_identity_keys] at hm hc ⊢
  rcases hm with ⟨hk, hb⟩ | ⟨hk, hb⟩ | ⟨hk, hb⟩ | ⟨hk, hb⟩
  · left
    have hmc : (merge_client m c now).client_id = m.client_id := by
      show fillBlank m.client_id c.client_id = m.client_id
      exact fillBlank_keep _ _ hb
    rw [hmc]
    exact ⟨hk, hb⟩
  · rcases hc with ⟨hk2, hb2⟩ | ⟨hk2, hb2⟩ | ⟨hk2, hb2⟩ | ⟨hk2, hb2⟩
    · exact absurd (hk.symm.trans hk2) (by simp)
    · right; left
      rw [hmp]
      rcases mergeVal_result is_blank_str m.personal_info.passport_number
          c.personal_info.passport_number
          (c.verification.status == VStatus.confirmed) with hres | ⟨hres, hnb⟩
      · rw [hres]; exact ⟨hk, hb⟩
      · rw [hres]; exact ⟨hk2, hnb⟩
    · exact absurd (hk.symm.trans hk2) (by simp)
    · exact absurd (hk.symm.trans hk2) (by simp)
  · rcases hc with ⟨hk2, hb2⟩ | ⟨hk2, hb2⟩ | ⟨hk2, hb2⟩ | ⟨hk2, hb2⟩
    · exact absurd (hk.symm.trans hk2) (by simp)
    · exact absurd (hk.symm.trans hk2) (by simp)
    · right; right; left
      rw [hme]
      rcases mergeVal_result is_blank_str m.personal_info.email_address
          c.personal_info.email_address
          (c.verification.status == VStatus.confirmed) with hres | ⟨hres, hnb⟩
      · rw [hres]; exact ⟨hk, hb⟩
      · rw [hres]; exact ⟨hk2, hnb⟩
    · exact absurd (hk.symm.trans hk2) (by simp)
  · rcases hc with ⟨hk2, hb2⟩ | ⟨hk2, hb2⟩ | ⟨hk2, hb2⟩ | ⟨hk2, hb2⟩
    · exact absurd (hk.symm.trans hk2) (by simp)
    · exact absurd (hk.symm.trans hk2) (by simp)
    · exact absurd (hk.symm.trans hk2) (by simp)
    · right; right; right
      rw [hmf]
      rcases mergeVal_result is_blank_str m.personal_info.phone_number
          c.personal_info.phone_number
          (c.verification.status == VStatus.confirmed) with hres | ⟨hres, hnb⟩
      · rw [hres]; exact ⟨hk, hb⟩
      · rw [hres]; exact ⟨hk2, hnb⟩

/-- Merging preserves the key intersection with the candidate. -/
theorem merge_client_intersect_preserved (m c : ClientDatum) (now : String)
    (h : keysIntersect (client_identity_keys m) (client_identity_keys c) = true) :
    keysIntersect (client_identity_keys (merge_client m c now))
      (client_identity_keys c) = true := by
  obtain ⟨k, hkm, hkc⟩ := (keysIntersect_iff _ _).mp h
  exact (keysIntersect_iff _ _).mpr
    ⟨k, merge_client_keys_preserved m c now k hkm hkc, hkc⟩

/-- With identity keys present, matching is a `findIdx?` over key intersection. -/
theorem find_matching_client_of_keys (R : List ClientDatum) (c : ClientDatum)
    (hkeys : client_identity_keys c ≠ []) :
    find_matching_client R c
      = R.findIdx? (fun e => keysIntersect (client_identity_keys e)
          (client_identity_keys c)) := by
  unfold find_matching_client
  dsimp only
  rw [if_neg (by simp [List.isEmpty_iff, hkeys])]

/-- Candidate with an email identity key and a single key-less trip. -/
def candC : ClientDatum :=
  { personal_info := { email_address := some "amy@example.com" },
    trips := [{ destination := some "Paris" }] }

/-- Candidate with no identity keys at all, only a name (relaxed matching). -/
def bobC : ClientDatum := { personal_info := { name := some "Bob" } }

/-- CLAIM C5 counterexample: merging the same candidate twice is NOT always
idempotent. (1) A candidate whose only trip has no identity key (destination
without start date): the first merge stores one trip, the second re-merge
appends the key-less trip again, growing the merged client to two trips.
(2) The relaxed-matching path: against a roster of two same-named clients the
key-less candidate matches nothing and is appended on every merge, growing the
roster from 2 to 3 and then to 4 entries. -/
theorem C5_merge_idempotence_counterexample :
    ((merge_client_records [] [candC] "t1").map (fun x => x.trips.length) = [1] ∧
     (merge_client_records (merge_client_records [] [candC] "t1") [candC]
        "t2").map (fun x => x.trips.length) = [2]) ∧
    ((merge_client_records [bobC, bobC] [bobC] "t1").length = 3 ∧
     (merge_client_records (merge_client_records [bobC, bobC] [bobC] "t1")
        [bobC] "t2").length = 4) := by
  exact ⟨⟨by decide, by decide⟩, ⟨by decide, by decide⟩⟩

/-- CLAIM C5 (amended): merging the same candidate a second time changes
nothing PROVIDED the candidate is clean: it has at least one identity key (so
the relaxed-matching path is not taken), every trip has an identity key and
those keys are pairwise distinct, trip metadata and the extra and verification
field dicts are well-formed Python dicts, the interests are stripped non-blank
strings with case-insensitively distinct keys, and a truthy
`verification.requested_at` is not whitespace-only. Without these conditions
idempotence fails (see the counterexample). -/
theorem C5_merge_idempotence_amended (c : ClientDatum)
    (hkeys : client_identity_keys c ≠ [])
    (htripsS : ∀ u ∈ c.trips,
      (trip_identity_key u).isSome = true ∧ dictWF u.metadata)
    (htripsN : (c.trips.map trip_identity_key).Nodup)
    (hint : ∀ s ∈ c.interests, is_blank_str (some s) = false ∧ pyStrip s = s)
    (hintN : (c.interests.map pyLower).Nodup)
    (hextra : dictWF c.extra)
    (hvf : dictWF c.verification.fields)
    (hreq : truthyOptStr c.verification.requested_at = true →
      is_blank_str c.verification.requested_at = false)
    (R : List ClientDatum) (now1 now2 : String) :
    merge_client_records (merge_client_records R [c] now1) [c] now2
      = merge_client_records R [c] now1 := by
  show mergeClientStep now2 (mergeClientStep now1 R c) c
      = mergeClientStep now1 R c
  have hfind := find_matching_client_of_keys R c hkeys
  cases hf : R.findIdx? (fun e => keysIntersect (client_identity_keys e)
      (client_identity_keys c)) with
  | none =>
      have hred : mergeClientStep now1 R c = R ++ [c] := by
        unfold mergeClientStep
        rw [hfind, hf]
      rw [hred]
      have hall := List.findIdx?_eq_none_iff.mp hf
      have hfind2 : (R ++ [c]).findIdx?
          (fun e => keysIntersect (client_identity_keys e)
            (client_identity_keys c)) = some R.length := by
        apply List.findIdx?_eq_some_iff_getElem.mpr
        refine ⟨by simp, ?_, ?_⟩
        · have hbl : R.length < (R ++ [c]).length := by simp
          have hgetl : (R ++ [c])[R.length] = c :=
            List.getElem_concat_length R c R.length rfl hbl
          rw [hgetl]
          exact keysIntersect_self _ hkeys
        · intro j hj
          have hbj : j < (R ++ [c]).length := by simp; omega
          have hgl : (R ++ [c])[j] = R[j] :=
            List.getElem_append_left hj
          rw [hgl]
          have := hall R[j] (List.getElem_mem hj)
          simp [this]
      have hget2 : (R ++ [c]).get? R.length = some c := by simp
      unfold mergeClientStep
      rw [find_matching_client_of_keys (R ++ [c]) c hkeys, hfind2]
      show (match (R ++ [c]).get? R.length with
        | none => R ++ [c]
        | some m => (R ++ [c]).set R.length (merge_client m c now2)) = R ++ [c]
      rw [hget2]
      show (R ++ [c]).set R.length (merge_client c c now2) = R ++ [c]
      rw [merge_client_self c now2 htripsS htripsN hint hintN hextra hvf]
      exact set_get?_self _ _ _ hget2
  | some i =>
      obtain ⟨hlt, hpi2, hprev⟩ := List.findIdx?_eq_some_iff_getElem.mp hf
      have hget : R.get? i = some R[i] := by
        rw [List.get?_eq_getElem?]
        exact List.getElem?_eq_getElem hlt
      have hred : mergeClientStep now1 R c
          = R.set i (merge_client R[i] c now1) := by
        unfold mergeClientStep
        rw [hfind, hf]
        show (match R.get? i with
          | none => R
          | some m => R.set i (merge_client m c now1)) = _
        rw [hget]
      rw [hred]
      have hint2 : keysIntersect
          (client_identity_keys (merge_client R[i] c now1))
          (client_identity_keys c) = true :=
        merge_client_intersect_preserved R[i] c now1 hpi2
      have hfind2 : (R.set i (merge_client R[i] c now1)).findIdx?
          (fun e => keysIntersect (client_identity_keys e)
            (client_identity_keys c)) = some i := by
        apply List.findIdx?_eq_some_iff_getElem.mpr
        refine ⟨by simpa using hlt, ?_, ?_⟩
        · have hbi : i < (R.set i (merge_client R[i] c now1)).length := by
            simpa using hlt
          have : (R.set i (merge_client R[i] c now1))[i]
              = merge_client R[i] c now1 :=
            List.getElem_set_eq hbi
          rw [this]
          exact hint2
        · intro j hj
          have hjl : j < R.length := lt_trans hj hlt
          have hbj : j < (R.set i (merge_client R[i] c now1)).length := by
            simpa using hjl
          have : (R.set i (merge_client R[i] c now1))[j]
              = R[j] := List.getElem_set_ne (by omega) hbj
          rw [this]
          exact hprev j hj
      have hget2 : (R.set i (merge_client R[i] c now1)).get? i
          = some (merge_client R[i] c now1) :=
        List.get?_set_eq_of_lt _ hlt
      unfold mergeClientStep
      rw [find_matching_client_of_keys _ c hkeys, hfind2]
      show (match (R.set i (merge_client R[i] c now1)).get? i with
        | none => R.set i (merge_client R[i] c now1)
        | some m => (R.set i (merge_client R[i] c now1)).set i
            (merge_client m c now2))
          = R.set i (merge_client R[i] c now1)
      rw [hget2]
      show (R.set i (merge_client R[i] c now1)).set i
          (merge_client (merge_client R[i] c now1) c now2)
          = R.set i (merge_client R[i] c now1)
      rw [merge_client_idem R[i] c now1 now2 htripsS htripsN hextra hvf hreq]
      exact set_get?_self _ _ _ hget2

/-- A clean candidate: identity key, keyed trip, clean interests, well-formed
dicts and a well-formed requested-at stamp. -/
def cleanCand : ClientDatum :=
  { client_id := some "CL-1",
    personal_info := { email_address := some "amy@example.com" },
    trips := [{ trip_id := some "T1", destination := some "Paris",
                start_date := some ⟨2025, 5, 1⟩ }],
    interests := ["hiking"],
    verification := { status := VStatus.pending,
                      requested_at := some "2025-05-01T00:00:00" } }

/-- Witness for the amended C5 at a concrete clean candidate. -/
theorem C5_merge_idempotence_amended_witness :
    merge_client_records (merge_client_records [] [cleanCand] "t1") [cleanCand]
      "t2" = merge_client_records [] [cleanCand] "t1" :=
  C5_merge_idempotence_amended cleanCand (by decide) (by decide) (by decide)
    (by decide) (by decide) (by decide) (by decide) (by decide) [] "t1" "t2"

end InsuranceAgent
